import Mathlib

/-!
Shallow embedding of the SmashBoard match-scheduling engine
(`src/schedulers/shared.js`, `src/schedulers/singlesScheduler.js`,
`doublesScheduler.js`, `teamedDoublesScheduler.js`, `kingOfCourtScheduler.js`
and the match-completion handling in `src/PickleballTournamentManager.js`),
together with theorems settling the specification claims.

Modelling conventions:
* JS numbers are modelled as `ℚ` (ratings, priority scores) or `ℕ`/`ℤ`
  (counters, round indices); scores entered for a match are `Option ℤ`
  (`none` = the empty string, i.e. not entered).
* JS objects keyed by entity id are association lists `List (ℕ × _)`;
  `Map`/plain-object history maps whose only use is point lookup with a `0`
  default are modelled as total functions `ℕ → ℕ`.
* `Math.random()` draws are explicit parameters (a jitter assignment per
  entity id, an oracle `ℕ → ℕ` for index draws, a permutation for the
  round-0 shuffle).  Every theorem quantifies over those parameters or
  instantiates them with a concrete possible draw.
* `console.log` tracing, match `id`/timestamps and other fields never read
  by the engine are dropped.
-/

namespace SmashBoard

/-- Player gender as used by the schedulers (`p.gender === 'female'` tests). -/
inductive Gender
  | male
  | female
deriving DecidableEq, Repr

/-- A roster entry as consumed by the engine: stable id, rating, gender. -/
structure Player where
  id : ℕ
  rating : ℚ
  gender : Gender
deriving DecidableEq, Repr

/-- The seven rating tiers of `SKILL_LEVELS` in `shared.js`, in key order. -/
inductive SkillKey
  | BEGINNER
  | ADVANCED_BEGINNER
  | INTERMEDIATE
  | ADVANCED_INTERMEDIATE
  | ADVANCED
  | EXPERT
  | EXPERT_PRO
deriving DecidableEq, Repr

/-- `Object.keys(SKILL_LEVELS)` — the tier keys in declaration order. -/
def skillKeys : List SkillKey :=
  [.BEGINNER, .ADVANCED_BEGINNER, .INTERMEDIATE, .ADVANCED_INTERMEDIATE,
   .ADVANCED, .EXPERT, .EXPERT_PRO]

/-- The `min`/`max` rating bounds of each tier in `SKILL_LEVELS`. -/
def skillRange : SkillKey → ℚ × ℚ
  | .BEGINNER => (2, 29/10)
  | .ADVANCED_BEGINNER => (3, 34/10)
  | .INTERMEDIATE => (35/10, 39/10)
  | .ADVANCED_INTERMEDIATE => (4, 44/10)
  | .ADVANCED => (45/10, 49/10)
  | .EXPERT => (5, 54/10)
  | .EXPERT_PRO => (55/10, 6)

/-- `getPlayerSkillLevel` (shared.js): first tier whose range contains the
rating, falling back to `BEGINNER`. -/
def getPlayerSkillLevel (rating : ℚ) : SkillKey :=
  (skillKeys.find? fun k =>
    decide ((skillRange k).1 ≤ rating) && decide (rating ≤ (skillRange k).2)).getD .BEGINNER

/-- `Object.keys(SKILL_LEVELS).indexOf(key)`. -/
def skillIdx : SkillKey → ℕ
  | .BEGINNER => 0
  | .ADVANCED_BEGINNER => 1
  | .INTERMEDIATE => 2
  | .ADVANCED_INTERMEDIATE => 3
  | .ADVANCED => 4
  | .EXPERT => 5
  | .EXPERT_PRO => 6

/-- `canPlayTogether` (shared.js): tier indices at most one apart. -/
def canPlayTogether (p1 p2 : Player) : Bool :=
  ((skillIdx (getPlayerSkillLevel p1.rating) : ℤ)
    - (skillIdx (getPlayerSkillLevel p2.rating) : ℤ)).natAbs ≤ 1

/-- `avg` (shared.js) on a two-player team represented as a pair. -/
def avg (t : Player × Player) : ℚ := (t.1.rating + t.2.rating) / 2

/-! ### Generic helpers for the JS idioms

`minBy?` captures the ubiquitous `let best = null; let bestScore = Infinity;
forEach { if (score < bestScore) ... }` scan: it returns the first element
attaining the minimum of `f`, or `none` on the empty list.

`minZip` is the same scan but returning the surrounding context
(prefix, minimum, suffix) so that callers that mutate the chosen element in
place can be embedded.

`sortDescBy f` is a stable descending sort by the score `f`, matching
`array.sort((a, b) => b.score - a.score)` (JS `Array.prototype.sort` is
stable). -/

/-- First element of `x :: l` attaining the minimum of `f`
(strict-less scan keeps the earliest minimum). -/
def minByD (f : α → ℚ) (x : α) : List α → α
  | [] => x
  | y :: ys =>
    let m := minByD f y ys
    if f m < f x then m else x

/-- First element attaining the minimum of `f` (the
`let bestScore = Infinity; forEach { if (score < bestScore) ... }` scan),
or `none` on the empty list. -/
def minBy? (f : α → ℚ) : List α → Option α
  | [] => none
  | x :: xs => some (minByD f x xs)

/-- Zipper form of the first-minimum scan on `x :: l`:
returns `(prefix, minimum, suffix)`. -/
def minZipD (f : α → ℚ) (x : α) : List α → List α × α × List α
  | [] => ([], x, [])
  | y :: ys =>
    let r := minZipD f y ys
    if f r.2.1 < f x then (x :: r.1, r.2.1, r.2.2) else ([], x, y :: ys)

/-- First-minimum zipper: `minZip f l = some (pre, m, suf)` with
`l = pre ++ m :: suf` and `m` the first element minimising `f`. -/
def minZip (f : α → ℚ) : List α → Option (List α × α × List α)
  | [] => none
  | x :: xs => some (minZipD f x xs)

/-- Stable descending sort by score `f`, i.e. JS
`array.sort((a, b) => f(b) - f(a))`. -/
def sortDescBy (f : α → ℚ) (l : List α) : List α :=
  List.insertionSort (fun a b => f b ≤ f a) l

/-! ### `separatePlayersBySkill` (shared.js)

The seven tier buckets are a total function `SkillKey → List Player`;
`bumpFrom` is the body of each merge pass (move an undersized non-empty
bucket into the nearest non-empty bucket in the given direction).
The returned `bumpedPlayers` diagnostic of the source is not consumed by any
scheduler logic and is dropped. -/

/-- The mutable tier buckets of `separatePlayersBySkill`. -/
def Buckets : Type := SkillKey → List Player

/-- Replace one bucket. -/
def bucketPut (b : Buckets) (k : SkillKey) (l : List Player) : Buckets :=
  fun k2 => if k2 = k then l else b k2

/-- Initial assignment: each player is pushed onto the bucket of its tier. -/
def assignToBuckets (players : List Player) : Buckets :=
  players.foldl
    (fun b p =>
      let k := getPlayerSkillLevel p.rating
      bucketPut b k (b k ++ [p]))
    (fun _ => [])

/-- `while (t ...) t++` search: the first index in `idxs` whose bucket is
non-empty, as a key. -/
def firstNonempty (b : Buckets) (idxs : List ℕ) : Option SkillKey :=
  idxs.findSome? fun j =>
    match skillKeys.get? j with
    | some k => if (b k).isEmpty then none else some k
    | none => none

/-- One step of a merge pass: if bucket `i` is non-empty but undersized,
move its members into the first non-empty bucket among `targetIdxs`. -/
def bumpFrom (minSize : ℕ) (b : Buckets) (i : ℕ) (targetIdxs : List ℕ) : Buckets :=
  match skillKeys.get? i with
  | none => b
  | some k =>
    let g := b k
    if 0 < g.length ∧ g.length < minSize then
      match firstNonempty b targetIdxs with
      | some t => bucketPut (bucketPut b t (b t ++ g)) k []
      | none => b
    else b

/-- First pass of `separatePlayersBySkill`: bump undersized buckets UP. -/
def upPass (minSize : ℕ) (b : Buckets) : Buckets :=
  (List.range 7).foldl (fun b2 i => bumpFrom minSize b2 i (List.range' (i + 1) (7 - (i + 1)))) b

/-- Second pass: bump buckets still undersized DOWN. -/
def downPass (minSize : ℕ) (b : Buckets) : Buckets :=
  (List.range 7).reverse.foldl (fun b2 i => bumpFrom minSize b2 i (List.range i).reverse) b

/-- A bucket in the scheduler's output; `level = none` is the synthetic
MIXED fallback bucket. -/
structure SkillGroup where
  level : Option SkillKey
  players : List Player
  minRating : ℚ
  maxRating : ℚ
deriving DecidableEq, Repr

/-- `Math.min(...players.map(p => p.rating))` (callers only use it on
non-empty lists; `0` stands in for the empty case). -/
def minRatingOf : List Player → ℚ
  | [] => 0
  | p :: ps => ps.foldl (fun acc q => min acc q.rating) p.rating

/-- `Math.max(...players.map(p => p.rating))`. -/
def maxRatingOf : List Player → ℚ
  | [] => 0
  | p :: ps => ps.foldl (fun acc q => max acc q.rating) p.rating

/-- Collect buckets of size `≥ minSize` into groups (in tier order) and the
rest into the orphan list. -/
def collectGroups (minSize : ℕ) (b : Buckets) : List SkillGroup × List Player :=
  skillKeys.foldl
    (fun acc k =>
      let g := b k
      if minSize ≤ g.length then
        (acc.1 ++ [{ level := some k, players := g,
                     minRating := minRatingOf g, maxRating := maxRatingOf g }], acc.2)
      else if 0 < g.length then (acc.1, acc.2 ++ g)
      else acc)
    ([], [])

/-- The midpoint `(minRating + maxRating) / 2` used to place orphans. -/
def midRating (g : SkillGroup) : ℚ := (g.minRating + g.maxRating) / 2

/-- `closestGroup.players.push(orphan)` plus the span update. -/
def withOrphan (g : SkillGroup) (o : Player) : SkillGroup :=
  { g with players := g.players ++ [o]
           minRating := min g.minRating o.rating
           maxRating := max g.maxRating o.rating }

/-- Add one orphan to the group whose rating midpoint is closest
(first-found on ties), updating that group's span. -/
def absorbOrphan (gs : List SkillGroup) (o : Player) : List SkillGroup :=
  match minZip (fun g => |o.rating - midRating g|) gs with
  | none => gs
  | some (pre, g, suf) => pre ++ (withOrphan g o :: suf)

/-- The synthetic MIXED fallback bucket holding the whole population. -/
def mixedGroup (players : List Player) : SkillGroup :=
  { level := none
    players := players
    minRating := minRatingOf players
    maxRating := maxRatingOf players }

/-- Orphan handling at the end of `separatePlayersBySkill`: given the
collected `(groups, orphans)` pair, absorb each orphan into the closest
group, or produce the single MIXED bucket when no group survived. -/
def finishGroups (players : List Player) (fo : List SkillGroup × List Player) :
    List SkillGroup :=
  if fo.2.isEmpty then fo.1
  else if fo.1.isEmpty then [mixedGroup players]
  else fo.2.foldl absorbOrphan fo.1

/-- `separatePlayersBySkill` (shared.js): tier assignment, two merge passes,
orphan handling. -/
def separatePlayersBySkill (players : List Player) (minSize : ℕ) : List SkillGroup :=
  finishGroups players
    (collectGroups minSize (downPass minSize (upPass minSize (assignToBuckets players))))

/-! ### Stats maps and the doubles team split -/

/-- Point lookup in an association-list stats map (`stats[id]`). -/
def lookupEntry {β : Type} (s : List (ℕ × β)) (k : ℕ) : Option β :=
  (s.find? fun e => e.1 == k).map fun e => e.2

/-- In-place mutation of one entry (`stats[id].field = ...`). -/
def modifyEntry {β : Type} (s : List (ℕ × β)) (k : ℕ) (f : β → β) : List (ℕ × β) :=
  s.map fun e => if e.1 = k then (e.1, f e.2) else e

/-- `if (!stats[id]) stats[id] = fresh` — lazy creation of an entry. -/
def addIfAbsent {β : Type} (s : List (ℕ × β)) (k : ℕ) (fresh : β) : List (ℕ × β) :=
  match lookupEntry s k with
  | some _ => s
  | none => s ++ [(k, fresh)]

/-- Per-player stats entry of the doubles scheduler
(`initializePlayerStats` in doublesScheduler.js); the `player` back-pointer
is dropped, history maps are total functions with default `0`. -/
structure DStats where
  roundsPlayed : ℕ
  roundsSatOut : ℕ
  consecutiveRounds : ℕ
  lastPlayedRound : ℤ
  teammates : ℕ → ℕ
  opponents : ℕ → ℕ

/-- A fresh doubles stats entry (also the `|| {...}` default at read sites). -/
def freshDStats : DStats :=
  { roundsPlayed := 0
    roundsSatOut := 0
    consecutiveRounds := 0
    lastPlayedRound := -1
    teammates := fun _ => 0
    opponents := fun _ => 0 }

/-- The doubles scheduler's stats map. -/
def DStatsMap : Type := List (ℕ × DStats)

/-- `playerStats[id] || default` read. -/
def dStat (s : DStatsMap) (k : ℕ) : DStats := (lookupEntry s k).getD freshDStats

/-- One 2-vs-2 split of a foursome. -/
structure Split where
  team1 : Player × Player
  team2 : Player × Player
deriving DecidableEq, Repr

/-- The inter-side rating gap of a split. -/
def splitGap (s : Split) : ℚ := |avg s.team1 - avg s.team2|

/-- A two-player side contains a female and a non-female player. -/
def pairIsMixed (t : Player × Player) : Bool :=
  ((t.1.gender == Gender.female) || (t.2.gender == Gender.female)) &&
    (!(t.1.gender == Gender.female) || !(t.2.gender == Gender.female))

/-- The split score of the doubles `findBestTeamSplit`
(doublesScheduler.js): rating gap ×10, teammate history ×15, −3 per
tier-homogeneous side, −40 per mixed-gender side when the mixed-doubles
preference is enabled. -/
def splitScore (stats : DStatsMap) (preferMixedDoubles : Bool) (s : Split) : ℚ :=
  splitGap s * 10
    + ((dStat stats s.team1.1.id).teammates s.team1.2.id
        + (dStat stats s.team2.1.id).teammates s.team2.2.id : ℕ) * 15
    - (if getPlayerSkillLevel s.team1.1.rating = getPlayerSkillLevel s.team1.2.rating
        then 3 else 0)
    - (if getPlayerSkillLevel s.team2.1.rating = getPlayerSkillLevel s.team2.2.rating
        then 3 else 0)
    - (if preferMixedDoubles && pairIsMixed s.team1 then 40 else 0)
    - (if preferMixedDoubles && pairIsMixed s.team2 then 40 else 0)

/-- The three 2-vs-2 partitions of the foursome `[p1, p2, p3, p4]`, in the
order both schedulers enumerate them. -/
def splitOptions (p1 p2 p3 p4 : Player) : List Split :=
  [{ team1 := (p1, p2), team2 := (p3, p4) },
   { team1 := (p1, p3), team2 := (p2, p4) },
   { team1 := (p1, p4), team2 := (p2, p3) }]

/-- `findBestTeamSplit` (doublesScheduler.js): first split minimising
`splitScore` (strict-less scan). -/
def findBestTeamSplit (stats : DStatsMap) (preferMixedDoubles : Bool)
    (p1 p2 p3 p4 : Player) : Split :=
  minByD (splitScore stats preferMixedDoubles)
    { team1 := (p1, p2), team2 := (p3, p4) }
    [{ team1 := (p1, p3), team2 := (p2, p4) },
     { team1 := (p1, p4), team2 := (p2, p3) }]

/-- `findBestTeamSplit` (kingOfCourtScheduler.js): first split minimising
the plain inter-side rating gap. -/
def findBestTeamSplitKOT (p1 p2 p3 p4 : Player) : Split :=
  minByD splitGap
    { team1 := (p1, p2), team2 := (p3, p4) }
    [{ team1 := (p1, p3), team2 := (p2, p4) },
     { team1 := (p1, p4), team2 := (p2, p3) }]

/-! ### King-of-Court stats and the completion hook -/

/-- Match status (`pending → completed`). -/
inductive MStatus
  | pending
  | completed
deriving DecidableEq, Repr

/-- A declared winning side (`'team1'` / `'team2'`). -/
inductive Side
  | team1
  | team2
deriving DecidableEq, Repr

/-- Per-entity King-of-Court stats entry (`initializeKingOfCourtStats` /
`initializeKingOfCourtTeamStats`); the `player`/`team` back-pointer is
dropped. -/
structure KStats where
  totalPoints : ℤ
  court1Wins : ℕ
  currentCourt : Option ℕ
  courtHistory : List ℕ
  roundsPlayed : ℕ
  roundsSatOut : ℕ
  lastPlayedRound : ℤ
deriving DecidableEq, Repr

/-- A fresh King-of-Court stats entry. -/
def freshKStats : KStats :=
  { totalPoints := 0
    court1Wins := 0
    currentCourt := none
    courtHistory := []
    roundsPlayed := 0
    roundsSatOut := 0
    lastPlayedRound := -1 }

/-- The King-of-Court stats map (players or teams, keyed by id). -/
def KStatsMap : Type := List (ℕ × KStats)

/-- A generated King-of-Court individual match. `isKing` models
`courtLevel === 'KING'`, which generation sets exactly on hierarchy index 0
(the King court). -/
structure KMatch where
  court : ℕ
  isKing : Bool
  team1 : Player × Player
  team2 : Player × Player
  diff : ℚ
  status : MStatus
  winner : Option Side
  pointsForWin : ℤ
deriving DecidableEq, Repr

/-- A generated King-of-Court teamed-doubles match (the fields the stats
hook and court assignment read). -/
structure KTMatch where
  court : ℕ
  isKing : Bool
  team1Id : ℕ
  team2Id : ℕ
  status : MStatus
  winner : Option Side
  pointsForWin : ℤ
deriving DecidableEq, Repr

/-- The per-winner update of the completion hook: add `pointsForWin` to
`totalPoints`, and increment `court1Wins` on the King court. -/
def kotWinUpd (isKing : Bool) (pts : ℤ) (e : KStats) : KStats :=
  { e with totalPoints := e.totalPoints + pts
           court1Wins := if isKing then e.court1Wins + 1 else e.court1Wins }

/-- `updateKOTStats` (kingOfCourtScheduler.js): on a completed match with a
winner, credit both players of the winning side (when present in the map). -/
def updateKOTStats (kotStats : KStatsMap) (m : KMatch) : KStatsMap :=
  if m.status = .completed then
    match m.winner with
    | none => kotStats
    | some w =>
      let wt := if w = Side.team1 then m.team1 else m.team2
      modifyEntry
        (modifyEntry kotStats wt.1.id (kotWinUpd m.isKing m.pointsForWin))
        wt.2.id (kotWinUpd m.isKing m.pointsForWin)
  else kotStats

/-- `updateKOTTeamStats` (kingOfCourtScheduler.js): on a completed match
with a winner, credit the winning team id (when present in the map). -/
def updateKOTTeamStats (s : KStatsMap) (m : KTMatch) : KStatsMap :=
  if m.status = .completed then
    match m.winner with
    | none => s
    | some w =>
      let wid := if w = Side.team1 then m.team1Id else m.team2Id
      modifyEntry s wid (kotWinUpd m.isKing m.pointsForWin)
  else s

/-- A concrete completed King-court match (side 1 wins, 6 points). -/
def kmEx : KMatch :=
  { court := 1
    isKing := true
    team1 := (⟨1, 4, .male⟩, ⟨2, 4, .male⟩)
    team2 := (⟨3, 4, .male⟩, ⟨4, 4, .male⟩)
    diff := 0
    status := .completed
    winner := some .team1
    pointsForWin := 6 }

/-- A concrete completed non-King teamed match (side 1 wins, 2 points). -/
def ktmEx : KTMatch :=
  { court := 2
    isKing := false
    team1Id := 10
    team2Id := 11
    status := .completed
    winner := some .team1
    pointsForWin := 2 }

/-! ### `generateBalancedKOTTeams` (kingOfCourtScheduler.js)

The snake ("serpentine") filler walks team slots `0, 1, …, k−1, k−1, …, 0,
0, 1, …` over the players sorted by rating descending, filling `player1`
first, then `player2`, and silently dropping a player whose current slot is
already full. -/

/-- One team slot `{ player1, player2 }` of the snake builder. -/
def TeamSlot : Type := Option Player × Option Player

/-- The `currentTeam`/`direction` update at the end of each loop step. -/
def snakeAdvance (k : ℕ) (cur : ℕ) (up : Bool) : ℕ × Bool :=
  if up then
    if k ≤ cur + 1 then (k - 1, false) else (cur + 1, true)
  else
    if cur = 0 then (0, true) else (cur - 1, false)

/-- The main loop of `generateBalancedKOTTeams`: place each player into the
current slot (player1 first, then player2, else drop), then advance. -/
def snakeFill (k : ℕ) : List Player → List TeamSlot → ℕ → Bool → List TeamSlot
  | [], slots, _, _ => slots
  | p :: ps, slots, cur, up =>
    let slots2 :=
      match slots.get? cur with
      | some sl =>
        if sl.1 = none then slots.set cur (some p, sl.2)
        else if sl.2 = none then slots.set cur (sl.1, some p)
        else slots
      | none => slots
    snakeFill k ps slots2 (snakeAdvance k cur up).1 (snakeAdvance k cur up).2

/-- Gender category of a fixed team, as derived by the team builder. -/
inductive TeamGender
  | male_male
  | female_female
  | mixed
deriving DecidableEq, Repr

/-- The sequential gender classification of `generateBalancedKOTTeams`. -/
def pairGender (a b : Player) : TeamGender :=
  if a.gender = Gender.male ∧ b.gender = Gender.male then .male_male
  else if a.gender = Gender.female ∧ b.gender = Gender.female then .female_female
  else .mixed

/-- A fixed doubles team (`{ id, player1, player2, avgRating, gender }`);
the fresh `uid()` of a generated team is modelled as its slot index. -/
structure Team where
  id : ℕ
  player1 : Player
  player2 : Player
  avgRating : ℚ
  gender : TeamGender
deriving DecidableEq, Repr

/-- Keep a slot as a team only when both of its players were assigned. -/
def slotToTeam (isl : ℕ × TeamSlot) : Option Team :=
  match isl.2.1, isl.2.2 with
  | some a, some b =>
    some { id := isl.1
           player1 := a
           player2 := b
           avgRating := (a.rating + b.rating) / 2
           gender := pairGender a b }
  | _, _ => none

/-- `generateBalancedKOTTeams` (kingOfCourtScheduler.js): sort by rating
descending, snake-fill `⌊n/2⌋` slots, and keep the fully-filled slots as
teams. -/
def generateBalancedKOTTeams (players : List Player) : List Team :=
  if players.length < 2 then []
  else
    (snakeFill (players.length / 2) (sortDescBy (fun p => p.rating) players)
      (List.replicate (players.length / 2) ((none, none) : TeamSlot)) 0 true).enum.filterMap
      slotToTeam

/-- Effect of the ascending snake phase: `player1` of slots
`cur, cur+1, …` is set in order. -/
def fillAsc (slots : List TeamSlot) (cur : ℕ) : List Player → List TeamSlot
  | [] => slots
  | p :: ps => fillAsc (slots.set cur (some p, none)) (cur + 1) ps

/-- Set the `player2` of slot `cur`, keeping its `player1`. -/
def setP2 (slots : List TeamSlot) (cur : ℕ) (p : Player) : List TeamSlot :=
  match slots.get? cur with
  | some sl => slots.set cur (sl.1, some p)
  | none => slots

/-- Effect of the descending snake phase: `player2` of slots
`cur, cur−1, …` is set in order. -/
def fillDesc (slots : List TeamSlot) (cur : ℕ) : List Player → List TeamSlot
  | [] => slots
  | p :: ps => fillDesc (setP2 slots cur p) (cur - 1) ps

/-- The team built from slot `i` holding the pair `(a, b)`. -/
def mkSnakeTeam (iab : ℕ × Player × Player) : Team :=
  { id := iab.1
    player1 := iab.2.1
    player2 := iab.2.2
    avgRating := (iab.2.1.rating + iab.2.2.rating) / 2
    gender := pairGender iab.2.1 iab.2.2 }

/-- The two players of a fixed team. -/
def teamPlayers (t : Team) : List Player := [t.player1, t.player2]

/-! ### Match completion (`quickWin` / `setWinner`,
PickleballTournamentManager.js)

Scores entered in the UI are strings; `Option ℤ` models them (`none` = the
empty string).  `quickWin` returning `none` models the source's
`alert(...); return prev;` paths: the rounds array — and hence the match's
`status`/`winner` — is returned unchanged, and `setWinner` (the only caller
of the point-accrual hooks `updateKOTStats`/`updateKOTTeamStats`) is never
invoked, so no stats state is touched either. -/

/-- The two round-robin match formats `quickWin` distinguishes. -/
inductive MatchFormat
  | single_match
  | best_of_3
deriving DecidableEq, Repr

/-- The fields of a manager match that `quickWin`/`setWinner` read or
write. -/
structure MgrMatch where
  matchFormat : MatchFormat
  score1 : Option ℤ
  score2 : Option ℤ
  game1Score1 : Option ℤ
  game1Score2 : Option ℤ
  game2Score1 : Option ℤ
  game2Score2 : Option ℤ
  game3Score1 : Option ℤ
  game3Score2 : Option ℤ
  status : MStatus
  winner : Option Side
deriving DecidableEq, Repr

/-- `setWinner` (PickleballTournamentManager.js): record the declared side
and complete the match (timing fields dropped; the KOT point hook it
triggers is `updateKOTStats`/`updateKOTTeamStats`). -/
def setWinner (m : MgrMatch) (side : ℕ) : MgrMatch :=
  { m with winner := some (if side = 1 then Side.team1 else Side.team2)
           status := .completed }

/-- `quickWin` (PickleballTournamentManager.js), one match: `none` models
every `alert(...); return prev;` rejection path, `some` the accepted
completion via `setWinner`. -/
def quickWin (m : MgrMatch) (side : ℕ) : Option MgrMatch :=
  match m.matchFormat with
  | .best_of_3 =>
    match m.game1Score1, m.game1Score2, m.game2Score1, m.game2Score2 with
    | some g1s1, some g1s2, some g2s1, some g2s2 =>
      if g1s1 = g1s2 then none
      else if g2s1 = g2s2 then none
      else
        let team1Games : ℕ :=
          (if g1s2 < g1s1 then 1 else 0) + (if g2s2 < g2s1 then 1 else 0)
        if team1Games = 2 ∨ team1Games = 0 then
          let actualWinner : ℕ := if team1Games = 2 then 1 else 2
          if actualWinner ≠ side then none else some (setWinner m side)
        else
          let g3s1 := m.game3Score1.getD 0
          let g3s2 := m.game3Score2.getD 0
          if g3s1 = 0 ∨ g3s2 = 0 then none
          else if g3s1 = g3s2 then none
          else
            let actualWinner : ℕ := if g3s2 < g3s1 then 1 else 2
            if actualWinner ≠ side then none else some (setWinner m side)
    | _, _, _, _ => none
  | .single_match =>
    match m.score1, m.score2 with
    | some s1, some s2 =>
      if s1 = s2 then none
      else
        let actualWinner : ℕ := if s2 < s1 then 1 else 2
        if actualWinner ≠ side then none else some (setWinner m side)
    | _, _ => none

/-- The winner determined from the entered scores alone (the validation
reference of `quickWin`): `none` when the scores are missing, tied, or — in
the best-of-3 game-3 case — entered as `0` (which `Number('')`-style
coercion treats as missing). -/
def scoreWinner (m : MgrMatch) : Option ℕ :=
  match m.matchFormat with
  | .best_of_3 =>
    match m.game1Score1, m.game1Score2, m.game2Score1, m.game2Score2 with
    | some g1s1, some g1s2, some g2s1, some g2s2 =>
      if g1s1 = g1s2 then none
      else if g2s1 = g2s2 then none
      else
        let team1Games : ℕ :=
          (if g1s2 < g1s1 then 1 else 0) + (if g2s2 < g2s1 then 1 else 0)
        if team1Games = 2 then some 1
        else if team1Games = 0 then some 2
        else
          let g3s1 := m.game3Score1.getD 0
          let g3s2 := m.game3Score2.getD 0
          if g3s1 = 0 ∨ g3s2 = 0 then none
          else if g3s1 = g3s2 then none
          else if g3s2 < g3s1 then some 1 else some 2
    | _, _, _, _ => none
  | .single_match =>
    match m.score1, m.score2 with
    | some s1, some s2 =>
      if s1 = s2 then none
      else if s2 < s1 then some 1 else some 2
    | _, _ => none

/-! ### Round-robin teamed doubles (`teamedDoublesScheduler.js`) -/

/-- Per-team stats entry of the teamed doubles scheduler. -/
structure TStats where
  roundsPlayed : ℕ
  roundsSatOut : ℕ
  lastPlayedRound : ℤ
  opponents : ℕ → ℕ

/-- A fresh team stats entry (also the `|| {...}` default at read sites). -/
def freshTStats : TStats :=
  { roundsPlayed := 0
    roundsSatOut := 0
    lastPlayedRound := -1
    opponents := fun _ => 0 }

/-- The teamed scheduler's stats map. -/
def TStatsMap : Type := List (ℕ × TStats)

/-- `teamStats[id] || default` read. -/
def tStat (s : TStatsMap) (k : ℕ) : TStats := (lookupEntry s k).getD freshTStats

/-- `Object.values(teamStats)` average of `roundsPlayed` (0 before round 1,
0 on an empty map — JS would give NaN there, but the map is never empty at
the call sites). -/
def tAvgRoundsPlayed (s : TStatsMap) (roundIdx : ℕ) : ℚ :=
  if 0 < roundIdx then
    (s.map fun e => (e.2.roundsPlayed : ℚ)).sum / (s.length : ℚ)
  else 0

/-- The fairness priority of `selectTeamsForRound`
(teamedDoublesScheduler.js): `satOut×500 + sinceLastPlayed×200 (or +1000 if
never played) + catchup×100 + jitter`. -/
def teamPriority (s : TStatsMap) (roundIdx : ℕ) (jit : ℕ → ℚ) (t : Team) : ℚ :=
  let st := tStat s t.id
  (st.roundsSatOut : ℚ) * 500
    + (if 0 ≤ st.lastPlayedRound
        then ((roundIdx : ℚ) - (st.lastPlayedRound : ℚ)) * 200
        else 1000)
    + (tAvgRoundsPlayed s roundIdx - (st.roundsPlayed : ℚ)) * 100
    + jit t.id

/-- `selectTeamsForRound`: everyone fits, or the top-`maxTeams` by priority
descending. -/
def selectTeamsForRound (allTeams : List Team) (s : TStatsMap) (maxTeams : ℕ)
    (roundIdx : ℕ) (jit : ℕ → ℚ) : List Team :=
  if allTeams.length ≤ maxTeams then allTeams
  else (sortDescBy (teamPriority s roundIdx jit) allTeams).take maxTeams

/-- All `i < j` index pairs of a list, in the nested-loop order of
`createMatchesForGender`. -/
def allPairs {α : Type} : List α → List (α × α)
  | [] => []
  | x :: xs => (xs.map fun y => (x, y)) ++ allPairs xs

/-- The pairing cost `adjustedDiff = |avg gap| + priorMatchups × 2` of
`createMatchesForGender`. -/
def pairCost (s : TStatsMap) (tt : Team × Team) : ℚ :=
  |tt.1.avgRating - tt.2.avgRating| + ((tStat s tt.1.id).opponents tt.2.id : ℚ) * 2

/-- A generated teamed-doubles match (ids, shared gender and rating gap;
the copied player arrays and blank score fields are dropped). -/
structure TMatch where
  court : ℕ
  team1Id : ℕ
  team2Id : ℕ
  teamGender : TeamGender
  diff : ℚ
deriving DecidableEq, Repr

/-- The `while (remainingTeams.length >= 2 && courtIdx < courts)` pairing
loop: repeatedly match the globally closest (by `pairCost`) pair of the
remaining selected teams. -/
def pairTeams (s : TStatsMap) (courts : ℕ) (courtIdx : ℕ) (remaining : List Team) :
    List TMatch :=
  if h : 2 ≤ remaining.length ∧ courtIdx < courts then
    match minBy? (pairCost s) (allPairs remaining) with
    | some tt =>
      { court := courtIdx + 1
        team1Id := tt.1.id
        team2Id := tt.2.id
        teamGender := tt.1.gender
        diff := |tt.1.avgRating - tt.2.avgRating| }
        :: pairTeams s courts (courtIdx + 1) ((remaining.erase tt.1).erase tt.2)
    | none => []
  else []
  termination_by courts - courtIdx
  decreasing_by
    omega

/-- `createMatchesForGender`: select within one gender group (bounded by the
courts still free), then run the pairing loop. -/
def createMatchesForGender (s : TStatsMap) (courts : ℕ) (genderTeams : List Team)
    (courtIdx : ℕ) (roundIdx : ℕ) (jit : ℕ → ℚ) : List TMatch :=
  if genderTeams.length < 2 then []
  else
    pairTeams s courts courtIdx
      (selectTeamsForRound genderTeams s
        (min genderTeams.length ((courts - courtIdx) * 2)) roundIdx jit)

/-- Stats initialisation at the top of `generateTeamedDoublesRound` (the
`Map` re-coercion after JSON round-trips does not change the modelled
state). -/
def initTeamStats (s : TStatsMap) (teams : List Team) : TStatsMap :=
  teams.foldl (fun acc t => addIfAbsent acc t.id freshTStats) s

/-- `updateTeamStatsForRound`: for every team one of the two counters
advances, then opponent histories are recorded. -/
def updateTeamStatsForRound (s : TStatsMap) (allTeams : List Team)
    (ms : List TMatch) (roundIdx : ℕ) : TStatsMap :=
  let playingIds := ms.flatMap fun m => [m.team1Id, m.team2Id]
  let s2 := allTeams.foldl
    (fun acc t =>
      if t.id ∈ playingIds then
        modifyEntry acc t.id fun e =>
          { e with roundsPlayed := e.roundsPlayed + 1
                   lastPlayedRound := (roundIdx : ℤ) }
      else
        modifyEntry acc t.id fun e => { e with roundsSatOut := e.roundsSatOut + 1 })
    s
  ms.foldl
    (fun acc m =>
      modifyEntry
        (modifyEntry acc m.team1Id fun e =>
          { e with opponents := fun k =>
              if k = m.team2Id then e.opponents k + 1 else e.opponents k })
        m.team2Id fun e =>
          { e with opponents := fun k =>
              if k = m.team1Id then e.opponents k + 1 else e.opponents k })
    s2

/-- `generateTeamedDoublesRound` (teamedDoublesScheduler.js): initialise
stats, pair the three gender groups in order on the shared court counter,
then update the stats; returns the matches and the updated stats map. -/
def generateTeamedDoublesRound (teams : List Team) (courts : ℕ) (s : TStatsMap)
    (currentRoundIndex : ℕ) (jit : ℕ → ℚ) : List TMatch × TStatsMap :=
  let s2 := initTeamStats s teams
  let m1 := createMatchesForGender s2 courts
    (teams.filter fun t => t.gender = TeamGender.male_male) 0 currentRoundIndex jit
  let m2 := createMatchesForGender s2 courts
    (teams.filter fun t => t.gender = TeamGender.female_female) m1.length
    currentRoundIndex jit
  let m3 := createMatchesForGender s2 courts
    (teams.filter fun t => t.gender = TeamGender.mixed) (m1.length + m2.length)
    currentRoundIndex jit
  (m1 ++ m2 ++ m3, updateTeamStatsForRound s2 teams (m1 ++ m2 ++ m3) currentRoundIndex)

/-- The opponent score of `assignTeamedDoublesMatchToCourt`
(PickleballTournamentManager.js): `ratingGap×10 + priorMatchups×20 −
(5 − opponentRoundsPlayed)×2`. -/
def mgrOpponentScore (s : TStatsMap) (team1 team : Team) : ℚ :=
  |team1.avgRating - team.avgRating| * 10
    + ((tStat s team1.id).opponents team.id : ℚ) * 20
    - (5 - ((tStat s team.id).roundsPlayed : ℚ)) * 2

/-- The opponent choice of `assignTeamedDoublesMatchToCourt`: with three or
more priority-sorted candidates, the top-priority team meets the opponent
minimising `mgrOpponentScore`; with exactly two, they pair directly. -/
def chooseOpponent (s : TStatsMap) (sortedTeams : List Team) : Option (Team × Team) :=
  match sortedTeams with
  | [] => none
  | t1 :: rest =>
    if 3 ≤ (t1 :: rest).length then
      (minBy? (mgrOpponentScore s t1) rest).map fun t2 => (t1, t2)
    else
      match rest with
      | [t2] => some (t1, t2)
      | _ => none

/-- Three same-gender teams exercising the round-robin pairing: `tA` is far
behind on participation (5 sit-outs), `tB`/`tC` are close in rating. -/
def tA : Team :=
  { id := 1, player1 := ⟨11, 3, .male⟩, player2 := ⟨12, 3, .male⟩
    avgRating := 3, gender := .male_male }

/-- See `tA`. -/
def tB : Team :=
  { id := 2, player1 := ⟨21, 4, .male⟩, player2 := ⟨22, 4, .male⟩
    avgRating := 4, gender := .male_male }

/-- See `tA`. -/
def tC : Team :=
  { id := 3, player1 := ⟨31, 81/20, .male⟩, player2 := ⟨32, 81/20, .male⟩
    avgRating := 81/20, gender := .male_male }

/-- Stats for `tA`/`tB`/`tC`: `tA` sat out five rounds and never played,
`tB`/`tC` played round 0. -/
def statsC4 : TStatsMap :=
  [(1, { roundsPlayed := 0, roundsSatOut := 5, lastPlayedRound := -1
         opponents := fun _ => 0 }),
   (2, { roundsPlayed := 1, roundsSatOut := 0, lastPlayedRound := 0
         opponents := fun _ => 0 }),
   (3, { roundsPlayed := 1, roundsSatOut := 0, lastPlayedRound := 0
         opponents := fun _ => 0 })]

/-! ### Round-robin doubles (`doublesScheduler.js`): player selection -/

/-- Stats initialisation of the doubles scheduler (the `player` refresh and
legacy `consecutiveRounds` coercion do not change the modelled state). -/
def initializePlayerStats (s : DStatsMap) (presentPlayers : List Player) : DStatsMap :=
  presentPlayers.foldl (fun acc p => addIfAbsent acc p.id freshDStats) s

/-- `Object.values(playerStats)` average of `roundsPlayed` (0 before
round 1; the map is non-empty whenever this is read). -/
def dAvgRoundsPlayed (s : DStatsMap) (roundIdx : ℕ) : ℚ :=
  if 0 < roundIdx then
    (s.map fun e => (e.2.roundsPlayed : ℚ)).sum / (s.length : ℚ)
  else 0

/-- The standard selection priority of the doubles scheduler (also applied
to the male subset in the gender-aware branch): `satOut×500 +
sinceLastPlayed×200 (or +1000 if never played) + catchup×100 + jitter`. -/
def dStdPriority (s : DStatsMap) (roundIdx : ℕ) (jit : ℕ → ℚ) (p : Player) : ℚ :=
  let st := dStat s p.id
  (st.roundsSatOut : ℚ) * 500
    + (if 0 ≤ st.lastPlayedRound
        then ((roundIdx : ℚ) - (st.lastPlayedRound : ℚ)) * 200
        else 1000)
    + (dAvgRoundsPlayed s roundIdx - (st.roundsPlayed : ℚ)) * 100
    + jit p.id

/-- The female-subset priority of the gender-aware branch: `satOut×500 +
sinceLastPlayed×200 (or +1000) + jitter`, minus a soft-rest penalty of 2000
once `consecutiveRounds` reaches the rest interval — and NO catch-up
term. -/
def dFemalePriority (s : DStatsMap) (roundIdx : ℕ) (restInterval : ℕ)
    (jit : ℕ → ℚ) (p : Player) : ℚ :=
  let st := dStat s p.id
  (st.roundsSatOut : ℚ) * 500
    + (if 0 ≤ st.lastPlayedRound
        then ((roundIdx : ℚ) - (st.lastPlayedRound : ℚ)) * 200
        else 1000)
    + jit p.id
    + (if restInterval ≤ st.consecutiveRounds then -2000 else 0)

/-- The female subset (`p.gender === 'female'`). -/
def dWomen (allPlayers : List Player) : List Player :=
  allPlayers.filter fun p => p.gender = Gender.female

/-- The male subset (`p.gender !== 'female'`). -/
def dMen (allPlayers : List Player) : List Player :=
  allPlayers.filter fun p => ¬p.gender = Gender.female

/-- The reserved female slots: top of the female subset by
`dFemalePriority`, up to `min(femaleCount, maxPlayers/2)` (the JS
`slice(0, Math.min(women.length, (maxPlayers/4)*2))`). -/
def dSelWomen (allPlayers : List Player) (s : DStatsMap) (maxPlayers roundIdx : ℕ)
    (restInterval : ℕ) (jit : ℕ → ℚ) : List Player :=
  (sortDescBy (dFemalePriority s roundIdx restInterval jit) (dWomen allPlayers)).take
    (min (dWomen allPlayers).length (maxPlayers / 2))

/-- The male fill of the remaining slots, by the standard formula. -/
def dSelMen (allPlayers : List Player) (s : DStatsMap) (maxPlayers roundIdx : ℕ)
    (restInterval : ℕ) (jit : ℕ → ℚ) : List Player :=
  (sortDescBy (dStdPriority s roundIdx jit) (dMen allPlayers)).take
    (maxPlayers - (dSelWomen allPlayers s maxPlayers roundIdx restInterval jit).length)

/-- Women phase ++ men phase. -/
def dGenderResult (allPlayers : List Player) (s : DStatsMap) (maxPlayers roundIdx : ℕ)
    (restInterval : ℕ) (jit : ℕ → ℚ) : List Player :=
  dSelWomen allPlayers s maxPlayers roundIdx restInterval jit ++
    dSelMen allPlayers s maxPlayers roundIdx restInterval jit

/-- The any-gender backfill of a shortfall. -/
def dExtras (allPlayers : List Player) (s : DStatsMap) (maxPlayers roundIdx : ℕ)
    (restInterval : ℕ) (jit : ℕ → ℚ) : List Player :=
  (allPlayers.filter fun p =>
      ¬p.id ∈ (dGenderResult allPlayers s maxPlayers roundIdx restInterval jit).map
        Player.id).take
    (maxPlayers - (dGenderResult allPlayers s maxPlayers roundIdx restInterval jit).length)

/-- `selectPlayersForRound` (doublesScheduler.js): everyone fits, or the
gender-aware reservation (mixed preference on), or the standard top-N. -/
def selectPlayersForRound (allPlayers : List Player) (s : DStatsMap)
    (maxPlayers roundIdx : ℕ) (preferMixedDoubles : Bool) (restInterval : ℕ)
    (jit : ℕ → ℚ) : List Player :=
  if allPlayers.length ≤ maxPlayers then allPlayers
  else if preferMixedDoubles then
    (dGenderResult allPlayers s maxPlayers roundIdx restInterval jit ++
      dExtras allPlayers s maxPlayers roundIdx restInterval jit).take maxPlayers
  else
    (sortDescBy (dStdPriority s roundIdx jit) allPlayers).take maxPlayers

/-- Modelled from the claim's words: the female priority of the claim is
the STANDARD formula (`satOut×500 + sinceLastPlayed×200 or +1000 +
catchup×100 + jitter`) minus 2000 at the rest interval — i.e. including the
catch-up term, which the code's female branch does not have. -/
def C7claimedFemalePriority (s : DStatsMap) (roundIdx restInterval : ℕ)
    (jit : ℕ → ℚ) (p : Player) : ℚ :=
  dStdPriority s roundIdx jit p
    + (if restInterval ≤ (dStat s p.id).consecutiveRounds then -2000 else 0)

/-- Roster for the C7 scenario: three women, two men, one court. -/
def pw1 : Player := ⟨1, 4, .female⟩

/-- See `pw1`. -/
def pw2 : Player := ⟨2, 4, .female⟩

/-- See `pw1`. -/
def pw3 : Player := ⟨3, 4, .female⟩

/-- See `pw1`. -/
def pm1 : Player := ⟨4, 4, .male⟩

/-- See `pw1`. -/
def pm2 : Player := ⟨5, 4, .male⟩

/-- Stats after two rounds: everyone last played round 1 with no sit-outs;
`pw2` joined late and has only one round played (a catch-up candidate). -/
def statsC7 : DStatsMap :=
  [(1, { freshDStats with roundsPlayed := 2, lastPlayedRound := 1 }),
   (2, { freshDStats with roundsPlayed := 1, lastPlayedRound := 1 }),
   (3, { freshDStats with roundsPlayed := 2, lastPlayedRound := 1 }),
   (4, { freshDStats with roundsPlayed := 2, lastPlayedRound := 1 }),
   (5, { freshDStats with roundsPlayed := 2, lastPlayedRound := 1 })]

/-- The tie-breaking jitter draw of the C7 scenario. -/
def jitC7 : ℕ → ℚ := fun k =>
  if k = 1 then 9/10 else if k = 2 then 1/10 else if k = 3 then 1/2 else 0

/-! ### Round-robin doubles: the global fairness sweep
(`generateRoundRobinRound`, lines 1014–1076) -/

/-- A generated doubles match (the metadata fields not read by the sweep
are dropped). -/
structure DMatch where
  court : ℕ
  team1 : Player × Player
  team2 : Player × Player
  diff : ℚ
deriving DecidableEq, Repr

/-- The four participants of a match, in `[...team1, ...team2]` order. -/
def matchPlayers (m : DMatch) : List Player :=
  [m.team1.1, m.team1.2, m.team2.1, m.team2.2]

/-- All participant ids of a match list (the `fsPlayingIds` /
`inRound` sets). -/
def dmIds (ms : List DMatch) : List ℕ :=
  ms.flatMap fun m => (matchPlayers m).map Player.id

/-- Ground-truth sat-out count of a player id, recomputed from the full
previous-round history: one per non-empty previous round the id sat out. -/
def gtSatOut (prev : List (List DMatch)) (pid : ℕ) : ℕ :=
  (prev.filter fun round => ¬round = [] ∧ ¬pid ∈ dmIds round).length

/-- Population average of the ground-truth sat-out counts. -/
def avgSatOut (prev : List (List DMatch)) (present : List Player) : ℚ :=
  ((present.map fun p => (gtSatOut prev p.id : ℚ)).sum) / (present.length : ℚ)

/-- Present players not participating in any generated match. -/
def fsSittingOut (present : List Player) (ms : List DMatch) : List Player :=
  present.filter fun p => ¬p.id ∈ dmIds ms

/-- The overdue entities: sitting players whose ground-truth sat-out count
strictly exceeds the average, in descending sat-out order. -/
def fairnessCandidates (prev : List (List DMatch)) (present : List Player)
    (ms : List DMatch) : List Player :=
  sortDescBy (fun p => (gtSatOut prev p.id : ℚ))
    ((fsSittingOut present ms).filter fun p =>
      avgSatOut prev present < (gtSatOut prev p.id : ℚ))

/-- The admissible swap targets for an overdue player: every participant
(tagged with its match index, in scan order) with a strictly lower
ground-truth sat-out count and a rating within 0.5. -/
def swapCands (prev : List (List DMatch)) (needsIn : Player)
    (ms : List DMatch) : List (ℕ × Player) :=
  ((ms.enum).flatMap fun im => (matchPlayers im.2).map fun p => (im.1, p)).filter
    fun ip => gtSatOut prev ip.2.id < gtSatOut prev needsIn.id ∧
      |ip.2.rating - needsIn.rating| ≤ 1/2

/-- The swap objective: `ratingDiff×10 + pSatOut`. -/
def swapScore (prev : List (List DMatch)) (needsIn : Player)
    (ip : ℕ × Player) : ℚ :=
  |ip.2.rating - needsIn.rating| * 10 + (gtSatOut prev ip.2.id : ℚ)

/-- Substitute `needsIn` for every participant carrying `cand`'s id in one
match and re-split the affected foursome with the doubles
`findBestTeamSplit`. -/
def swapInMatch (stats : DStatsMap) (pm : Bool) (needsIn cand : Player)
    (m : DMatch) : DMatch :=
  let f : Player → Player := fun q => if q.id = cand.id then needsIn else q
  let rb := findBestTeamSplit stats pm (f m.team1.1) (f m.team1.2)
    (f m.team2.1) (f m.team2.2)
  { m with team1 := rb.team1, team2 := rb.team2, diff := splitGap rb }

/-- Apply `swapInMatch` to the match at position `i` (the match the scan
selected), leaving every other match untouched. -/
def performSwap (stats : DStatsMap) (pm : Bool) (needsIn : Player) (i : ℕ)
    (cand : Player) (ms : List DMatch) : List DMatch :=
  match ms, i with
  | [], _ => []
  | m :: rest, 0 => swapInMatch stats pm needsIn cand m :: rest
  | m :: rest, Nat.succ j => m :: performSwap stats pm needsIn j cand rest

/-- One pass of the sweep loop body for a single overdue player: first
strict minimum of `swapScore` over the admissible targets, or no change. -/
def sweepStep (prev : List (List DMatch)) (stats : DStatsMap) (pm : Bool)
    (ms : List DMatch) (needsIn : Player) : List DMatch :=
  match minBy? (swapScore prev needsIn) (swapCands prev needsIn ms) with
  | none => ms
  | some ic => performSwap stats pm needsIn ic.1 ic.2 ms

/-- The global fairness sweep: runs only when a previous round exists and
someone is sitting out; candidates are fixed up front, matches are folded
through the per-candidate step. -/
def fairnessSweep (prev : List (List DMatch)) (present : List Player)
    (stats : DStatsMap) (pm : Bool) (ms : List DMatch) : List DMatch :=
  if prev = [] then ms
  else if fsSittingOut present ms = [] then ms
  else (fairnessCandidates prev present ms).foldl (sweepStep prev stats pm) ms

/-- A match of C5 scenarios: everyone who matters is already playing. -/
def mC5 : DMatch :=
  { court := 1, team1 := (pw1, pw2), team2 := (pw3, pm1), diff := 0 }

/-! ### King-of-Court individual round generation
(`kingOfCourtScheduler.js` lines 14–313). `Math.random()` jitter is the
explicit per-id draw `jit`, and the first-round random shuffle is the
explicit permutation `shuffle`. -/

/-- `getCourtPoints`: `(courtsInHierarchy - courtIndexInHierarchy) * 2`. -/
def getCourtPoints (courtIdx courtsInHierarchy : ℕ) : ℤ :=
  ((courtsInHierarchy : ℤ) - (courtIdx : ℤ)) * 2

/-- `initializeKingOfCourtStats`: add a fresh entry per present player
without one (the `player` back-pointer refresh is dropped). -/
def initializeKingOfCourtStats (s : KStatsMap) (ps : List Player) : KStatsMap :=
  ps.foldl (fun acc p => addIfAbsent acc p.id freshKStats) s

/-- Stats lookup with the literal default used by the KOT selection. -/
def kStat (s : KStatsMap) (k : ℕ) : KStats := (lookupEntry s k).getD freshKStats

/-- `Object.values(kotStats)` average of `roundsPlayed` (0 in round 0). -/
def kAvgRoundsPlayed (s : KStatsMap) (roundIdx : ℕ) : ℚ :=
  if 0 < roundIdx then
    (s.map fun e => (e.2.roundsPlayed : ℚ)).sum / (s.length : ℚ)
  else 0

/-- The KOT selection priority: `satOut×500 + sinceLastPlayed×200 (or
+1000 if never played) + catchup×100 when positive + jitter`. -/
def kotPriority (s : KStatsMap) (roundIdx : ℕ) (jit : ℕ → ℚ) (p : Player) : ℚ :=
  let st := kStat s p.id
  let base := (st.roundsSatOut : ℚ) * 500
    + (if 0 ≤ st.lastPlayedRound
        then ((roundIdx : ℚ) - (st.lastPlayedRound : ℚ)) * 200
        else 1000)
  let catchup := (kAvgRoundsPlayed s roundIdx - (st.roundsPlayed : ℚ)) * 100
  (if 0 < catchup then base + catchup else base) + jit p.id

/-- `selectPlayersForKOTRound`: everyone fits, or the top `maxPlayers` by
descending priority. -/
def selectPlayersForKOTRound (allPlayers : List Player) (s : KStatsMap)
    (maxPlayers roundIdx : ℕ) (jit : ℕ → ℚ) : List Player :=
  if allPlayers.length ≤ maxPlayers then allPlayers
  else (sortDescBy (kotPriority s roundIdx jit) allPlayers).take maxPlayers

/-- One row of `playerResults` in `assignPlayersToCourts`. -/
structure PResult where
  player : Player
  won : Bool
  lastCourt : ℕ
  totalPoints : ℤ
deriving DecidableEq, Repr

/-- The per-player scan of the last round: last completed match containing
the player sets `lastCourt`; `won` is set (and never reset) when the
player was on the winning side of such a match. -/
def lastRoundScan (lastRound : List KMatch) (pid : ℕ) : Bool × Option ℕ :=
  lastRound.foldl
    (fun acc m =>
      if m.status = .completed then
        let in1 := m.team1.1.id = pid ∨ m.team1.2.id = pid
        let in2 := m.team2.1.id = pid ∨ m.team2.2.id = pid
        if in1 ∨ in2 then
          (acc.1 || decide ((in1 ∧ m.winner = some Side.team1) ∨
            (in2 ∧ m.winner = some Side.team2)), some m.court)
        else acc
      else acc)
    (false, none)

/-- The `playerResults` comparator as a comes-before-or-ties test:
ascending `lastCourt`, then winners first, then descending
`totalPoints`. -/
def prBefore (a b : PResult) : Bool :=
  if a.lastCourt ≠ b.lastCourt then a.lastCourt < b.lastCourt
  else if a.won ≠ b.won then a.won
  else b.totalPoints ≤ a.totalPoints

/-- `addIfNotAssigned`: push each player not already assigned globally or
locally. -/
def addIfNotAssigned (assigned courtPlayers : List Player) (ps : List Player) :
    List Player :=
  ps.foldl (fun cp p => if p ∈ assigned ∨ p ∈ cp then cp else cp ++ [p]) courtPlayers

/-- The per-court assembly loop of `assignPlayersToCourts`: winners stay,
losers from above and winners from below move (two each), losers fill,
then any still-unassigned players top the court up to four. -/
def courtLoop (results : List PResult) (numCourts startingCourtIndex : ℕ) :
    List Player :=
  (List.range numCourts).foldl
    (fun assigned courtIdx =>
      let courtNumber := startingCourtIndex + courtIdx
      let winnersThis := (results.filter fun pr =>
        pr.lastCourt = courtNumber ∧ pr.won = true).map PResult.player
      let winnersBelow := if courtIdx < numCourts - 1 then
          ((results.filter fun pr =>
            pr.lastCourt = courtNumber + 1 ∧ pr.won = true).map PResult.player).take 2
        else []
      let losersThis := (results.filter fun pr =>
        pr.lastCourt = courtNumber ∧ pr.won = false).map PResult.player
      let losersAbove := if 0 < courtIdx then
          ((results.filter fun pr =>
            pr.lastCourt = courtNumber - 1 ∧ pr.won = false).map PResult.player).take 2
        else []
      let cp0 := addIfNotAssigned assigned [] winnersThis
      let cp1 := if 0 < courtIdx then addIfNotAssigned assigned cp0 losersAbove else cp0
      let cp2 := if courtIdx < numCourts - 1 then
          addIfNotAssigned assigned cp1 winnersBelow
        else cp1
      let cp3 := addIfNotAssigned assigned cp2 losersThis
      let cp4 := if cp3.length < 4 then
          cp3 ++ ((results.filter fun pr =>
            ¬pr.player ∈ assigned ∧ ¬pr.player ∈ cp3).map PResult.player).take
            (4 - cp3.length)
        else cp3
      assigned ++ cp4.take 4)
    []

/-- `assignPlayersToCourts`: no previous round means no reordering;
otherwise sort last-round results and assemble each court, appending the
unassigned remainder. -/
def assignPlayersToCourts (groupPlayers : List Player) (s : KStatsMap)
    (previousRounds : List (List KMatch)) (numCourts startingCourtIndex : ℕ) :
    List Player :=
  match previousRounds.getLast? with
  | none => groupPlayers
  | some lastRound =>
    let results := List.insertionSort (fun a b => prBefore a b = true)
      (groupPlayers.map fun p =>
        let sc := lastRoundScan lastRound p.id
        { player := p, won := sc.1
          lastCourt := sc.2.getD (startingCourtIndex + numCourts - 1)
          totalPoints := (kStat s p.id).totalPoints })
    let assigned := courtLoop results numCourts startingCourtIndex
    assigned ++ (groupPlayers.filter fun p => ¬p ∈ assigned)

/-- The per-participant stats write of a generated KOT match. -/
def kotPlayUpd (courtNumber roundIndex : ℕ) (e : KStats) : KStats :=
  { e with currentCourt := some courtNumber
           courtHistory := e.courtHistory ++ [courtNumber]
           roundsPlayed := e.roundsPlayed + 1
           lastPlayedRound := (roundIndex : ℤ) }

/-- `min(numCourts, floor(groupPlayers.length / 4))`. -/
def kotActualCourts (groupPlayers : List Player) (numCourts : ℕ) : ℕ :=
  min numCourts (groupPlayers.length / 4)

/-- The players a group call assigns: everyone, or the priority
selection down to `actualCourts * 4`. -/
def kotPlayersToAssign (groupPlayers : List Player) (s : KStatsMap)
    (numCourts roundIndex : ℕ) (jit : ℕ → ℚ) : List Player :=
  let maxP := kotActualCourts groupPlayers numCourts * 4
  if maxP < groupPlayers.length then
    selectPlayersForKOTRound groupPlayers s maxP roundIndex jit
  else groupPlayers

/-- The court-building loop: slice four players per court, split them,
record play stats, and emit the match (a short slice ends the loop). -/
def kotBuildCourts (pool : List Player) (s : KStatsMap)
    (actualCourts startingCourtIndex roundIndex courtsInHierarchy : ℕ) :
    List KMatch × KStatsMap :=
  (List.range actualCourts).foldl
    (fun acc courtIdx =>
      let courtNumber := startingCourtIndex + courtIdx
      match (pool.drop (courtIdx * 4)).take 4 with
      | [p1, p2, p3, p4] =>
        let split := findBestTeamSplitKOT p1 p2 p3 p4
        let s2 := [p1, p2, p3, p4].foldl
          (fun st p => modifyEntry st p.id (kotPlayUpd courtNumber roundIndex)) acc.2
        (acc.1 ++ [{ court := courtNumber
                     isKing := courtIdx == 0
                     team1 := split.team1
                     team2 := split.team2
                     diff := splitGap split
                     status := .pending
                     winner := none
                     pointsForWin := getCourtPoints courtIdx courtsInHierarchy }], s2)
      | _ => acc)
    ([], s)

/-- The sitting-out marking at the end of a group call: `roundsSatOut++`
for every group player not assigned. -/
def kotSatOutUpd (groupPlayers playersToAssign : List Player) (s : KStatsMap) :
    KStatsMap :=
  (groupPlayers.filter fun p => ¬p ∈ playersToAssign).foldl
    (fun st p => modifyEntry st p.id fun e => { e with roundsSatOut := e.roundsSatOut + 1 })
    s

/-- `generateKOTMatchesForGroup`: select, order (shuffle in round 0,
court advancement after), build the courts, then mark sitters. -/
def generateKOTMatchesForGroup (groupPlayers : List Player) (s : KStatsMap)
    (numCourts startingCourtIndex roundIndex : ℕ)
    (previousRounds : List (List KMatch)) (courtsInHierarchy : ℕ)
    (jit : ℕ → ℚ) (shuffle : List Player → List Player) :
    List KMatch × KStatsMap :=
  let pta := kotPlayersToAssign groupPlayers s numCourts roundIndex jit
  let pool := if roundIndex = 0 then shuffle pta
    else assignPlayersToCourts pta s previousRounds
      (kotActualCourts groupPlayers numCourts) startingCourtIndex
  let mc := kotBuildCourts pool s (kotActualCourts groupPlayers numCourts)
    startingCourtIndex roundIndex courtsInHierarchy
  (mc.1, kotSatOutUpd groupPlayers pta mc.2)

/-- The accumulator of the per-skill-group loop of
`generateKingOfCourtRound`. -/
structure KRoundAcc where
  ms : List KMatch
  stats : KStatsMap
  gci : ℕ
  left : List Player

/-- All participant ids of a KOT match list. -/
def kmIds (ms : List KMatch) : List ℕ :=
  ms.flatMap fun m => [m.team1.1.id, m.team1.2.id, m.team2.1.id, m.team2.2.id]

/-- The per-skill-group step: give the group its courts (when any are
available), collect its matches, advance the global court index, and pool
the group's non-playing members as leftovers. -/
def kotGroupStep (courts roundIndex : ℕ) (previousRounds : List (List KMatch))
    (jit : ℕ → ℚ) (shuffle : List Player → List Player)
    (acc : KRoundAcc) (g : SkillGroup) : KRoundAcc :=
  let groupCourts := g.players.length / 4
  let availableCourts := courts + 1 - acc.gci
  let actualCourts := min groupCourts availableCourts
  if 0 < actualCourts then
    let r := generateKOTMatchesForGroup g.players acc.stats actualCourts acc.gci
      roundIndex previousRounds actualCourts jit shuffle
    { ms := acc.ms ++ r.1
      stats := r.2
      gci := acc.gci + r.1.length
      left := acc.left ++ g.players.filter fun p => ¬p.id ∈ kmIds r.1 }
  else
    { acc with left := acc.left ++ g.players }

/-- `generateKingOfCourtRound`: initialise stats, then either the
skill-separated path (per-group courts plus a mixed overflow court block
for leftovers) or one mixed group over all courts. Returns the matches and
the updated stats map. -/
def generateKingOfCourtRound (presentPlayers : List Player) (courts : ℕ)
    (kotStats : KStatsMap) (currentRoundIndex : ℕ)
    (previousRounds : List (List KMatch)) (separateBySkill : Bool)
    (jit : ℕ → ℚ) (shuffle : List Player → List Player) :
    List KMatch × KStatsMap :=
  let s0 := initializeKingOfCourtStats kotStats presentPlayers
  if separateBySkill = true ∧ 8 ≤ presentPlayers.length then
    let acc := (separatePlayersBySkill presentPlayers courts).foldl
      (kotGroupStep courts currentRoundIndex previousRounds jit shuffle)
      { ms := [], stats := s0, gci := 1, left := [] }
    let remainingCourts := courts - (acc.gci - 1)
    if 0 < remainingCourts ∧ 4 ≤ acc.left.length then
      let overflowCourts := min (acc.left.length / 4) remainingCourts
      if 0 < overflowCourts then
        let r := generateKOTMatchesForGroup acc.left acc.stats overflowCourts acc.gci
          currentRoundIndex previousRounds overflowCourts jit shuffle
        (acc.ms ++ r.1, r.2)
      else (acc.ms, acc.stats)
    else (acc.ms, acc.stats)
  else
    generateKOTMatchesForGroup presentPlayers s0 courts 1 currentRoundIndex
      previousRounds courts jit shuffle

/-! ### The C1 scenario: five beginners and three experts on three courts,
first round, skill separation on. -/

/-- Beginner-rated roster of the C1 scenario (rating 2 = BEGINNER tier). -/
def kb1 : Player := ⟨1, 2, .male⟩

/-- See `kb1`. -/
def kb2 : Player := ⟨2, 2, .male⟩

/-- See `kb1`. -/
def kb3 : Player := ⟨3, 2, .male⟩

/-- See `kb1`. -/
def kb4 : Player := ⟨4, 2, .male⟩

/-- See `kb1`. -/
def kb5 : Player := ⟨5, 2, .male⟩

/-- Expert-rated roster of the C1 scenario (rating 5 = EXPERT tier). -/
def ke1 : Player := ⟨6, 5, .male⟩

/-- See `ke1`. -/
def ke2 : Player := ⟨7, 5, .male⟩

/-- See `ke1`. -/
def ke3 : Player := ⟨8, 5, .male⟩

/-- The eight present players of the C1 scenario. -/
def kotC1Players : List Player := [kb1, kb2, kb3, kb4, kb5, ke1, ke2, ke3]

/-- The jitter draw of the C1 scenario: beginners ranked `kb1 > … > kb5`. -/
def jitKC1 : ℕ → ℚ := fun k =>
  if k = 1 then 1/2 else if k = 2 then 2/5 else if k = 3 then 3/10
  else if k = 4 then 1/5 else if k = 5 then 1/10 else 0

/-- The initialised stats map of the C1 scenario. -/
def kS0 : KStatsMap :=
  [(1, freshKStats), (2, freshKStats), (3, freshKStats), (4, freshKStats),
   (5, freshKStats), (6, freshKStats), (7, freshKStats), (8, freshKStats)]

/-- The Beginner skill group of the C1 scenario. -/
def kgB : SkillGroup :=
  { level := some .BEGINNER, players := [kb1, kb2, kb3, kb4, kb5]
    minRating := 2, maxRating := 2 }

/-- The Expert skill group of the C1 scenario. -/
def kgE : SkillGroup :=
  { level := some .EXPERT, players := [ke1, ke2, ke3]
    minRating := 5, maxRating := 5 }

/-- The bucket layout after tier assignment in the C1 scenario. -/
def bKC1 : Buckets := fun k =>
  if k = .BEGINNER then [kb1, kb2, kb3, kb4, kb5]
  else if k = .EXPERT then [ke1, ke2, ke3] else []

/-- Stats entry after playing court `c` in round 0. -/
def kPlayedSt (c : ℕ) : KStats :=
  { totalPoints := 0, court1Wins := 0, currentCourt := some c
    courtHistory := [c], roundsPlayed := 1, roundsSatOut := 0, lastPlayedRound := 0 }

/-- The stats map after the Beginner group call: `kb1`–`kb4` played court
1, `kb5` sat out. -/
def kS1 : KStatsMap :=
  [(1, kPlayedSt 1), (2, kPlayedSt 1), (3, kPlayedSt 1), (4, kPlayedSt 1),
   (5, { freshKStats with roundsSatOut := 1 }),
   (6, freshKStats), (7, freshKStats), (8, freshKStats)]

/-- The mid-state of the Beginner group call (court stats written, sit-out
marking still pending). -/
def kS1p : KStatsMap :=
  [(1, kPlayedSt 1), (2, kPlayedSt 1), (3, kPlayedSt 1), (4, kPlayedSt 1),
   (5, freshKStats), (6, freshKStats), (7, freshKStats), (8, freshKStats)]

/-- The double-counted entry of `kb5`: both counters incremented within
one generated round. -/
def kBugSt : KStats :=
  { totalPoints := 0, court1Wins := 0, currentCourt := some 2
    courtHistory := [2], roundsPlayed := 1, roundsSatOut := 1, lastPlayedRound := 0 }

/-- The final stats map of the C1 scenario round. -/
def kS2 : KStatsMap :=
  [(1, kPlayedSt 1), (2, kPlayedSt 1), (3, kPlayedSt 1), (4, kPlayedSt 1),
   (5, kBugSt), (6, kPlayedSt 2), (7, kPlayedSt 2), (8, kPlayedSt 2)]

/-- The Beginner-court match of the C1 scenario. -/
def mB : KMatch :=
  { court := 1, isKing := true, team1 := (kb1, kb2), team2 := (kb3, kb4)
    diff := 0, status := .pending, winner := none, pointsForWin := 2 }

/-- The overflow-court match of the C1 scenario. -/
def mO : KMatch :=
  { court := 2, isKing := true, team1 := (kb5, ke1), team2 := (ke2, ke3)
    diff := 3/2, status := .pending, winner := none, pointsForWin := 2 }

/-- A generated singles match (the metadata fields are dropped). -/
structure SMatch where
  court : ℕ
  player1 : Player
  player2 : Player
  diff : ℚ
deriving DecidableEq, Repr

/-- The singles court loop: take the top remaining player, find the
closest-rated same-gender opponent (first minimum), or skip the player
entirely when no same-gender opponent remains (`courtIdx--; continue`).
The JS recomputes `remaining` from the original list against a grown
used-id set each iteration; filtering the previous remainder by the
newly-used ids yields exactly the same list. -/
def singlesPick (courts : ℕ) (remaining : List Player) (courtIdx : ℕ) :
    List SMatch :=
  if courtIdx < courts then
    match remaining with
    | [] => []
    | [_] => []
    | p1 :: rest =>
      match rest.filter fun p => p.gender = p1.gender with
      | [] => singlesPick courts (rest.filter fun p => ¬p.id = p1.id) courtIdx
      | q :: qs =>
        let best := minByD (fun p => |p.rating - p1.rating|) q qs
        { court := courtIdx + 1, player1 := p1, player2 := best
          diff := |p1.rating - best.rating| } ::
          singlesPick courts
            (rest.filter fun p => ¬p.id = p1.id ∧ ¬p.id = best.id) (courtIdx + 1)
  else []
termination_by remaining.length
decreasing_by
  · simp only [List.length_cons]
    exact Nat.lt_succ_of_le (List.length_filter_le _ _)
  · simp only [List.length_cons]
    exact Nat.lt_succ_of_le (List.length_filter_le _ _)

/-- `selectPlayersForRound` (singlesScheduler.js): identical to the
standard doubles selection (`satOut×500 + since×200/+1000 + catchup×100 +
jitter`, top `maxPlayers` by stable descending sort). -/
def sSelectPlayers (allPlayers : List Player) (s : DStatsMap)
    (maxPlayers roundIdx : ℕ) (jit : ℕ → ℚ) : List Player :=
  if allPlayers.length ≤ maxPlayers then allPlayers
  else (sortDescBy (dStdPriority s roundIdx jit) allPlayers).take maxPlayers

/-- `generateSinglesRound`: initialise stats, select `courts*2` players,
pair them on the courts. (The trailing stats update does not influence
the returned matches and is not consumed here.) -/
def generateSinglesRound (presentPlayers : List Player) (courts : ℕ)
    (s : DStatsMap) (roundIdx : ℕ) (jit : ℕ → ℚ) : List SMatch :=
  singlesPick courts
    (sSelectPlayers presentPlayers (initializePlayerStats s presentPlayers)
      (courts * 2) roundIdx jit) 0

/-- Participant ids of a singles match list. -/
def smIds (ms : List SMatch) : List ℕ :=
  ms.flatMap fun m => [m.player1.id, m.player2.id]

/-! ### Round-robin doubles: group building and round generation
(`doublesScheduler.js` lines 792–1012). The `Math.random()` draws of
`selectBestGroupOfFour` are explicit oracles: `picks attempt step` is the
raw draw for the random index choices (reduced mod the candidate range)
and `sjit attempt step candidateId` the variety-score jitter. -/

/-- Minimum of a natural-number list (`Math.min(...)`; callers use it on
non-empty lists, `0` stands in for the empty case). -/
def natListMin : List ℕ → ℕ
  | [] => 0
  | x :: xs => xs.foldl min x

/-- Maximum of a natural-number list. -/
def natListMax : List ℕ → ℕ
  | [] => 0
  | x :: xs => xs.foldl max x

/-- `evaluateGroupQuality`: rating span ×2, pairwise teammate history ×10,
plus a skill-spread penalty (25 over a gap of more than one tier, else 5,
when more than one tier is present). -/
def evaluateGroupQuality (group : List Player) (s : DStatsMap) : ℚ :=
  let ratings := sortDescBy (fun x => x) (group.map Player.rating)
  let spread := (ratings.headD 0 - ratings.getLastD 0) * 2
  let hist := ((allPairs group).map fun ab =>
    ((dStat s ab.1.id).teammates ab.2.id : ℚ) * 10).sum
  let levels := group.map fun p => getPlayerSkillLevel p.rating
  let idxs := levels.map skillIdx
  let lvlPen : ℚ := if 1 < levels.dedup.length then
      (if 1 < natListMax idxs - natListMin idxs then 25 else 5)
    else 0
  spread + hist + lvlPen

/-- The variety score of a candidate against the partial group:
`max 0 (5 − teammateCount)` per member, `+2` if compatible with everyone,
plus the jitter draw. -/
def varietyScore (s : DStatsMap) (group : List Player) (jv : ℚ)
    (candidate : Player) : ℚ :=
  (group.map fun ex =>
    max 0 (5 - ((dStat s ex.id).teammates candidate.id : ℚ))).sum
    + (if group.all fun ex => canPlayTogether ex candidate then 2 else 0)
    + jv

/-- The fallback player for always-total positional reads (never reached on
the guarded paths). -/
def phantomPlayer : Player := ⟨0, 0, Gender.male⟩

/-- One body of the `while (group.length < 4 && candidates.length > 0)`
loop of `selectBestGroupOfFour`: a random first member, then the random
pick among the top (at most 3) variety-scored candidates. -/
def sbgStep (s : DStatsMap) (sjit : ℕ → ℕ → ℚ) (picks : ℕ → ℕ)
    (group candidates : List Player) : Player × List Player :=
  let step := group.length
  if group.isEmpty then
    let idx := picks step % candidates.length
    (candidates.getD idx phantomPlayer, candidates.eraseIdx idx)
  else
    let scored := sortDescBy (fun c => varietyScore s group (sjit step c.id) c)
      candidates
    let chosen := scored.getD (picks step % min 3 scored.length) phantomPlayer
    (chosen, candidates.erase chosen)

/-- The bounded group-building loop (each iteration adds exactly one
member, so at most four run). -/
def sbgBuild (s : DStatsMap) (sjit : ℕ → ℕ → ℚ) (picks : ℕ → ℕ) :
    ℕ → List Player → List Player → List Player
  | 0, group, _ => group
  | fuel + 1, group, candidates =>
    if candidates.isEmpty then group
    else
      let cr := sbgStep s sjit picks group candidates
      sbgBuild s sjit picks fuel (group ++ [cr.1]) cr.2

/-- `selectBestGroupOfFour`: up to `min 20 n` random attempts, keeping the
first quality-minimal complete group, else the first four players. -/
def selectBestGroupOfFour (availablePlayers : List Player) (s : DStatsMap)
    (sjit : ℕ → ℕ → ℕ → ℚ) (picks : ℕ → ℕ → ℕ) : List Player :=
  if availablePlayers.length ≤ 4 then availablePlayers
  else
    let attempts := min 20 availablePlayers.length
    let results := (List.range attempts).map fun a =>
      sbgBuild s (sjit a) (picks a) 4 [] availablePlayers
    match minBy? (fun g => evaluateGroupQuality g s)
      (results.filter fun g => g.length = 4) with
    | some g => g
    | none => availablePlayers.take 4

/-- The court loop of `createBalancedMatches`: pick a best group of four
from the unused remainder, split it, and emit a match per court. The JS
recomputes `remaining` against the grown used-id set each iteration;
filtering the previous remainder by the new group ids is the same list. -/
def cbmLoop (s : DStatsMap) (pm : Bool) (sjit : ℕ → ℕ → ℕ → ℕ → ℚ)
    (picks : ℕ → ℕ → ℕ → ℕ) (startingCourtIndex actualCourts : ℕ)
    (remaining : List Player) (courtIdx : ℕ) : List DMatch :=
  if h : courtIdx < actualCourts then
    if remaining.length < 4 then []
    else
      let group := selectBestGroupOfFour remaining s (sjit courtIdx)
        (picks courtIdx)
      match group.take 4 with
      | [g1, g2, g3, g4] =>
        let split := findBestTeamSplit s pm g1 g2 g3 g4
        { court := startingCourtIndex + courtIdx
          team1 := split.team1
          team2 := split.team2
          diff := splitGap split } ::
          cbmLoop s pm sjit picks startingCourtIndex actualCourts
            (remaining.filter fun p => ¬p.id ∈ group.map Player.id) (courtIdx + 1)
      | _ => []
  else []
termination_by actualCourts - courtIdx
decreasing_by omega

/-- `createBalancedMatches`: cap the courts by the available foursomes and
run the court loop. -/
def createBalancedMatches (playersThisRound : List Player) (s : DStatsMap)
    (maxCourts startingCourtIndex : ℕ) (pm : Bool)
    (sjit : ℕ → ℕ → ℕ → ℕ → ℚ) (picks : ℕ → ℕ → ℕ → ℕ) : List DMatch :=
  cbmLoop s pm sjit picks startingCourtIndex
    (min maxCourts (playersThisRound.length / 4)) playersThisRound 0

/-- `generateMatchesForGroup`: fair selection, then balanced matches. -/
def generateMatchesForGroup (groupPlayers : List Player) (s : DStatsMap)
    (maxCourts startingCourtIndex roundIndex : ℕ) (pm : Bool)
    (restInterval : ℕ) (jit : ℕ → ℚ) (sjit : ℕ → ℕ → ℕ → ℕ → ℚ)
    (picks : ℕ → ℕ → ℕ → ℕ) : List DMatch :=
  createBalancedMatches
    (selectPlayersForRound groupPlayers s (maxCourts * 4) roundIndex pm
      restInterval jit)
    s maxCourts startingCourtIndex pm sjit picks

/-- The per-skill-group accumulator of `generateRoundRobinRound`:
matches so far, next court index, extra courts left to distribute. -/
structure RRAcc where
  ms : List DMatch
  courtIndex : ℕ
  extraCourts : ℕ

/-- The per-skill-group step of `generateRoundRobinRound` (groups of fewer
than four players are skipped; one extra court goes to each of the first
`courts mod groups` groups). -/
def rrGroupStep (s : DStatsMap) (courtsPerGroup roundIndex : ℕ) (pm : Bool)
    (restInterval : ℕ) (jit : ℕ → ℚ) (sjit : ℕ → ℕ → ℕ → ℕ → ℕ → ℚ)
    (picks : ℕ → ℕ → ℕ → ℕ → ℕ) (acc : RRAcc) (ig : ℕ × SkillGroup) : RRAcc :=
  if 4 ≤ ig.2.players.length then
    let groupCourts := courtsPerGroup + (if 0 < acc.extraCourts then 1 else 0)
    let gms := generateMatchesForGroup ig.2.players s groupCourts acc.courtIndex
      roundIndex pm restInterval jit (sjit ig.1) (picks ig.1)
    { ms := acc.ms ++ gms
      courtIndex := acc.courtIndex + gms.length
      extraCourts := acc.extraCourts - (if 0 < acc.extraCourts then 1 else 0) }
  else acc

/-- The accumulated per-skill-group matches of the skill-separated path. -/
def rrAccOf (presentPlayers : List Player) (courts : ℕ) (s0 : DStatsMap)
    (currentRoundIndex : ℕ) (pm : Bool) (restInterval : ℕ) (jit : ℕ → ℚ)
    (sjit : ℕ → ℕ → ℕ → ℕ → ℕ → ℚ) (picks : ℕ → ℕ → ℕ → ℕ → ℕ) : RRAcc :=
  (separatePlayersBySkill presentPlayers 4).enum.foldl
    (rrGroupStep s0
      (courts / max 1 (separatePlayersBySkill presentPlayers 4).length)
      currentRoundIndex pm restInterval jit sjit picks)
    { ms := [], courtIndex := 1
      extraCourts := courts % max 1 (separatePlayersBySkill presentPlayers 4).length }

/-- The skill-separated path: per-group matches, then a mixed overflow
block for players left out when courts remain. -/
def rrSkillMatches (presentPlayers : List Player) (courts : ℕ) (s0 : DStatsMap)
    (currentRoundIndex : ℕ) (pm : Bool) (restInterval : ℕ) (jit : ℕ → ℚ)
    (sjit : ℕ → ℕ → ℕ → ℕ → ℕ → ℚ) (picks : ℕ → ℕ → ℕ → ℕ → ℕ) :
    List DMatch :=
  let acc := rrAccOf presentPlayers courts s0 currentRoundIndex pm restInterval
    jit sjit picks
  if acc.ms.length < courts then
    let remainingPlayers := presentPlayers.filter fun p => ¬p.id ∈ dmIds acc.ms
    let remainingCourts := courts - acc.ms.length
    if 4 ≤ remainingPlayers.length ∧ 0 < remainingCourts then
      acc.ms ++ createBalancedMatches remainingPlayers s0 remainingCourts
        acc.courtIndex pm (sjit (separatePlayersBySkill presentPlayers 4).length)
        (picks (separatePlayersBySkill presentPlayers 4).length)
    else acc.ms
  else acc.ms

/-- `generateRoundRobinRound`: initialise stats, run either the
skill-separated path or one mixed group, then apply the global fairness
sweep. Returns the matches (the trailing stats update is not consumed by
the returned matches). -/
def generateRoundRobinRound (presentPlayers : List Player) (courts : ℕ)
    (s : DStatsMap) (currentRoundIndex : ℕ) (separateBySkill : Bool)
    (pm : Bool) (restInterval : ℕ) (previousRounds : List (List DMatch))
    (jit : ℕ → ℚ) (sjit : ℕ → ℕ → ℕ → ℕ → ℕ → ℚ)
    (picks : ℕ → ℕ → ℕ → ℕ → ℕ) : List DMatch :=
  let s0 := initializePlayerStats s presentPlayers
  fairnessSweep previousRounds presentPlayers s0 pm
    (if separateBySkill = true ∧ 8 ≤ presentPlayers.length then
      rrSkillMatches presentPlayers courts s0 currentRoundIndex pm restInterval
        jit sjit picks
    else
      generateMatchesForGroup presentPlayers s0 courts 1 currentRoundIndex pm
        restInterval jit (sjit 0) (picks 0))

/-! ### Teamed doubles round uniqueness -/

/-- Team ids appearing in a teamed-doubles match list. -/
def tmIds (ms : List TMatch) : List ℕ :=
  ms.flatMap fun m => [m.team1Id, m.team2Id]

/-- The body of the `kotBuildCourts` fold as a named step. -/
def kotCourtStep (pool : List Player) (startingCourtIndex roundIndex courtsInHierarchy : ℕ)
    (acc : List KMatch × KStatsMap) (courtIdx : ℕ) : List KMatch × KStatsMap :=
  let courtNumber := startingCourtIndex + courtIdx
  match (pool.drop (courtIdx * 4)).take 4 with
  | [p1, p2, p3, p4] =>
    let split := findBestTeamSplitKOT p1 p2 p3 p4
    let s2 := [p1, p2, p3, p4].foldl
      (fun st p => modifyEntry st p.id (kotPlayUpd courtNumber roundIndex)) acc.2
    (acc.1 ++ [{ court := courtNumber
                 isKing := courtIdx == 0
                 team1 := split.team1
                 team2 := split.team2
                 diff := splitGap split
                 status := .pending
                 winner := none
                 pointsForWin := getCourtPoints courtIdx courtsInHierarchy }], s2)
  | _ => acc

/-- The body of the `courtLoop` fold as a named step. -/
def kotCourtAssembleStep (results : List PResult) (numCourts startingCourtIndex : ℕ)
    (assigned : List Player) (courtIdx : ℕ) : List Player :=
  let courtNumber := startingCourtIndex + courtIdx
  let winnersThis := (results.filter fun pr =>
    pr.lastCourt = courtNumber ∧ pr.won = true).map PResult.player
  let winnersBelow := if courtIdx < numCourts - 1 then
      ((results.filter fun pr =>
        pr.lastCourt = courtNumber + 1 ∧ pr.won = true).map PResult.player).take 2
    else []
  let losersThis := (results.filter fun pr =>
    pr.lastCourt = courtNumber ∧ pr.won = false).map PResult.player
  let losersAbove := if 0 < courtIdx then
      ((results.filter fun pr =>
        pr.lastCourt = courtNumber - 1 ∧ pr.won = false).map PResult.player).take 2
    else []
  let cp0 := addIfNotAssigned assigned [] winnersThis
  let cp1 := if 0 < courtIdx then addIfNotAssigned assigned cp0 losersAbove else cp0
  let cp2 := if courtIdx < numCourts - 1 then
      addIfNotAssigned assigned cp1 winnersBelow
    else cp1
  let cp3 := addIfNotAssigned assigned cp2 losersThis
  let cp4 := if cp3.length < 4 then
      cp3 ++ ((results.filter fun pr =>
        ¬pr.player ∈ assigned ∧ ¬pr.player ∈ cp3).map PResult.player).take
        (4 - cp3.length)
    else cp3
  assigned ++ cp4.take 4

/-! ### King-of-Court teamed doubles: round generation
(`kingOfCourtScheduler.js` lines 319–560). The first-round random order is
the explicit permutation `tshuffle`. Matches are `KTMatch` values (the
player arrays, gender tag and rating diff of the JS object are dropped;
the ids, court data and scoring fields are kept). -/

/-- `initializeKingOfCourtTeamStats`: add a fresh entry per present team
without one (the `team` back-pointer refresh is dropped). -/
def initializeKingOfCourtTeamStats (s : KStatsMap) (ts : List Team) : KStatsMap :=
  ts.foldl (fun acc t => addIfAbsent acc t.id freshKStats) s

/-- The KOT team selection priority: `satOut×500 + (roundIdx −
lastPlayedRound)×100 + (100 − roundsPlayed)×10` (no jitter). -/
def kotTeamPriority (s : KStatsMap) (roundIdx : ℕ) (t : Team) : ℚ :=
  let st := kStat s t.id
  (st.roundsSatOut : ℚ) * 500 + ((roundIdx : ℚ) - (st.lastPlayedRound : ℚ)) * 100
    + (100 - (st.roundsPlayed : ℚ)) * 10

/-- `selectTeamsForKOTRound`: everyone fits, or the top `maxTeams` by
descending priority. -/
def selectTeamsForKOTRound (allTeams : List Team) (s : KStatsMap)
    (maxTeams roundIdx : ℕ) : List Team :=
  if allTeams.length ≤ maxTeams then allTeams
  else (sortDescBy (kotTeamPriority s roundIdx) allTeams).take maxTeams

/-- One row of `teamResults` in `assignTeamsToCourts`. -/
structure TResult where
  team : Team
  won : Bool
  lastCourt : ℕ
  totalPoints : ℤ
deriving DecidableEq, Repr

/-- The per-team scan of the last round: the last completed match holding
the team id sets `lastCourt`; `won` is set (and never reset) when the team
was the recorded winner of such a match. -/
def lastRoundScanT (lastRound : List KTMatch) (tid : ℕ) : Bool × Option ℕ :=
  lastRound.foldl
    (fun acc m =>
      if m.status = .completed then
        let is1 := m.team1Id = tid
        let is2 := m.team2Id = tid
        if is1 ∨ is2 then
          (acc.1 || decide ((is1 ∧ m.winner = some Side.team1) ∨
            (is2 ∧ m.winner = some Side.team2)), some m.court)
        else acc
      else acc)
    (false, none)

/-- The `teamResults` comparator as a comes-before-or-ties test: ascending
`lastCourt`, then winners first, then descending `totalPoints`. -/
def trBefore (a b : TResult) : Bool :=
  if a.lastCourt ≠ b.lastCourt then a.lastCourt < b.lastCourt
  else if a.won ≠ b.won then a.won
  else b.totalPoints ≤ a.totalPoints

/-- `addTeamsIfNotAssigned`: push each team whose id is neither already
sorted globally nor in the current batch. -/
def addTeamsIfNotAssigned (sortedTeams courtTeams : List Team) (ts : List Team) :
    List Team :=
  ts.foldl
    (fun cp t =>
      if (sortedTeams.any fun t2 => t2.id = t.id) = true ∨
          (cp.any fun t2 => t2.id = t.id) = true then cp
      else cp ++ [t])
    courtTeams

/-- The per-court assembly step of `assignTeamsToCourts`: winners stay,
the first loser from above and the first winner from below move, losers
fill, then any still-unassigned teams top the court up to two. -/
def kotTeamAssembleStep (results : List TResult) (numCourts startingCourtIndex : ℕ)
    (sorted : List Team) (courtIdx : ℕ) : List Team :=
  let courtNumber := startingCourtIndex + courtIdx
  let winnersThis := (results.filter fun tr =>
    tr.lastCourt = courtNumber ∧ tr.won = true).map TResult.team
  let winnersBelow := if courtIdx < numCourts - 1 then
      ((results.filter fun tr =>
        tr.lastCourt = courtNumber + 1 ∧ tr.won = true).map TResult.team).take 1
    else []
  let losersThis := (results.filter fun tr =>
    tr.lastCourt = courtNumber ∧ tr.won = false).map TResult.team
  let losersAbove := if 0 < courtIdx then
      ((results.filter fun tr =>
        tr.lastCourt = courtNumber - 1 ∧ tr.won = false).map TResult.team).take 1
    else []
  let cp0 := addTeamsIfNotAssigned sorted [] winnersThis
  let cp1 := if 0 < courtIdx then addTeamsIfNotAssigned sorted cp0 losersAbove else cp0
  let cp2 := if courtIdx < numCourts - 1 then
      addTeamsIfNotAssigned sorted cp1 winnersBelow
    else cp1
  let cp3 := addTeamsIfNotAssigned sorted cp2 losersThis
  let cp4 := if cp3.length < 2 then
      cp3 ++ ((results.filter fun tr =>
        ¬(sorted.any fun t2 => t2.id = tr.team.id) = true ∧
        ¬(cp3.any fun t2 => t2.id = tr.team.id) = true).map TResult.team).take
        (2 - cp3.length)
    else cp3
  sorted ++ cp4.take 2

/-- The court-assembly loop of `assignTeamsToCourts`. -/
def courtLoopT (results : List TResult) (numCourts startingCourtIndex : ℕ) :
    List Team :=
  (List.range numCourts).foldl
    (kotTeamAssembleStep results numCourts startingCourtIndex) []

/-- `assignTeamsToCourts`: no previous round means no reordering; otherwise
sort last-round results and assemble each court, appending the unassigned
remainder (all membership tests are by team id). -/
def assignTeamsToCourts (groupTeams : List Team) (s : KStatsMap)
    (previousRounds : List (List KTMatch)) (numCourts startingCourtIndex : ℕ) :
    List Team :=
  match previousRounds.getLast? with
  | none => groupTeams
  | some lastRound =>
    let results := List.insertionSort (fun a b => trBefore a b = true)
      (groupTeams.map fun t =>
        let sc := lastRoundScanT lastRound t.id
        { team := t, won := sc.1,
          lastCourt := sc.2.getD (startingCourtIndex + numCourts - 1),
          totalPoints := (kStat s t.id).totalPoints })
    let sorted := courtLoopT results numCourts startingCourtIndex
    sorted ++ (groupTeams.filter fun t => ¬(sorted.any fun st => st.id = t.id) = true)

/-- `min(numCourts, floor(groupTeams.length / 2))`. -/
def kotTeamActualCourts (groupTeams : List Team) (numCourts : ℕ) : ℕ :=
  min numCourts (groupTeams.length / 2)

/-- The teams a group call assigns: everyone, or the priority selection
down to `actualCourts * 2`. -/
def kotTeamsToAssign (groupTeams : List Team) (s : KStatsMap)
    (numCourts roundIndex : ℕ) : List Team :=
  let maxT := kotTeamActualCourts groupTeams numCourts * 2
  if maxT < groupTeams.length then
    selectTeamsForKOTRound groupTeams s maxT roundIndex
  else groupTeams

/-- The body of the teamed court-building fold: slice two teams per court,
record play stats (`kotPlayUpd`, the same field writes as the individual
variant), and emit the match. -/
def ktCourtStep (pool : List Team) (startingCourtIndex roundIndex courtsInHierarchy : ℕ)
    (acc : List KTMatch × KStatsMap) (courtIdx : ℕ) : List KTMatch × KStatsMap :=
  let courtNumber := startingCourtIndex + courtIdx
  match (pool.drop (courtIdx * 2)).take 2 with
  | [t1, t2] =>
    let s2 := [t1, t2].foldl
      (fun st t => modifyEntry st t.id (kotPlayUpd courtNumber roundIndex)) acc.2
    (acc.1 ++ [{ court := courtNumber,
                 isKing := courtIdx == 0,
                 team1Id := t1.id,
                 team2Id := t2.id,
                 status := .pending,
                 winner := none,
                 pointsForWin := getCourtPoints courtIdx courtsInHierarchy }], s2)
  | _ => acc

/-- The teamed court-building loop (a short slice ends the JS loop; all
later slices of a short slice are short too, so skipping is equivalent). -/
def ktBuildCourts (pool : List Team) (s : KStatsMap)
    (actualCourts startingCourtIndex roundIndex courtsInHierarchy : ℕ) :
    List KTMatch × KStatsMap :=
  (List.range actualCourts).foldl
    (ktCourtStep pool startingCourtIndex roundIndex courtsInHierarchy) ([], s)

/-- The sitting-out marking at the end of a teamed group call. -/
def ktSatOutUpd (groupTeams teamsToAssign : List Team) (s : KStatsMap) :
    KStatsMap :=
  (groupTeams.filter fun t => ¬t ∈ teamsToAssign).foldl
    (fun st t => modifyEntry st t.id fun e =>
      { e with roundsSatOut := e.roundsSatOut + 1 })
    s

/-- `generateKOTMatchesForTeamGroup`: select, order (shuffle in round 0,
court advancement after), build the courts, then mark sitters. -/
def generateKOTMatchesForTeamGroup (groupTeams : List Team) (s : KStatsMap)
    (numCourts startingCourtIndex roundIndex : ℕ)
    (previousRounds : List (List KTMatch)) (courtsInHierarchy : ℕ)
    (tshuffle : List Team → List Team) :
    List KTMatch × KStatsMap :=
  let tta := kotTeamsToAssign groupTeams s numCourts roundIndex
  let pool := if roundIndex = 0 then tshuffle tta
    else assignTeamsToCourts tta s previousRounds
      (kotTeamActualCourts groupTeams numCourts) startingCourtIndex
  let mc := ktBuildCourts pool s (kotTeamActualCourts groupTeams numCourts)
    startingCourtIndex roundIndex courtsInHierarchy
  (mc.1, ktSatOutUpd groupTeams tta mc.2)

/-- The accumulator of the per-gender-group loop of
`generateKingOfCourtTeamedRound`. -/
structure KTRoundAcc where
  ms : List KTMatch
  stats : KStatsMap
  gci : ℕ

/-- All team ids of a KOT teamed match list. -/
def ktmIds (ms : List KTMatch) : List ℕ :=
  ms.flatMap fun m => [m.team1Id, m.team2Id]

/-- The per-gender-group step: groups of at least two teams get their
courts (when any are available) and the global court index advances. -/
def ktGroupStep (courts roundIndex : ℕ) (prev : List (List KTMatch))
    (tshuffle : List Team → List Team) (acc : KTRoundAcc) (ts : List Team) :
    KTRoundAcc :=
  if 2 ≤ ts.length then
    let groupCourts := ts.length / 2
    let actualCourts := min groupCourts (courts + 1 - acc.gci)
    if 0 < actualCourts then
      let r := generateKOTMatchesForTeamGroup ts acc.stats actualCourts acc.gci
        roundIndex prev actualCourts tshuffle
      { ms := acc.ms ++ r.1, stats := r.2, gci := acc.gci + r.1.length }
    else acc
  else acc

/-- `generateKingOfCourtTeamedRound`: initialise stats, then either the
three gender groups (male/male, female/female, mixed) in order or one
group over all courts. Returns the matches and the updated stats map. -/
def generateKingOfCourtTeamedRound (presentTeams : List Team) (courts : ℕ)
    (kotTeamStats : KStatsMap) (currentRoundIndex : ℕ)
    (previousRounds : List (List KTMatch)) (separateBySkill : Bool)
    (tshuffle : List Team → List Team) : List KTMatch × KStatsMap :=
  let s0 := initializeKingOfCourtTeamStats kotTeamStats presentTeams
  if separateBySkill = true ∧ 4 ≤ presentTeams.length then
    let acc := [presentTeams.filter fun t => t.gender = TeamGender.male_male,
                presentTeams.filter fun t => t.gender = TeamGender.female_female,
                presentTeams.filter fun t => t.gender = TeamGender.mixed].foldl
      (ktGroupStep courts currentRoundIndex previousRounds tshuffle)
      { ms := [], stats := s0, gci := 1 }
    (acc.ms, acc.stats)
  else
    generateKOTMatchesForTeamGroup presentTeams s0 courts 1 currentRoundIndex
      previousRounds courts tshuffle

theorem minByD_spec (f : α → ℚ) (x : α) (l : List α) :
    minByD f x l ∈ x :: l ∧ ∀ y ∈ x :: l, f (minByD f x l) ≤ f y := by
  induction l generalizing x with
  | nil =>
    refine ⟨List.mem_singleton_self _, ?_⟩
    intro y hy
    rcases List.mem_singleton.mp hy with rfl
    exact le_refl _
  | cons y ys ih =>
    obtain ⟨hmem, hmin⟩ := ih y
    simp only [minByD]
    by_cases hc : f (minByD f y ys) < f x
    · rw [if_pos hc]
      refine ⟨List.mem_cons_of_mem _ hmem, ?_⟩
      intro z hz
      rcases List.mem_cons.mp hz with rfl | hz2
      · exact le_of_lt hc
      · exact hmin z hz2
    · rw [if_neg hc]
      refine ⟨List.mem_cons_self _ _, ?_⟩
      intro z hz
      rcases List.mem_cons.mp hz with rfl | hz2
      · exact le_refl _
      · exact le_trans (not_lt.mp hc) (hmin z hz2)

theorem minBy?_eq_none (f : α → ℚ) (l : List α) :
    minBy? f l = none ↔ l = [] := by
  cases l <;> simp [minBy?]

theorem minBy?_spec (f : α → ℚ) (l : List α) (m : α) (h : minBy? f l = some m) :
    m ∈ l ∧ ∀ y ∈ l, f m ≤ f y := by
  cases l with
  | nil => simp [minBy?] at h
  | cons x xs =>
    obtain rfl : minByD f x xs = m := by simpa [minBy?] using h
    exact minByD_spec f x xs

theorem minBy?_mem (f : α → ℚ) (l : List α) (m : α) (h : minBy? f l = some m) :
    m ∈ l := (minBy?_spec f l m h).1

theorem minBy?_min (f : α → ℚ) (l : List α) (m : α) (h : minBy? f l = some m) :
    ∀ y ∈ l, f m ≤ f y := (minBy?_spec f l m h).2

theorem minZipD_spec (f : α → ℚ) (x : α) (l : List α) :
    x :: l = (minZipD f x l).1 ++ (minZipD f x l).2.1 :: (minZipD f x l).2.2 ∧
      ∀ y ∈ x :: l, f (minZipD f x l).2.1 ≤ f y := by
  induction l generalizing x with
  | nil =>
    refine ⟨rfl, ?_⟩
    intro y hy
    rcases List.mem_singleton.mp hy with rfl
    exact le_refl _
  | cons y ys ih =>
    obtain ⟨heq, hmin⟩ := ih y
    simp only [minZipD]
    by_cases hc : f (minZipD f y ys).2.1 < f x
    · rw [if_pos hc]
      refine ⟨by simpa using heq, ?_⟩
      intro z hz
      rcases List.mem_cons.mp hz with rfl | hz2
      · exact le_of_lt hc
      · exact hmin z hz2
    · rw [if_neg hc]
      refine ⟨rfl, ?_⟩
      intro z hz
      rcases List.mem_cons.mp hz with rfl | hz2
      · exact le_refl _
      · exact le_trans (not_lt.mp hc) (hmin z hz2)

theorem minZip_eq_none_iff {f : α → ℚ} {l : List α} :
    minZip f l = none ↔ l = [] := by
  cases l <;> simp [minZip]

theorem minZip_spec (f : α → ℚ) (l : List α) (p : List α) (m : α) (s : List α)
    (h : minZip f l = some (p, m, s)) :
    l = p ++ m :: s ∧ ∀ y ∈ l, f m ≤ f y := by
  cases l with
  | nil => simp [minZip] at h
  | cons x xs =>
    have hz : minZipD f x xs = (p, m, s) := by simpa [minZip] using h
    obtain ⟨heq, hmin⟩ := minZipD_spec f x xs
    rw [hz] at heq hmin
    exact ⟨heq, hmin⟩

theorem sortDescBy_perm (f : α → ℚ) (l : List α) : (sortDescBy f l).Perm l :=
  List.perm_insertionSort _ l

theorem sortDescBy_sorted (f : α → ℚ) (l : List α) :
    (sortDescBy f l).Sorted (fun a b => f b ≤ f a) := by
  haveI : IsTotal α (fun a b => f b ≤ f a) := ⟨fun a b => le_total (f b) (f a)⟩
  haveI : IsTrans α (fun a b => f b ≤ f a) :=
    ⟨fun _ _ _ hab hbc => le_trans hbc hab⟩
  exact List.sorted_insertionSort _ l

/-- Elements kept by `take k` of a descending sort score at least the
elements discarded by `drop k` (the top-N selection property). -/
theorem sortDescBy_take_ge_drop (f : α → ℚ) (l : List α) (k : ℕ)
    (x y : α) (hx : x ∈ (sortDescBy f l).take k) (hy : y ∈ (sortDescBy f l).drop k) :
    f y ≤ f x := by
  have hs := sortDescBy_sorted f l
  rw [← List.take_append_drop k (sortDescBy f l)] at hs
  have := (List.pairwise_append.mp hs).2.2
  exact this x hx y hy

/-- Every group produced by `collectGroups` carries a real tier key and has
at least `minSize` members. -/
theorem collectGroups_inv (minSize : ℕ) (b : Buckets) :
    ∀ g ∈ (collectGroups minSize b).1,
      g.level ≠ none ∧ minSize ≤ g.players.length := by
  have key : ∀ (ks : List SkillKey) (acc : List SkillGroup × List Player),
      (∀ g ∈ acc.1, g.level ≠ none ∧ minSize ≤ g.players.length) →
      ∀ g ∈ (ks.foldl
        (fun acc k =>
          let gl := b k
          if minSize ≤ gl.length then
            (acc.1 ++ [{ level := some k, players := gl,
                         minRating := minRatingOf gl, maxRating := maxRatingOf gl }], acc.2)
          else if 0 < gl.length then (acc.1, acc.2 ++ gl)
          else acc) acc).1,
        g.level ≠ none ∧ minSize ≤ g.players.length := by
    intro ks
    induction ks with
    | nil => intro acc hacc; simpa using hacc
    | cons k ks ih =>
      intro acc hacc
      simp only [List.foldl_cons]
      apply ih
      by_cases h1 : minSize ≤ (b k).length
      · simp only [if_pos h1]
        intro g hg
        rcases List.mem_append.mp hg with hg1 | hg2
        · exact hacc g hg1
        · rcases List.mem_singleton.mp hg2 with rfl
          exact ⟨by simp, h1⟩
      · simp only [if_neg h1]
        by_cases h2 : 0 < (b k).length
        · simpa [h2] using hacc
        · simpa [h2] using hacc
  intro g hg
  exact key skillKeys ([], []) (by simp) g hg

/-- `absorbOrphan` preserves any property of groups that is stable under
adding one player (level unchanged, players extended by one). -/
theorem absorbOrphan_preserves (P : SkillGroup → Prop)
    (hP : ∀ g o, P g → P (withOrphan g o))
    (gs : List SkillGroup) (o : Player) (h : ∀ g ∈ gs, P g) :
    ∀ g ∈ absorbOrphan gs o, P g := by
  unfold absorbOrphan
  cases hz : minZip (fun g => |o.rating - midRating g|) gs with
  | none => simpa using h
  | some pms =>
    obtain ⟨pre, g0, suf⟩ := pms
    obtain ⟨heq, _⟩ := minZip_spec _ _ _ _ _ hz
    subst heq
    intro g hg
    simp only [List.mem_append, List.mem_cons] at hg
    rcases hg with hg1 | rfl | hg3
    · exact h g (by simp [hg1])
    · exact hP g0 o (h g0 (by simp))
    · exact h g (by simp [hg3])

/-- After a fold of `absorbOrphan` over any orphan list, the
level-and-size property persists. -/
theorem absorbFold_preserves (minSize : ℕ) (os : List Player)
    (gs : List SkillGroup)
    (h : ∀ g ∈ gs, g.level ≠ none ∧ minSize ≤ g.players.length) :
    ∀ g ∈ os.foldl absorbOrphan gs, g.level ≠ none ∧ minSize ≤ g.players.length := by
  induction os generalizing gs with
  | nil => simpa using h
  | cons o os ih =>
    simp only [List.foldl_cons]
    apply ih
    apply absorbOrphan_preserves _ _ _ _ h
    intro g o2 hg
    refine ⟨by simpa using hg.1, ?_⟩
    calc minSize ≤ g.players.length := hg.2
      _ ≤ (g.players ++ [o2]).length := by simp

/-- After `finishGroups`, groups with a real tier level have size at least
`minSize`, and a MIXED group occurs only as the lone fallback bucket. -/
theorem finishGroups_inv (minSize : ℕ) (players : List Player)
    (fo : List SkillGroup × List Player)
    (h : ∀ g ∈ fo.1, g.level ≠ none ∧ minSize ≤ g.players.length) :
    (∀ g ∈ finishGroups players fo, g.level ≠ none → minSize ≤ g.players.length) ∧
    ((∃ g ∈ finishGroups players fo, g.level = none) →
      finishGroups players fo = [mixedGroup players]) := by
  unfold finishGroups
  by_cases h2 : fo.2.isEmpty
  · simp only [if_pos h2]
    refine ⟨fun g hg _ => (h g hg).2, ?_⟩
    rintro ⟨g, hg, hnone⟩
    exact absurd hnone (h g hg).1
  · simp only [if_neg h2]
    by_cases h1 : fo.1.isEmpty
    · simp only [if_pos h1]
      constructor
      · intro g hg hne
        rcases List.mem_singleton.mp hg with rfl
        simp [mixedGroup] at hne
      · intro _; trivial
    · simp only [if_neg h1]
      have hfold := absorbFold_preserves minSize fo.2 fo.1 h
      refine ⟨fun g hg _ => (hfold g hg).2, ?_⟩
      rintro ⟨g, hg, hnone⟩
      exact absurd hnone (hfold g hg).1

/-- **C8**: after `separatePlayersBySkill` returns, every bucket other than
the synthetic mixed fallback contains at least the configured minimum number
of players; an orphaned member is absorbed into the existing bucket whose
rating midpoint is closest (first-found on ties); and only when no bucket
exists at all is a single mixed bucket containing the whole population
produced. -/
theorem C8_skill_bucketizer (players : List Player) (minSize : ℕ)
    (gs : List SkillGroup) (o : Player) (hgs : gs ≠ []) :
    (∀ g ∈ separatePlayersBySkill players minSize,
        g.level ≠ none → minSize ≤ g.players.length) ∧
    ((∃ g ∈ separatePlayersBySkill players minSize, g.level = none) →
        separatePlayersBySkill players minSize = [mixedGroup players]) ∧
    (∃ pre g suf, gs = pre ++ g :: suf ∧
        (∀ g2 ∈ gs, |o.rating - midRating g| ≤ |o.rating - midRating g2|) ∧
        absorbOrphan gs o = pre ++ (withOrphan g o :: suf)) := by
  have hinv := collectGroups_inv minSize
    (downPass minSize (upPass minSize (assignToBuckets players)))
  have hfin := finishGroups_inv minSize players _ hinv
  refine ⟨hfin.1, hfin.2, ?_⟩
  cases hz : minZip (fun g => |o.rating - midRating g|) gs with
  | none => exact absurd (minZip_eq_none_iff.mp hz) hgs
  | some pms =>
    obtain ⟨pre, g, suf⟩ := pms
    obtain ⟨heq, hmin⟩ := minZip_spec _ _ _ _ _ hz
    exact ⟨pre, g, suf, heq, hmin, by simp [absorbOrphan, hz]⟩

/-- Instantiation of `C8_skill_bucketizer` at a concrete input. -/
theorem C8_skill_bucketizer_witness :
    (∀ g ∈ separatePlayersBySkill [] 4,
        g.level ≠ none → 4 ≤ g.players.length) ∧
    ((∃ g ∈ separatePlayersBySkill [] 4, g.level = none) →
        separatePlayersBySkill [] 4 = [mixedGroup []]) ∧
    (∃ pre g suf, [mixedGroup ([] : List Player)] = pre ++ g :: suf ∧
        (∀ g2 ∈ [mixedGroup ([] : List Player)],
          |(3 : ℚ) - midRating g| ≤ |(3 : ℚ) - midRating g2|) ∧
        absorbOrphan [mixedGroup []] ⟨0, 3, .male⟩ =
          pre ++ (withOrphan g ⟨0, 3, .male⟩ :: suf)) :=
  C8_skill_bucketizer [] 4 [mixedGroup []] ⟨0, 3, .male⟩ (by simp)

/-- **C3 counterexample**: four players with zero teammate history and the
mixed preference disabled for which the doubles `findBestTeamSplit` does
NOT choose the gap-minimising partition: the −3 tier-homogeneity bonus makes
it pick the split with gap `1/10` although a gap-`0` split exists. -/
theorem C3_counterexample :
    findBestTeamSplit [] false
        ⟨1, 29/10, .male⟩ ⟨2, 3, .male⟩ ⟨3, 29/10, .male⟩ ⟨4, 3, .male⟩ =
      { team1 := (⟨1, 29/10, .male⟩, ⟨3, 29/10, .male⟩)
        team2 := (⟨2, 3, .male⟩, ⟨4, 3, .male⟩) } ∧
    splitGap { team1 := ((⟨1, 29/10, .male⟩ : Player), ⟨3, 29/10, .male⟩)
               team2 := (⟨2, 3, .male⟩, ⟨4, 3, .male⟩) } = 1/10 ∧
    splitGap { team1 := ((⟨1, 29/10, .male⟩ : Player), ⟨2, 3, .male⟩)
               team2 := (⟨3, 29/10, .male⟩, ⟨4, 3, .male⟩) } = 0 := by
  have g1 : splitGap { team1 := ((⟨1, 29/10, .male⟩ : Player), ⟨2, 3, .male⟩)
                       team2 := (⟨3, 29/10, .male⟩, ⟨4, 3, .male⟩) } = 0 := by
    norm_num [splitGap, avg]
  have g2 : splitGap { team1 := ((⟨1, 29/10, .male⟩ : Player), ⟨3, 29/10, .male⟩)
                       team2 := (⟨2, 3, .male⟩, ⟨4, 3, .male⟩) } = 1/10 := by
    norm_num [splitGap, avg]
  have g3 : splitGap { team1 := ((⟨1, 29/10, .male⟩ : Player), ⟨4, 3, .male⟩)
                       team2 := (⟨2, 3, .male⟩, ⟨3, 29/10, .male⟩) } = 0 := by
    norm_num [splitGap, avg]
  have lB : getPlayerSkillLevel (29/10) = SkillKey.BEGINNER := by
    norm_num [getPlayerSkillLevel, skillKeys, skillRange, List.find?]
  have lA : getPlayerSkillLevel 3 = SkillKey.ADVANCED_BEGINNER := by
    norm_num [getPlayerSkillLevel, skillKeys, skillRange, List.find?]
  have h1 : splitScore [] false
      { team1 := ((⟨1, 29/10, .male⟩ : Player), ⟨2, 3, .male⟩)
        team2 := (⟨3, 29/10, .male⟩, ⟨4, 3, .male⟩) } = 0 := by
    norm_num [splitScore, g1, lB, lA, dStat, lookupEntry, freshDStats, pairIsMixed] <;>
      simp <;> norm_num
  have h2 : splitScore [] false
      { team1 := ((⟨1, 29/10, .male⟩ : Player), ⟨3, 29/10, .male⟩)
        team2 := (⟨2, 3, .male⟩, ⟨4, 3, .male⟩) } = -5 := by
    norm_num [splitScore, g2, lB, lA, dStat, lookupEntry, freshDStats, pairIsMixed] <;>
      simp <;> norm_num
  have h3 : splitScore [] false
      { team1 := ((⟨1, 29/10, .male⟩ : Player), ⟨4, 3, .male⟩)
        team2 := (⟨2, 3, .male⟩, ⟨3, 29/10, .male⟩) } = 0 := by
    norm_num [splitScore, g3, lB, lA, dStat, lookupEntry, freshDStats, pairIsMixed] <;>
      simp <;> norm_num
  refine ⟨?_, g2, g1⟩
  simp only [findBestTeamSplit, minByD, h1, h2, h3]
  norm_num [h1, h2, h3]

/-- **C3 (amended)**: the split chosen by the doubles `findBestTeamSplit` is
the one (first on ties) minimising the full score
`gap×10 + teammateHistory×15 − 3 per tier-homogeneous side − 40 per
mixed-gender side (mixed preference only)` — not the pure rating gap; the
pure-gap minimality holds for the King-of-Court `findBestTeamSplit`. -/
theorem C3_team_split_minimal (stats : DStatsMap) (pm : Bool)
    (p1 p2 p3 p4 : Player) :
    findBestTeamSplit stats pm p1 p2 p3 p4 ∈ splitOptions p1 p2 p3 p4 ∧
    (∀ s ∈ splitOptions p1 p2 p3 p4,
      splitScore stats pm (findBestTeamSplit stats pm p1 p2 p3 p4) ≤
        splitScore stats pm s) ∧
    findBestTeamSplitKOT p1 p2 p3 p4 ∈ splitOptions p1 p2 p3 p4 ∧
    (∀ s ∈ splitOptions p1 p2 p3 p4,
      splitGap (findBestTeamSplitKOT p1 p2 p3 p4) ≤ splitGap s) := by
  have h1 := minByD_spec (splitScore stats pm)
    { team1 := (p1, p2), team2 := (p3, p4) }
    [{ team1 := (p1, p3), team2 := (p2, p4) },
     { team1 := (p1, p4), team2 := (p2, p3) }]
  have h2 := minByD_spec splitGap
    { team1 := (p1, p2), team2 := (p3, p4) }
    [{ team1 := (p1, p3), team2 := (p2, p4) },
     { team1 := (p1, p4), team2 := (p2, p3) }]
  exact ⟨h1.1, h1.2, h2.1, h2.2⟩

theorem lookupEntry_cons {β : Type} (e : ℕ × β) (s : List (ℕ × β)) (k : ℕ) :
    lookupEntry (e :: s) k = if e.1 = k then some e.2 else lookupEntry s k := by
  by_cases h : e.1 = k
  · have hb : (fun e2 : ℕ × β => e2.1 == k) e = true := by simpa using h
    simp [lookupEntry, List.find?_cons_of_pos _ hb, h]
  · have hb : ¬(fun e2 : ℕ × β => e2.1 == k) e = true := by simpa using h
    simp [lookupEntry, List.find?_cons_of_neg _ hb, h]

theorem modifyEntry_cons {β : Type} (e : ℕ × β) (s : List (ℕ × β)) (k : ℕ)
    (f : β → β) :
    modifyEntry (e :: s) k f =
      (if e.1 = k then (e.1, f e.2) else e) :: modifyEntry s k f := by
  by_cases h : e.1 = k <;> simp [modifyEntry, h]

/-- Reading back the modified key. -/
theorem lookup_modify_self {β : Type} (s : List (ℕ × β)) (k : ℕ) (f : β → β) :
    lookupEntry (modifyEntry s k f) k = (lookupEntry s k).map f := by
  induction s with
  | nil => rfl
  | cons e s ih =>
    rw [modifyEntry_cons]
    by_cases h : e.1 = k
    · rw [if_pos h, lookupEntry_cons, lookupEntry_cons, if_pos h, if_pos h]
      rfl
    · rw [if_neg h, lookupEntry_cons, lookupEntry_cons, if_neg h, if_neg h, ih]

/-- Reading any other key is unaffected. -/
theorem lookup_modify_other {β : Type} (s : List (ℕ × β)) (k k2 : ℕ) (f : β → β)
    (hne : k2 ≠ k) :
    lookupEntry (modifyEntry s k f) k2 = lookupEntry s k2 := by
  induction s with
  | nil => rfl
  | cons e s ih =>
    rw [modifyEntry_cons]
    by_cases h : e.1 = k
    · rw [if_pos h, lookupEntry_cons, lookupEntry_cons]
      have h2 : ¬(e.1 = k2) := by rw [h]; exact fun hk => hne hk.symm
      rw [if_neg h2, if_neg h2, ih]
    · rw [if_neg h, lookupEntry_cons, lookupEntry_cons, ih]

/-- **C9**: the King-of-Court completion hook.  Applied to a completed match
with a declared winner: every member of the winning side with a stats entry
gains exactly the match's `pointsForWin` on `totalPoints`, and `court1Wins`
is incremented if and only if the match sits on the hierarchy's King court
(`courtLevel === 'KING'`, i.e. hierarchy index 0); every other entry is
untouched.  Applied to a match that is not completed or has no winner, the
stats maps are returned unchanged.  Both the individual
(`updateKOTStats`) and the teamed (`updateKOTTeamStats`) hook are covered. -/
theorem C9_kot_completion_hook (s ts : KStatsMap) (m : KMatch) (tm : KTMatch)
    (w tw : Side) (e1 e2 te : KStats)
    (hc : m.status = .completed) (hw : m.winner = some w)
    (htc : tm.status = .completed) (htw : tm.winner = some tw)
    (h1 : lookupEntry s (if w = Side.team1 then m.team1 else m.team2).1.id = some e1)
    (h2 : lookupEntry s (if w = Side.team1 then m.team1 else m.team2).2.id = some e2)
    (hne : (if w = Side.team1 then m.team1 else m.team2).1.id ≠
      (if w = Side.team1 then m.team1 else m.team2).2.id)
    (hte : lookupEntry ts (if tw = Side.team1 then tm.team1Id else tm.team2Id) = some te) :
    lookupEntry (updateKOTStats s m)
        (if w = Side.team1 then m.team1 else m.team2).1.id =
      some { e1 with
             totalPoints := e1.totalPoints + m.pointsForWin
             court1Wins := if m.isKing then e1.court1Wins + 1 else e1.court1Wins } ∧
    lookupEntry (updateKOTStats s m)
        (if w = Side.team1 then m.team1 else m.team2).2.id =
      some { e2 with
             totalPoints := e2.totalPoints + m.pointsForWin
             court1Wins := if m.isKing then e2.court1Wins + 1 else e2.court1Wins } ∧
    (∀ k, k ≠ (if w = Side.team1 then m.team1 else m.team2).1.id →
      k ≠ (if w = Side.team1 then m.team1 else m.team2).2.id →
      lookupEntry (updateKOTStats s m) k = lookupEntry s k) ∧
    lookupEntry (updateKOTTeamStats ts tm)
        (if tw = Side.team1 then tm.team1Id else tm.team2Id) =
      some { te with
             totalPoints := te.totalPoints + tm.pointsForWin
             court1Wins := if tm.isKing then te.court1Wins + 1 else te.court1Wins } ∧
    (∀ k, k ≠ (if tw = Side.team1 then tm.team1Id else tm.team2Id) →
      lookupEntry (updateKOTTeamStats ts tm) k = lookupEntry ts k) ∧
    (∀ (s2 : KStatsMap) (m2 : KMatch),
      m2.status ≠ .completed ∨ m2.winner = none → updateKOTStats s2 m2 = s2) ∧
    (∀ (ts2 : KStatsMap) (tm2 : KTMatch),
      tm2.status ≠ .completed ∨ tm2.winner = none → updateKOTTeamStats ts2 tm2 = ts2) := by
  have hu : updateKOTStats s m =
      modifyEntry
        (modifyEntry s (if w = Side.team1 then m.team1 else m.team2).1.id
          (kotWinUpd m.isKing m.pointsForWin))
        (if w = Side.team1 then m.team1 else m.team2).2.id
        (kotWinUpd m.isKing m.pointsForWin) := by
    unfold updateKOTStats
    rw [if_pos hc, hw]
  have htu : updateKOTTeamStats ts tm =
      modifyEntry ts (if tw = Side.team1 then tm.team1Id else tm.team2Id)
        (kotWinUpd tm.isKing tm.pointsForWin) := by
    unfold updateKOTTeamStats
    rw [if_pos htc, htw]
  refine ⟨?_, ?_, ?_, ?_, ?_, ?_, ?_⟩
  · rw [hu, lookup_modify_other _ _ _ _ hne, lookup_modify_self, h1]
    rfl
  · rw [hu, lookup_modify_self, lookup_modify_other _ _ _ _ (Ne.symm hne), h2]
    rfl
  · intro k hk1 hk2
    rw [hu, lookup_modify_other _ _ _ _ hk2, lookup_modify_other _ _ _ _ hk1]
  · rw [htu, lookup_modify_self, hte]
    rfl
  · intro k hk
    rw [htu, lookup_modify_other _ _ _ _ hk]
  · intro s2 m2 hm
    unfold updateKOTStats
    rcases hm with hm | hm
    · rw [if_neg hm]
    · by_cases hst : m2.status = MStatus.completed
      · rw [if_pos hst, hm]
      · rw [if_neg hst]
  · intro ts2 tm2 hm
    unfold updateKOTTeamStats
    rcases hm with hm | hm
    · rw [if_neg hm]
    · by_cases hst : tm2.status = MStatus.completed
      · rw [if_pos hst, hm]
      · rw [if_neg hst]

/-- Instantiation of `C9_kot_completion_hook` at a concrete input. -/
theorem C9_kot_completion_hook_witness :
    lookupEntry (updateKOTStats [(1, freshKStats), (2, freshKStats)] kmEx) 1 =
      some { freshKStats with totalPoints := 6
                              court1Wins := 1 } ∧
    lookupEntry (updateKOTTeamStats [(10, freshKStats)] ktmEx) 10 =
      some { freshKStats with totalPoints := 2 } := by
  obtain ⟨ha, hb, hc, hd, he, hf, hg⟩ :=
    C9_kot_completion_hook [(1, freshKStats), (2, freshKStats)] [(10, freshKStats)]
      kmEx ktmEx .team1 .team1 freshKStats freshKStats freshKStats
      rfl rfl rfl rfl (by rfl) (by rfl) (by decide) (by rfl)
  constructor
  · simpa [kmEx, freshKStats] using ha
  · simpa [ktmEx, freshKStats] using hd

theorem snakeFill_up (k : ℕ) (A zs : List Player) :
    ∀ (slots : List TeamSlot) (cur : ℕ),
      A ≠ [] → cur + A.length = k →
      (∀ j, cur ≤ j → j < k → slots.get? j = some ((none, none) : TeamSlot)) →
      snakeFill k (A ++ zs) slots cur true =
        snakeFill k zs (fillAsc slots cur A) (k - 1) false := by
  induction A with
  | nil => intro _ _ h; exact absurd rfl h
  | cons p ps ih =>
    intro slots cur _ hk hempty
    simp only [List.length_cons] at hk
    have hlt : cur < k := by omega
    have hcur : slots[cur]? = some ((none, none) : TeamSlot) := by
      rw [← List.get?_eq_getElem?]
      exact hempty cur le_rfl hlt
    cases ps with
    | nil =>
      have hk2 : k ≤ cur + 1 := by simp only [List.length_nil] at hk; omega
      have hadv : snakeAdvance k cur true = (k - 1, false) := by
        unfold snakeAdvance
        rw [if_pos rfl, if_pos hk2]
      simp [snakeFill, hcur, hadv, fillAsc]
    | cons q qs =>
      have hck : cur + 1 < k := by
        simp only [List.length_cons] at hk
        omega
      have hadv : snakeAdvance k cur true = (cur + 1, true) := by
        unfold snakeAdvance
        rw [if_pos rfl, if_neg (by omega)]
      have hstep : snakeFill k ((p :: q :: qs) ++ zs) slots cur true =
          snakeFill k ((q :: qs) ++ zs) (slots.set cur (some p, none)) (cur + 1) true := by
        simp [snakeFill, hcur, hadv]
      rw [hstep]
      simp only [fillAsc]
      apply ih
      · simp
      · simp only [List.length_cons] at hk ⊢
        omega
      · intro j hj1 hj2
        rw [List.get?_set_ne _ _ (by omega)]
        exact hempty j (by omega) hj2

theorem snakeFill_down (k : ℕ) (B zs : List Player) :
    ∀ (slots : List TeamSlot) (cur : ℕ),
      B.length = cur + 1 → cur < k →
      (∀ j, j ≤ cur → ∃ a, slots.get? j = some ((some a, none) : TeamSlot)) →
      snakeFill k (B ++ zs) slots cur false =
        snakeFill k zs (fillDesc slots cur B) 0 true := by
  induction B with
  | nil => intro slots cur h; simp at h
  | cons p ps ih =>
    intro slots cur hk hcurk hfill
    simp only [List.length_cons] at hk
    obtain ⟨a, ha⟩ := hfill cur le_rfl
    have ha2 : slots[cur]? = some ((some a, none) : TeamSlot) := by
      rw [← List.get?_eq_getElem?]
      exact ha
    have hset : setP2 slots cur p = slots.set cur (some a, some p) := by
      unfold setP2
      rw [ha]
    cases ps with
    | nil =>
      have hc0 : cur = 0 := by simp only [List.length_nil] at hk; omega
      subst hc0
      have hadv : snakeAdvance k 0 false = (0, true) := by
        unfold snakeAdvance
        rw [if_neg (by simp), if_pos rfl]
      simp [snakeFill, ha2, hadv, fillDesc, hset]
    | cons q qs =>
      have hc1 : 1 ≤ cur := by simp only [List.length_cons] at hk; omega
      have hadv : snakeAdvance k cur false = (cur - 1, false) := by
        unfold snakeAdvance
        rw [if_neg (by simp), if_neg (by omega)]
      have hstep : snakeFill k ((p :: q :: qs) ++ zs) slots cur false =
          snakeFill k ((q :: qs) ++ zs) (slots.set cur (some a, some p)) (cur - 1) false := by
        simp [snakeFill, ha2, hadv]
      rw [hstep]
      simp only [fillDesc, hset]
      apply ih
      · simp only [List.length_cons] at hk ⊢
        omega
      · omega
      · intro j hj
        rw [List.get?_set_ne _ _ (by omega)]
        exact hfill j (by omega)

theorem snakeFill_full (k : ℕ) (zs : List Player) :
    ∀ (slots : List TeamSlot) (cur : ℕ) (up : Bool),
      (∀ sl ∈ slots, sl.1 ≠ none ∧ sl.2 ≠ none) →
      snakeFill k zs slots cur up = slots := by
  induction zs with
  | nil => intro slots cur up _; rfl
  | cons p ps ih =>
    intro slots cur up hfull
    have hstep : (match slots.get? cur with
        | some sl =>
          if sl.1 = none then slots.set cur (some p, sl.2)
          else if sl.2 = none then slots.set cur (sl.1, some p)
          else slots
        | none => slots) = slots := by
      cases hg : slots.get? cur with
      | none => rfl
      | some sl =>
        have hm := hfull sl (List.get?_mem hg)
        simp [hm.1, hm.2]
    simp only [snakeFill]
    rw [hstep]
    exact ih _ _ _ hfull

theorem fillAsc_length (A : List Player) :
    ∀ (slots : List TeamSlot) (cur : ℕ),
      (fillAsc slots cur A).length = slots.length := by
  induction A with
  | nil => intro slots cur; rfl
  | cons p ps ih =>
    intro slots cur
    simp only [fillAsc]
    rw [ih]
    simp

theorem fillDesc_length (B : List Player) :
    ∀ (slots : List TeamSlot) (cur : ℕ),
      (fillDesc slots cur B).length = slots.length := by
  induction B with
  | nil => intro slots cur; rfl
  | cons p ps ih =>
    intro slots cur
    simp only [fillDesc]
    rw [ih]
    unfold setP2
    cases slots.get? cur <;> simp

theorem fillAsc_get (A : List Player) :
    ∀ (slots : List TeamSlot) (cur : ℕ), cur + A.length ≤ slots.length →
      (∀ j b, A.get? (j - cur) = some b → cur ≤ j → j < cur + A.length →
        (fillAsc slots cur A).get? j = some ((some b, none) : TeamSlot)) ∧
      (∀ j, j < cur ∨ cur + A.length ≤ j →
        (fillAsc slots cur A).get? j = slots.get? j) := by
  induction A with
  | nil =>
    intro slots cur _
    refine ⟨fun j b _ h1 h2 => absurd (lt_of_le_of_lt h1 (by simpa using h2)) (lt_irrefl cur), ?_⟩
    intro j _
    rfl
  | cons p ps ih =>
    intro slots cur hlen
    simp only [List.length_cons] at hlen
    have hlen2 : (cur + 1) + ps.length ≤ (slots.set cur ((some p, none) : TeamSlot)).length := by
      simpa using by omega
    obtain ⟨ih1, ih2⟩ := ih (slots.set cur ((some p, none) : TeamSlot)) (cur + 1) hlen2
    constructor
    · intro j b hb hj1 hj2
      simp only [List.length_cons] at hj2
      simp only [fillAsc]
      by_cases hjc : j = cur
      · subst hjc
        have hb2 : b = p := by
          simp [Nat.sub_self] at hb
          exact hb.symm
        subst hb2
        rw [ih2 j (Or.inl (by omega))]
        rw [List.get?_set_eq_of_lt _ (by omega)]
      · have hj3 : cur + 1 ≤ j := by omega
        apply ih1 j b
        · have : j - cur = (j - (cur + 1)) + 1 := by omega
          rw [this] at hb
          simpa using hb
        · omega
        · omega
    · intro j hj
      simp only [List.length_cons] at hj
      simp only [fillAsc]
      rw [ih2 j (by omega)]
      rw [List.get?_set_ne _ _ (by omega)]

theorem fillDesc_get (B : List Player) :
    ∀ (slots : List TeamSlot) (cur : ℕ), B.length = cur + 1 → cur < slots.length →
      (∀ j, j ≤ cur → ∀ sl b, slots.get? j = some sl → B.get? (cur - j) = some b →
        (fillDesc slots cur B).get? j = some ((sl.1, some b) : TeamSlot)) ∧
      (∀ j, cur < j → (fillDesc slots cur B).get? j = slots.get? j) := by
  induction B with
  | nil => intro slots cur h; simp at h
  | cons p ps ih =>
    intro slots cur hB hcl
    simp only [List.length_cons] at hB
    have hcur : slots.get? cur = some (slots.get ⟨cur, hcl⟩) := List.get?_eq_get hcl
    have hset : setP2 slots cur p =
        slots.set cur ((slots.get ⟨cur, hcl⟩).1, some p) := by
      unfold setP2
      rw [hcur]
    by_cases hc0 : cur = 0
    · subst hc0
      have hps : ps = [] := by
        have : ps.length = 0 := by omega
        exact List.length_eq_zero.mp this
      subst hps
      simp only [fillDesc, hset]
      constructor
      · intro j hj sl b hsl hb
        have hj0 : j = 0 := Nat.le_zero.mp hj
        subst hj0
        have hsl2 : sl = slots.get ⟨0, hcl⟩ := by
          rw [hcur] at hsl
          exact (Option.some.injEq _ _ ▸ hsl).symm
        have hb2 : b = p := by simpa using hb.symm
        subst hsl2; subst hb2
        rw [List.get?_set_eq_of_lt _ hcl]
      · intro j hj
        rw [List.get?_set_ne _ _ (by omega)]
    · have hc1 : 1 ≤ cur := by omega
      have hlen2 : cur - 1 < (setP2 slots cur p).length := by
        rw [hset]
        simpa using by omega
      obtain ⟨ih1, ih2⟩ := ih (setP2 slots cur p) (cur - 1) (by omega) hlen2
      simp only [fillDesc]
      constructor
      · intro j hj sl b hsl hb
        by_cases hjc : j = cur
        · subst hjc
          have hsl2 : sl = slots.get ⟨j, hcl⟩ := by
            rw [hcur] at hsl
            exact (Option.some.injEq _ _ ▸ hsl).symm
          have hb2 : b = p := by simpa using hb.symm
          subst hsl2; subst hb2
          rw [ih2 j (by omega), hset, List.get?_set_eq_of_lt _ hcl]
        · have hjlt : j ≤ cur - 1 := by omega
          apply ih1 j hjlt sl b
          · rw [hset, List.get?_set_ne _ _ (by omega)]
            exact hsl
          · have : cur - j = (cur - 1 - j) + 1 := by omega
            rw [this] at hb
            simpa using hb
      · intro j hj
        rw [ih2 j (by omega), hset, List.get?_set_ne _ _ (by omega)]

theorem replicate_get? {α : Type} (k j : ℕ) (e : α) :
    (List.replicate k e).get? j = if j < k then some e else none := by
  induction k generalizing j with
  | zero => simp
  | succ k ih =>
    cases j with
    | zero => simp [List.replicate]
    | succ j =>
      simp only [List.replicate, List.get?]
      rw [ih j]
      by_cases h : j < k
      · rw [if_pos h, if_pos (by omega)]
      · rw [if_neg h, if_neg (by omega)]

theorem snakeSlots_closed (players : List Player) (h2 : 2 ≤ players.length) :
    snakeFill (players.length / 2) (sortDescBy (fun p => p.rating) players)
      (List.replicate (players.length / 2) ((none, none) : TeamSlot)) 0 true =
    List.zipWith (fun a b => ((some a, some b) : TeamSlot))
      ((sortDescBy (fun p => p.rating) players).take (players.length / 2))
      (((sortDescBy (fun p => p.rating) players).drop (players.length / 2)).take
        (players.length / 2)).reverse := by
  set s := sortDescBy (fun p => p.rating) players with hs
  set k := players.length / 2 with hk
  have hslen : s.length = players.length := (sortDescBy_perm _ _).length_eq
  have hk1 : 1 ≤ k := by
    rw [hk]
    omega
  have hkn : 2 * k ≤ players.length := by
    rw [hk]
    omega
  set A := s.take k with hA
  set B := (s.drop k).take k with hB
  set C := (s.drop k).drop k with hC
  have hA_len : A.length = k := by
    rw [hA, List.length_take]
    omega
  have hB_len : B.length = k := by
    rw [hB, List.length_take, List.length_drop]
    omega
  have hsplit : s = A ++ (B ++ C) := by
    rw [hA, hB, hC, List.take_append_drop, List.take_append_drop]
  -- Phase 1: ascending fill of player1 slots.
  have hup := snakeFill_up k A (B ++ C) (List.replicate k ((none, none) : TeamSlot)) 0
    (List.length_pos.mp (by omega))
    (by omega)
    (by intro j _ hj; rw [replicate_get?, if_pos hj])
  -- Facts about the slots after the ascending phase.
  have hlen1 : (fillAsc (List.replicate k ((none, none) : TeamSlot)) 0 A).length = k := by
    rw [fillAsc_length, List.length_replicate]
  obtain ⟨hasc1, _⟩ := fillAsc_get A (List.replicate k ((none, none) : TeamSlot)) 0
    (by rw [List.length_replicate]; omega)
  have hasc : ∀ j (hj : j < k),
      (fillAsc (List.replicate k ((none, none) : TeamSlot)) 0 A).get? j =
        some ((some (A.get ⟨j, by omega⟩), none) : TeamSlot) := by
    intro j hj
    apply hasc1 j (A.get ⟨j, by omega⟩)
    · rw [Nat.sub_zero]
      exact List.get?_eq_get (by omega)
    · omega
    · omega
  -- Phase 2: descending fill of player2 slots.
  have hdown := snakeFill_down k B C (fillAsc (List.replicate k ((none, none) : TeamSlot)) 0 A)
    (k - 1)
    (by omega)
    (by omega)
    (by
      intro j hj
      exact ⟨A.get ⟨j, by omega⟩, hasc j (by omega)⟩)
  -- Facts about the slots after the descending phase.
  obtain ⟨hdesc1, _⟩ := fillDesc_get B
    (fillAsc (List.replicate k ((none, none) : TeamSlot)) 0 A) (k - 1)
    (by omega) (by omega)
  have hdesc : ∀ j (hj : j < k),
      (fillDesc (fillAsc (List.replicate k ((none, none) : TeamSlot)) 0 A) (k - 1) B).get? j =
        some ((some (A.get ⟨j, by omega⟩), some (B.get ⟨k - 1 - j, by omega⟩)) : TeamSlot) := by
    intro j hj
    exact hdesc1 j (by omega) (some (A.get ⟨j, by omega⟩), none) (B.get ⟨k - 1 - j, by omega⟩)
      (hasc j hj) (List.get?_eq_get (by omega))
  have hlen2 : (fillDesc (fillAsc (List.replicate k ((none, none) : TeamSlot)) 0 A)
      (k - 1) B).length = k := by
    rw [fillDesc_length, hlen1]
  -- Phase 3: any remaining players are dropped on full slots.
  have hfull := snakeFill_full k C
    (fillDesc (fillAsc (List.replicate k ((none, none) : TeamSlot)) 0 A) (k - 1) B) 0 true
    (by
      intro sl hsl
      obtain ⟨n, hn⟩ := List.mem_iff_get?.mp hsl
      have hnk : n < k := by
        by_contra hge
        rw [List.get?_eq_none.mpr (by omega)] at hn
        cases hn
      rw [hdesc n hnk] at hn
      obtain rfl : ((some (A.get ⟨n, by omega⟩), some (B.get ⟨k - 1 - n, by omega⟩)) : TeamSlot)
          = sl := by simpa using hn
      simp)
  -- Assemble the three phases.
  have hsX : snakeFill k s (List.replicate k ((none, none) : TeamSlot)) 0 true =
      snakeFill k (A ++ (B ++ C)) (List.replicate k ((none, none) : TeamSlot)) 0 true :=
    congrArg (fun l => snakeFill k l (List.replicate k ((none, none) : TeamSlot)) 0 true) hsplit
  have hassemble := hsX.trans (hup.trans (hdown.trans hfull))
  rw [hassemble]
  -- Pointwise equality with the zip form.
  apply List.ext_get?_iff.mpr
  intro n
  by_cases hn : n < k
  · rw [hdesc n hn]
    rw [List.get?_zipWith']
    have hAg : A.get? n = some (A.get ⟨n, by omega⟩) := List.get?_eq_get (by omega)
    have hBrevLen : B.reverse.length = k := by rw [List.length_reverse, hB_len]
    have hBrev : B.reverse.get? n = some (B.get ⟨k - 1 - n, by omega⟩) := by
      rw [List.get?_reverse (by omega)]
      have hidx : B.length - 1 - n = k - 1 - n := by omega
      rw [hidx]
      exact List.get?_eq_get (by omega)
    rw [hAg, hBrev]
    rfl
  · have hln : (fillDesc (fillAsc (List.replicate k ((none, none) : TeamSlot)) 0 A)
        (k - 1) B).get? n = none := List.get?_eq_none.mpr (by omega)
    have hrn : (List.zipWith (fun a b => ((some a, some b) : TeamSlot)) A B.reverse).get? n
        = none := by
      apply List.get?_eq_none.mpr
      rw [List.length_zipWith, List.length_reverse, hA_len, hB_len]
      omega
    rw [hln, hrn]

theorem extract_snake (l : List (Player × Player)) :
    ∀ i, ((l.map fun ab => ((some ab.1, some ab.2) : TeamSlot)).enumFrom i).filterMap
        slotToTeam = (l.enumFrom i).map mkSnakeTeam := by
  induction l with
  | nil => intro i; rfl
  | cons ab l ih =>
    intro i
    simp only [List.map_cons, List.enumFrom, List.filterMap_cons]
    rw [ih (i + 1)]
    rfl

theorem generateBalancedKOTTeams_eq (players : List Player) (h2 : 2 ≤ players.length) :
    generateBalancedKOTTeams players =
      ((List.zipWith Prod.mk
          ((sortDescBy (fun p => p.rating) players).take (players.length / 2))
          (((sortDescBy (fun p => p.rating) players).drop (players.length / 2)).take
            (players.length / 2)).reverse).enum).map mkSnakeTeam := by
  unfold generateBalancedKOTTeams
  rw [if_neg (by omega)]
  rw [snakeSlots_closed players h2]
  have hmapzip :
      List.zipWith (fun a b => ((some a, some b) : TeamSlot))
        ((sortDescBy (fun p => p.rating) players).take (players.length / 2))
        (((sortDescBy (fun p => p.rating) players).drop (players.length / 2)).take
          (players.length / 2)).reverse =
      (List.zipWith Prod.mk
        ((sortDescBy (fun p => p.rating) players).take (players.length / 2))
        (((sortDescBy (fun p => p.rating) players).drop (players.length / 2)).take
          (players.length / 2)).reverse).map
        (fun ab => ((some ab.1, some ab.2) : TeamSlot)) := by
    rw [List.map_zipWith]
  rw [hmapzip]
  exact extract_snake _ 0

theorem zip_teams_players (A : List Player) :
    ∀ (B : List Player) (i : ℕ), A.length = B.length →
      List.Perm
        ((((List.zipWith Prod.mk A B).enumFrom i).map mkSnakeTeam).flatMap teamPlayers)
        (A ++ B) := by
  induction A with
  | nil =>
    intro B i hlen
    have hB : B = [] := List.length_eq_zero.mp (by simpa using hlen.symm)
    subst hB
    simp
  | cons a A ih =>
    intro B i hlen
    cases B with
    | nil => simp at hlen
    | cons b B =>
      have hperm := ih B (i + 1) (by simpa using hlen)
      have h1 : List.Perm (b :: (A ++ B)) (A ++ b :: B) := List.perm_middle.symm
      show List.Perm
        (a :: b :: (((List.zipWith Prod.mk A B).enumFrom (i + 1)).map
          mkSnakeTeam).flatMap teamPlayers)
        ((a :: A) ++ (b :: B))
      simp only [List.cons_append]
      exact ((hperm.cons b).trans h1).cons a

/-- **C10**: for every player list of length `n`, `generateBalancedKOTTeams`
returns exactly `⌊n/2⌋` teams, each of two distinct players, with no player
on more than one team; when `n` is even every player is on exactly one team,
and when `n` is odd exactly one player — of minimal rating — is left out of
all teams. -/
theorem C10_balanced_teams (players : List Player) (hnd : players.Nodup) :
    (generateBalancedKOTTeams players).length = players.length / 2 ∧
    (∀ t ∈ generateBalancedKOTTeams players, t.player1 ≠ t.player2) ∧
    ((generateBalancedKOTTeams players).flatMap teamPlayers).Nodup ∧
    (∀ p ∈ (generateBalancedKOTTeams players).flatMap teamPlayers, p ∈ players) ∧
    (players.length % 2 = 0 →
      List.Perm ((generateBalancedKOTTeams players).flatMap teamPlayers) players) ∧
    (players.length % 2 = 1 → ∃ q ∈ players,
      (∀ p ∈ players, q.rating ≤ p.rating) ∧
      List.Perm ((generateBalancedKOTTeams players).flatMap teamPlayers)
        (players.erase q)) := by
  by_cases h2 : players.length < 2
  · have hg : generateBalancedKOTTeams players = [] := by
      unfold generateBalancedKOTTeams
      rw [if_pos h2]
    rw [hg]
    refine ⟨by simp; omega, by simp, by simp, by simp, ?_, ?_⟩
    · intro hev
      have h0 : players.length = 0 := by omega
      rw [List.length_eq_zero.mp h0]
      simp
    · intro hodd
      have h1 : players.length = 1 := by omega
      obtain ⟨q, hq⟩ := List.length_eq_one.mp h1
      refine ⟨q, by simp [hq], ?_, ?_⟩
      · intro p hp
        rw [hq] at hp
        rcases List.mem_singleton.mp hp with rfl
        exact le_refl _
      · rw [hq]
        simp
  · have h2le : 2 ≤ players.length := by omega
    have hteams := generateBalancedKOTTeams_eq players h2le
    set s := sortDescBy (fun p => p.rating) players with hs
    set k := players.length / 2 with hk
    set A := s.take k with hA
    set B := (s.drop k).take k with hB
    have hslen : s.length = players.length := (sortDescBy_perm _ _).length_eq
    have hsperm : List.Perm s players := sortDescBy_perm _ _
    have hsnodup : s.Nodup := (hsperm.nodup_iff).mpr hnd
    have hA_len : A.length = k := by
      rw [hA, List.length_take]
      omega
    have hB_len : B.length = k := by
      rw [hB, List.length_take, List.length_drop]
      omega
    have hflat : List.Perm ((generateBalancedKOTTeams players).flatMap teamPlayers)
        (A ++ B.reverse) := by
      rw [hteams]
      exact zip_teams_players A B.reverse 0 (by rw [hA_len, List.length_reverse, hB_len])
    have hflat2 : List.Perm ((generateBalancedKOTTeams players).flatMap teamPlayers)
        (A ++ B) := hflat.trans (List.Perm.append_left A B.reverse_perm)
    have htake : s.take (k + k) = A ++ B := List.take_add s k k
    have htknodup : (s.take (k + k)).Nodup := hsnodup.sublist (List.take_sublist _ _)
    have hflatnodup : ((generateBalancedKOTTeams players).flatMap teamPlayers).Nodup := by
      rw [(hflat2.nodup_iff)]
      rw [← htake]
      exact htknodup
    refine ⟨?_, ?_, hflatnodup, ?_, ?_, ?_⟩
    · rw [hteams]
      simp only [List.length_map, List.enum_length, List.length_zipWith,
        List.length_reverse, hA_len, hB_len]
      omega
    · intro t ht
      obtain ⟨l1, l2, hdec⟩ := List.append_of_mem ht
      have := hflatnodup
      rw [hdec] at this
      rw [List.flatMap_append, List.flatMap_cons] at this
      have h3 := (this.of_append_right).of_append_left
      have h4 : t.player1 ∉ [t.player2] := by
        simpa [teamPlayers] using h3
      simpa using h4
    · intro p hp
      have hp2 : p ∈ A ++ B := hflat2.mem_iff.mp hp
      rw [← htake] at hp2
      exact hsperm.mem_iff.mp (List.mem_of_mem_take hp2)
    · intro hev
      have hkk : k + k = players.length := by omega
      have hall : s.take (k + k) = s := by
        rw [← hslen] at hkk
        rw [hkk, List.take_length]
      refine hflat2.trans ?_
      rw [← htake, hall]
      exact hsperm
    · intro hodd
      have hkk : k + k = players.length - 1 := by omega
      have hdroplen : (s.drop (k + k)).length = 1 := by
        rw [List.length_drop]
        omega
      obtain ⟨q, hq⟩ := List.length_eq_one.mp hdroplen
      have hqmem : q ∈ s := by
        have : q ∈ s.drop (k + k) := by rw [hq]; exact List.mem_singleton_self q
        exact List.mem_of_mem_drop this
      have hsdec : s = s.take (k + k) ++ [q] := by
        rw [← hq, List.take_append_drop]
      have hqnot : q ∉ s.take (k + k) := by
        intro hmem
        have := hsnodup
        rw [hsdec, List.nodup_append] at this
        exact this.2.2 hmem (List.mem_singleton_self q)
      refine ⟨q, hsperm.mem_iff.mp hqmem, ?_, ?_⟩
      · intro p hp
        have hp2 : p ∈ s := hsperm.mem_iff.mpr hp
        rw [hsdec] at hp2
        rcases List.mem_append.mp hp2 with hp3 | hp3
        · exact sortDescBy_take_ge_drop (fun p => p.rating) players (k + k) p q
            (by rw [← hs]; exact hp3)
            (by rw [← hs, hq]; exact List.mem_singleton_self q)
        · rcases List.mem_singleton.mp hp3 with rfl
          exact le_refl _
      · have herase : s.erase q = s.take (k + k) := by
          conv_lhs => rw [hsdec]
          rw [List.erase_append_right _ hqnot]
          simp
        refine hflat2.trans ?_
        rw [← htake, ← herase]
        exact hsperm.erase q

/-- Instantiation of `C10_balanced_teams` at a concrete three-player roster. -/
theorem C10_balanced_teams_witness :
    (generateBalancedKOTTeams
        [⟨1, 4, .male⟩, ⟨2, 3, .male⟩, ⟨3, 5, .female⟩]).length =
      ([⟨1, 4, .male⟩, ⟨2, 3, .male⟩, ⟨3, 5, .female⟩] : List Player).length / 2 :=
  (C10_balanced_teams [⟨1, 4, .male⟩, ⟨2, 3, .male⟩, ⟨3, 5, .female⟩] (by simp)).1

/-- `quickWin` accepts exactly when the declared side matches the winner
computed from the scores, and then completes via `setWinner`. -/
theorem quickWin_some_iff (m : MgrMatch) (side : ℕ) (m2 : MgrMatch) :
    quickWin m side = some m2 ↔ scoreWinner m = some side ∧ m2 = setWinner m side := by
  cases hf : m.matchFormat with
  | single_match =>
    simp only [quickWin, scoreWinner, hf]
    rcases m.score1 with _ | s1 <;> rcases m.score2 with _ | s2 <;> simp
    split_ifs <;> simp_all [and_assoc, eq_comm] <;> omega
  | best_of_3 =>
    simp only [quickWin, scoreWinner, hf]
    rcases m.game1Score1 with _ | g1s1 <;> rcases m.game1Score2 with _ | g1s2 <;>
      rcases m.game2Score1 with _ | g2s1 <;> rcases m.game2Score2 with _ | g2s2 <;> simp
    split_ifs <;> simp_all [and_assoc, eq_comm] <;> omega

/-- **C6**: when the declared winning side contradicts the winner determined
from the entered scores, `quickWin` rejects the completion (`return prev`):
the match keeps `status = pending` and `winner = null`, and no match or
stats state changes (`setWinner`, the only path to the point hooks, is not
invoked).  Moreover a completion is only ever accepted for the side the
scores themselves name — the declared winner is never silently
overridden. -/
theorem C6_quickwin_mismatch_rejected (m : MgrMatch) (side w : ℕ)
    (hp : m.status = .pending) (hn : m.winner = none)
    (hw : scoreWinner m = some w) (hne : w ≠ side) :
    quickWin m side = none ∧ m.status = .pending ∧ m.winner = none ∧
    (∀ (side2 : ℕ) (m2 : MgrMatch), quickWin m side2 = some m2 →
      scoreWinner m = some side2 ∧ m2 = setWinner m side2) := by
  refine ⟨?_, hp, hn, ?_⟩
  · cases hq : quickWin m side with
    | none => rfl
    | some m2 =>
      obtain ⟨hsw, _⟩ := (quickWin_some_iff m side m2).mp hq
      rw [hw] at hsw
      exact absurd (by simpa using hsw) hne
  · intro side2 m2 hq
    exact (quickWin_some_iff m side2 m2).mp hq

/-- Instantiation of `C6_quickwin_mismatch_rejected`: an 11–5 single match
with side 2 declared the winner is rejected. -/
theorem C6_quickwin_mismatch_rejected_witness :
    quickWin
      { matchFormat := .single_match
        score1 := some 11
        score2 := some 5
        game1Score1 := none
        game1Score2 := none
        game2Score1 := none
        game2Score2 := none
        game3Score1 := none
        game3Score2 := none
        status := .pending
        winner := none } 2 = none :=
  (C6_quickwin_mismatch_rejected _ 2 1 rfl rfl (by decide) (by decide)).1

theorem allPairs_mem {α : Type} (l : List α) (ab : α × α) (h : ab ∈ allPairs l) :
    ab.1 ∈ l ∧ ab.2 ∈ l := by
  induction l with
  | nil => simp [allPairs] at h
  | cons x xs ih =>
    simp only [allPairs, List.mem_append, List.mem_map] at h
    rcases h with ⟨y, hy, hxy⟩ | h2
    · obtain rfl : (x, y) = ab := hxy
      exact ⟨List.mem_cons_self _ _, List.mem_cons_of_mem _ hy⟩
    · obtain ⟨h1, h2⟩ := ih h2
      exact ⟨List.mem_cons_of_mem _ h1, List.mem_cons_of_mem _ h2⟩

/-- Every match the pairing loop emits pairs two members of the remaining
pool (hence of the gender group), labelled with the first one's gender. -/
theorem pairTeams_mem (s : TStatsMap) (courts : ℕ) :
    ∀ (n ci : ℕ) (remaining : List Team), courts - ci ≤ n →
      ∀ m ∈ pairTeams s courts ci remaining,
        ∃ t1 t2, t1 ∈ remaining ∧ t2 ∈ remaining ∧
          m.team1Id = t1.id ∧ m.team2Id = t2.id ∧ m.teamGender = t1.gender := by
  intro n
  induction n with
  | zero =>
    intro ci remaining h m hm
    rw [pairTeams] at hm
    rw [dif_neg (by omega)] at hm
    simp at hm
  | succ n ih =>
    intro ci remaining h m hm
    rw [pairTeams] at hm
    by_cases hc : 2 ≤ remaining.length ∧ ci < courts
    · rw [dif_pos hc] at hm
      cases hmin : minBy? (pairCost s) (allPairs remaining) with
      | none => rw [hmin] at hm; simp at hm
      | some tt =>
        rw [hmin] at hm
        rcases List.mem_cons.mp hm with rfl | hm2
        · obtain ⟨h1, h2⟩ := allPairs_mem remaining tt (minBy?_mem _ _ _ hmin)
          exact ⟨tt.1, tt.2, h1, h2, rfl, rfl, rfl⟩
        · obtain ⟨t1, t2, ht1, ht2, hr⟩ := ih (ci + 1) _ (by omega) m hm2
          exact ⟨t1, t2,
            List.mem_of_mem_erase (List.mem_of_mem_erase ht1),
            List.mem_of_mem_erase (List.mem_of_mem_erase ht2), hr⟩
    · rw [dif_neg hc] at hm
      simp at hm

/-- With exactly two remaining teams and a free court, the pairing loop
pairs them directly. -/
theorem pairTeams_two (s : TStatsMap) (courts ci : ℕ) (t1 t2 : Team)
    (hc : ci < courts) :
    pairTeams s courts ci [t1, t2] =
      [{ court := ci + 1
         team1Id := t1.id
         team2Id := t2.id
         teamGender := t1.gender
         diff := |t1.avgRating - t2.avgRating| }] := by
  rw [pairTeams]
  rw [dif_pos ⟨by simp, hc⟩]
  have hmin : minBy? (pairCost s) (allPairs [t1, t2]) = some (t1, t2) := rfl
  rw [hmin]
  dsimp only
  have herase : (([t1, t2].erase t1).erase t2 : List Team) = [] := by
    rw [List.erase_cons_head, List.erase_cons_head]
  rw [herase]
  rw [pairTeams]
  rw [dif_neg (by simp)]

/-- **C4 counterexample**: with the three same-gender teams `tA`, `tB`, `tC`
on two courts, the round-robin teamed-doubles generator pairs `tB` with `tC`
(the globally closest pair) and leaves `tA` — the clearly top-priority team,
five sit-outs ahead of both others — without any opponent, although three
candidates remained.  The claimed top-priority opponent-scoring rule would
have put `tA` on court. -/
theorem C4_counterexample :
    (generateTeamedDoublesRound [tA, tB, tC] 2 statsC4 1 (fun _ => 0)).1 =
      [{ court := 1, team1Id := 2, team2Id := 3, teamGender := .male_male
         diff := 1/20 }] ∧
    teamPriority statsC4 1 (fun _ => 0) tA > teamPriority statsC4 1 (fun _ => 0) tB ∧
    teamPriority statsC4 1 (fun _ => 0) tA > teamPriority statsC4 1 (fun _ => 0) tC := by
  have hstA : tStat statsC4 1 =
      { roundsPlayed := 0, roundsSatOut := 5, lastPlayedRound := -1
        opponents := fun _ => 0 } := rfl
  have hstB : tStat statsC4 2 =
      { roundsPlayed := 1, roundsSatOut := 0, lastPlayedRound := 0
        opponents := fun _ => 0 } := rfl
  have hstC : tStat statsC4 3 =
      { roundsPlayed := 1, roundsSatOut := 0, lastPlayedRound := 0
        opponents := fun _ => 0 } := rfl
  have hcAB : pairCost statsC4 (tA, tB) = 1 := by
    norm_num [pairCost, hstA, tA, tB]
  have hcAC : pairCost statsC4 (tA, tC) = 21/20 := by
    norm_num [pairCost, hstA, tA, tC]
  have hcBC : pairCost statsC4 (tB, tC) = 1/20 := by
    norm_num [pairCost, hstB, tB, tC]
  have hminBC : minBy? (pairCost statsC4) (allPairs [tA, tB, tC]) = some (tB, tC) := by
    have e : allPairs [tA, tB, tC] = [(tA, tB), (tA, tC), (tB, tC)] := rfl
    rw [e]
    simp only [minBy?, minByD]
    norm_num [hcAB, hcAC, hcBC]
  have hpair : pairTeams statsC4 2 0 [tA, tB, tC] =
      [{ court := 1, team1Id := 2, team2Id := 3, teamGender := .male_male
         diff := 1/20 }] := by
    rw [pairTeams, dif_pos ⟨by simp, by omega⟩, hminBC]
    dsimp only
    have he : (([tA, tB, tC].erase tB).erase tC : List Team) = [tA] := by
      simp [List.erase_cons, tA, tB, tC]
    rw [he]
    rw [pairTeams, dif_neg (by simp)]
    norm_num [tB, tC]
  refine ⟨?_, ?_, ?_⟩
  · show (generateTeamedDoublesRound [tA, tB, tC] 2 statsC4 1 (fun _ => 0)).1 = _
    unfold generateTeamedDoublesRound
    dsimp only
    have hfm : ([tA, tB, tC].filter fun t => t.gender = TeamGender.male_male)
        = [tA, tB, tC] := rfl
    have hff : ([tA, tB, tC].filter fun t => t.gender = TeamGender.female_female)
        = [] := rfl
    have hfx : ([tA, tB, tC].filter fun t => t.gender = TeamGender.mixed) = [] := rfl
    rw [hfm, hff, hfx]
    have hinit : initTeamStats statsC4 [tA, tB, tC] = statsC4 := rfl
    rw [hinit]
    have hm1 : createMatchesForGender statsC4 2 [tA, tB, tC] 0 1 (fun _ => 0) =
        [{ court := 1, team1Id := 2, team2Id := 3, teamGender := .male_male
           diff := 1/20 }] := by
      unfold createMatchesForGender
      rw [if_neg (by simp)]
      have hsel : selectTeamsForRound [tA, tB, tC] statsC4 (min ([tA, tB, tC].length)
          ((2 - 0) * 2)) 1 (fun _ => 0) = [tA, tB, tC] := rfl
      rw [hsel, hpair]
    rw [hm1]
    have hm2 : createMatchesForGender statsC4 2 [] 1 1 (fun _ => 0) = [] := rfl
    have hm3 : createMatchesForGender statsC4 2 [] 1 1 (fun _ => 0) = [] := rfl
    simp [hm2]
  · have havg : tAvgRoundsPlayed statsC4 1 = 2/3 := by
      norm_num [tAvgRoundsPlayed, statsC4]
    norm_num [teamPriority, havg, hstA, hstB, tA, tB]
  · have havg : tAvgRoundsPlayed statsC4 1 = 2/3 := by
      norm_num [tAvgRoundsPlayed, statsC4]
    norm_num [teamPriority, havg, hstA, hstC, tA, tC]

/-- **C4 (amended)**: in the round-robin teamed-doubles generator, opponents
are selected only within the same gender category, but the pairing is the
repeated GLOBAL minimisation of `ratingGap + priorMatchups×2` over all
remaining pairs (so the most overdue team can stay unpaired); with exactly
two remaining candidates they are paired directly.  The claimed scoring rule
`ratingGap×10 + priorMatchups×20 − (5 − opponentRoundsPlayed)×2` applied to
the top-priority team is the one of the manual court-mode assignment
(`assignTeamedDoublesMatchToCourt`), where it does hold — again with direct
pairing at exactly two candidates. -/
theorem C4_teamed_pairing_amended (s sc : TStatsMap) (courts n ci : ℕ)
    (remaining rest : List Team) (g : TeamGender) (tt : Team × Team)
    (t1c t2c h1 t2 : Team)
    (hn : courts - ci ≤ n)
    (hgen : ∀ t ∈ remaining, t.gender = g)
    (hmin : minBy? (pairCost s) (allPairs remaining) = some tt)
    (hc : ci < courts)
    (h3 : 3 ≤ (h1 :: rest).length)
    (hch : chooseOpponent sc (h1 :: rest) = some (h1, t2)) :
    (∀ m ∈ pairTeams s courts ci remaining, m.teamGender = g ∧
      ∃ u1 u2, u1 ∈ remaining ∧ u2 ∈ remaining ∧
        m.team1Id = u1.id ∧ m.team2Id = u2.id) ∧
    (∀ uv ∈ allPairs remaining, pairCost s tt ≤ pairCost s uv) ∧
    pairTeams s courts ci [t1c, t2c] =
      [{ court := ci + 1, team1Id := t1c.id, team2Id := t2c.id
         teamGender := t1c.gender, diff := |t1c.avgRating - t2c.avgRating| }] ∧
    (t2 ∈ rest ∧ ∀ u ∈ rest, mgrOpponentScore sc h1 t2 ≤ mgrOpponentScore sc h1 u) ∧
    chooseOpponent sc [t1c, t2c] = some (t1c, t2c) := by
  refine ⟨?_, minBy?_min _ _ _ hmin, pairTeams_two s courts ci t1c t2c hc, ?_, ?_⟩
  · intro m hm
    obtain ⟨u1, u2, hu1, hu2, he1, he2, heg⟩ :=
      pairTeams_mem s courts n ci remaining hn m hm
    exact ⟨heg.trans (hgen u1 hu1), u1, u2, hu1, hu2, he1, he2⟩
  · unfold chooseOpponent at hch
    dsimp only at hch
    rw [if_pos h3] at hch
    cases hm2 : minBy? (mgrOpponentScore sc h1) rest with
    | none => rw [hm2] at hch; simp at hch
    | some t2m =>
      rw [hm2] at hch
      obtain rfl : t2m = t2 := by simpa using hch
      exact minBy?_spec _ _ _ hm2
  · simp [chooseOpponent]

/-- Instantiation of `C4_teamed_pairing_amended` at concrete inputs. -/
theorem C4_teamed_pairing_amended_witness :
    pairTeams [] 1 0 [tA, tB] =
      [{ court := 1, team1Id := tA.id, team2Id := tB.id
         teamGender := tA.gender, diff := |tA.avgRating - tB.avgRating| }] :=
  (C4_teamed_pairing_amended [] [] 1 1 0 [tA, tB] [tB, tB] TeamGender.male_male
    (tA, tB) tA tB tA tB
    (by omega)
    (by intro t ht; rcases List.mem_cons.mp ht with rfl | ht2
        · rfl
        · rcases List.mem_singleton.mp ht2 with rfl; rfl)
    rfl
    (by omega)
    (by simp)
    (by simp [chooseOpponent, minBy?, minByD])).2.2.1

/-- **C7 counterexample**: with the mixed preference on, 4 slots and 5
players, the code selects women `pw1` and `pw3` (its female formula has no
catch-up term, so the three women differ only by jitter), although by the
claimed female formula — the standard one including `catchup×100` — `pw2`
outranks both selected women and would have taken a reserved female slot. -/
theorem C7_counterexample :
    selectPlayersForRound [pw1, pw2, pw3, pm1, pm2] statsC7 4 2 true 99 jitC7 =
      [pw1, pw3, pm1, pm2] ∧
    C7claimedFemalePriority statsC7 2 99 jitC7 pw2 >
      C7claimedFemalePriority statsC7 2 99 jitC7 pw1 ∧
    C7claimedFemalePriority statsC7 2 99 jitC7 pw2 >
      C7claimedFemalePriority statsC7 2 99 jitC7 pw3 := by
  have hs1 : dStat statsC7 1 = { freshDStats with roundsPlayed := 2, lastPlayedRound := 1 } := rfl
  have hs2 : dStat statsC7 2 = { freshDStats with roundsPlayed := 1, lastPlayedRound := 1 } := rfl
  have hs3 : dStat statsC7 3 = { freshDStats with roundsPlayed := 2, lastPlayedRound := 1 } := rfl
  have hs4 : dStat statsC7 4 = { freshDStats with roundsPlayed := 2, lastPlayedRound := 1 } := rfl
  have hs5 : dStat statsC7 5 = { freshDStats with roundsPlayed := 2, lastPlayedRound := 1 } := rfl
  have havg : dAvgRoundsPlayed statsC7 2 = 9/5 := by
    norm_num [dAvgRoundsPlayed, statsC7]
  have f1 : dFemalePriority statsC7 2 99 jitC7 pw1 = 2009/10 := by
    norm_num [dFemalePriority, hs1, pw1, jitC7, freshDStats]
  have f2 : dFemalePriority statsC7 2 99 jitC7 pw2 = 2001/10 := by
    norm_num [dFemalePriority, hs2, pw2, jitC7, freshDStats]
  have f3 : dFemalePriority statsC7 2 99 jitC7 pw3 = 401/2 := by
    norm_num [dFemalePriority, hs3, pw3, jitC7, freshDStats]
  have g4 : dStdPriority statsC7 2 jitC7 pm1 = 180 := by
    norm_num [dStdPriority, hs4, pm1, jitC7, freshDStats, havg]
  have g5 : dStdPriority statsC7 2 jitC7 pm2 = 180 := by
    norm_num [dStdPriority, hs5, pm2, jitC7, freshDStats, havg]
  have hw : dWomen [pw1, pw2, pw3, pm1, pm2] = [pw1, pw2, pw3] := rfl
  have hm : dMen [pw1, pw2, pw3, pm1, pm2] = [pm1, pm2] := rfl
  have hsortW : sortDescBy (dFemalePriority statsC7 2 99 jitC7) [pw1, pw2, pw3] =
      [pw1, pw3, pw2] := by
    norm_num [sortDescBy, List.insertionSort, List.orderedInsert, f1, f2, f3]
  have hsortM : sortDescBy (dStdPriority statsC7 2 jitC7) [pm1, pm2] = [pm1, pm2] := by
    norm_num [sortDescBy, List.insertionSort, List.orderedInsert, g4, g5]
  have hSelW : dSelWomen [pw1, pw2, pw3, pm1, pm2] statsC7 4 2 99 jitC7 = [pw1, pw3] := by
    unfold dSelWomen
    rw [hw, hsortW]
    rfl
  have hSelM : dSelMen [pw1, pw2, pw3, pm1, pm2] statsC7 4 2 99 jitC7 = [pm1, pm2] := by
    unfold dSelMen
    rw [hm, hsortM, hSelW]
    rfl
  have hRes : dGenderResult [pw1, pw2, pw3, pm1, pm2] statsC7 4 2 99 jitC7 =
      [pw1, pw3, pm1, pm2] := by
    unfold dGenderResult
    rw [hSelW, hSelM]
    rfl
  have hExtras : dExtras [pw1, pw2, pw3, pm1, pm2] statsC7 4 2 99 jitC7 = [] := by
    unfold dExtras
    rw [hRes]
    rfl
  refine ⟨?_, ?_, ?_⟩
  · unfold selectPlayersForRound
    rw [if_neg (by simp), if_pos rfl, hRes, hExtras]
    rfl
  · norm_num [C7claimedFemalePriority, dStdPriority, hs1, hs2, pw1, pw2, jitC7,
      freshDStats, havg]
  · norm_num [C7claimedFemalePriority, dStdPriority, hs2, hs3, pw2, pw3, jitC7,
      freshDStats, havg]

theorem length_filter_not_add {α : Type} (P : α → Prop) [DecidablePred P] (l : List α) :
    (l.filter fun a => ¬ P a).length + (l.filter fun a => P a).length = l.length := by
  have h := @List.length_eq_length_filter_add _ l (fun a => decide (P a))
  have e : (l.filter fun a => ¬ P a) = l.filter (fun a => !(decide (P a))) := by
    simp
  rw [e]
  omega

/-- **C7 amended**: in the gender-aware branch (mixed preference on, more
players than slots) the reserved female slots are the top
`min(femaleCount, maxPlayers/2)` of the female subset ranked by the CODE's
female priority — `satOut×500 + sinceLastPlayed×200 (or +1000) + jitter −
2000` at the rest interval, with no catch-up term; the remaining slots are
filled from the male subset by the standard formula, any shortfall is
backfilled regardless of gender, exactly `maxPlayers` players come back,
and all of them are present players. -/
theorem C7_gender_selection_amended
    (allPlayers : List Player) (s : DStatsMap) (maxPlayers roundIdx restInterval : ℕ)
    (jit : ℕ → ℚ)
    (hlt : maxPlayers < allPlayers.length)
    (hnd : (allPlayers.map Player.id).Nodup) :
    (∀ p ∈ dSelWomen allPlayers s maxPlayers roundIdx restInterval jit,
        p.gender = Gender.female ∧ p ∈ allPlayers) ∧
    (dSelWomen allPlayers s maxPlayers roundIdx restInterval jit).length =
      min (dWomen allPlayers).length (maxPlayers / 2) ∧
    (∀ p ∈ dSelWomen allPlayers s maxPlayers roundIdx restInterval jit,
      ∀ q ∈ (sortDescBy (dFemalePriority s roundIdx restInterval jit)
              (dWomen allPlayers)).drop
          (min (dWomen allPlayers).length (maxPlayers / 2)),
        dFemalePriority s roundIdx restInterval jit q ≤
          dFemalePriority s roundIdx restInterval jit p) ∧
    (∀ p ∈ dSelMen allPlayers s maxPlayers roundIdx restInterval jit,
        ¬p.gender = Gender.female ∧ p ∈ allPlayers) ∧
    (selectPlayersForRound allPlayers s maxPlayers roundIdx true restInterval jit).length
      = maxPlayers ∧
    (∀ p ∈ selectPlayersForRound allPlayers s maxPlayers roundIdx true restInterval jit,
        p ∈ allPlayers) := by
  have hWsub : ∀ p ∈ dSelWomen allPlayers s maxPlayers roundIdx restInterval jit,
      p.gender = Gender.female ∧ p ∈ allPlayers := by
    intro p hp
    unfold dSelWomen at hp
    have h1 := List.mem_of_mem_take hp
    have h2 := (sortDescBy_perm (dFemalePriority s roundIdx restInterval jit)
      (dWomen allPlayers)).mem_iff.mp h1
    have h3 := List.mem_filter.mp h2
    exact ⟨by simpa using h3.2, h3.1⟩
  have hMsub : ∀ p ∈ dSelMen allPlayers s maxPlayers roundIdx restInterval jit,
      ¬p.gender = Gender.female ∧ p ∈ allPlayers := by
    intro p hp
    unfold dSelMen at hp
    have h1 := List.mem_of_mem_take hp
    have h2 := (sortDescBy_perm (dStdPriority s roundIdx jit)
      (dMen allPlayers)).mem_iff.mp h1
    have h3 := List.mem_filter.mp h2
    exact ⟨by simpa using h3.2, h3.1⟩
  have hgrsub : ∀ p ∈ dGenderResult allPlayers s maxPlayers roundIdx restInterval jit,
      p ∈ allPlayers := by
    intro p hp
    unfold dGenderResult at hp
    rcases List.mem_append.mp hp with h | h
    · exact (hWsub p h).2
    · exact (hMsub p h).2
  have hcnt : (allPlayers.filter fun p =>
        p.id ∈ (dGenderResult allPlayers s maxPlayers roundIdx restInterval jit).map
          Player.id).length ≤
      (dGenderResult allPlayers s maxPlayers roundIdx restInterval jit).length := by
    have hsubl : (allPlayers.filter fun p =>
        p.id ∈ (dGenderResult allPlayers s maxPlayers roundIdx restInterval jit).map
          Player.id).Sublist allPlayers := List.filter_sublist _
    have hnd2 : ((allPlayers.filter fun p =>
        p.id ∈ (dGenderResult allPlayers s maxPlayers roundIdx restInterval jit).map
          Player.id).map Player.id).Nodup := hnd.sublist (hsubl.map Player.id)
    have hss : ((allPlayers.filter fun p =>
        p.id ∈ (dGenderResult allPlayers s maxPlayers roundIdx restInterval jit).map
          Player.id).map Player.id) ⊆
        ((dGenderResult allPlayers s maxPlayers roundIdx restInterval jit).map
          Player.id) := by
      intro x hx
      rcases List.mem_map.mp hx with ⟨p, hp, rfl⟩
      have := (List.mem_filter.mp hp).2
      simpa using this
    have := (List.Nodup.subperm hnd2 hss).length_le
    simpa using this
  have hsplit := length_filter_not_add (fun p =>
    p.id ∈ (dGenderResult allPlayers s maxPlayers roundIdx restInterval jit).map
      Player.id) allPlayers
  have hex : (dExtras allPlayers s maxPlayers roundIdx restInterval jit).length =
      min (maxPlayers -
          (dGenderResult allPlayers s maxPlayers roundIdx restInterval jit).length)
        ((allPlayers.filter fun p =>
          ¬p.id ∈ (dGenderResult allPlayers s maxPlayers roundIdx restInterval jit).map
            Player.id).length) := by
    unfold dExtras
    rw [List.length_take]
  have hres : selectPlayersForRound allPlayers s maxPlayers roundIdx true restInterval jit =
      (dGenderResult allPlayers s maxPlayers roundIdx restInterval jit ++
        dExtras allPlayers s maxPlayers roundIdx restInterval jit).take maxPlayers := by
    unfold selectPlayersForRound
    rw [if_neg (by omega), if_pos rfl]
  refine ⟨hWsub, ?_, ?_, hMsub, ?_, ?_⟩
  · unfold dSelWomen
    rw [List.length_take,
      (sortDescBy_perm (dFemalePriority s roundIdx restInterval jit)
        (dWomen allPlayers)).length_eq]
    omega
  · intro p hp q hq
    unfold dSelWomen at hp
    exact sortDescBy_take_ge_drop _ _ _ p q hp hq
  · rw [hres, List.length_take, List.length_append]
    omega
  · intro p hp
    rw [hres] at hp
    rcases List.mem_append.mp (List.mem_of_mem_take hp) with h | h
    · exact hgrsub p h
    · unfold dExtras at h
      exact (List.mem_filter.mp (List.mem_of_mem_take h)).1

/-- Instantiation of `C7_gender_selection_amended` at the five-player
roster of the C7 scenario. -/
theorem C7_gender_selection_amended_witness :
    4 < [pw1, pw2, pw3, pm1, pm2].length ∧
    ([pw1, pw2, pw3, pm1, pm2].map Player.id).Nodup ∧
    ((selectPlayersForRound [pw1, pw2, pw3, pm1, pm2] statsC7 4 2 true 99 jitC7).length
      = 4 ∧
     ∀ p ∈ selectPlayersForRound [pw1, pw2, pw3, pm1, pm2] statsC7 4 2 true 99 jitC7,
        p ∈ [pw1, pw2, pw3, pm1, pm2]) :=
  ⟨by decide, by decide,
    (C7_gender_selection_amended [pw1, pw2, pw3, pm1, pm2] statsC7 4 2 99 jitC7
      (by decide) (by decide)).2.2.2.2⟩

/-- **C5**: if every sitting player's ground-truth sat-out count is at or
below the population average, the fairness sweep returns the matches
unchanged; and whenever a step of the sweep performs a substitution, the
replaced participant has a strictly lower ground-truth sat-out count than
the overdue player, a rating within 0.5 of it, and the least
`ratingDiff×10 + satOut` score among all admissible targets. -/
theorem C5_fairness_sweep (prev : List (List DMatch)) (present : List Player)
    (stats : DStatsMap) (pm : Bool) (ms : List DMatch)
    (hall : ∀ p ∈ fsSittingOut present ms,
      (gtSatOut prev p.id : ℚ) ≤ avgSatOut prev present) :
    fairnessSweep prev present stats pm ms = ms ∧
    ∀ (needsIn : Player) (ms2 : List DMatch) (i : ℕ) (cand : Player),
      minBy? (swapScore prev needsIn) (swapCands prev needsIn ms2) = some (i, cand) →
      sweepStep prev stats pm ms2 needsIn = performSwap stats pm needsIn i cand ms2 ∧
      gtSatOut prev cand.id < gtSatOut prev needsIn.id ∧
      |cand.rating - needsIn.rating| ≤ 1/2 ∧
      ∀ q ∈ swapCands prev needsIn ms2,
        swapScore prev needsIn (i, cand) ≤ swapScore prev needsIn q := by
  constructor
  · unfold fairnessSweep
    by_cases h1 : prev = []
    · rw [if_pos h1]
    · rw [if_neg h1]
      by_cases h2 : fsSittingOut present ms = []
      · rw [if_pos h2]
      · rw [if_neg h2]
        have hfil : (fsSittingOut present ms).filter (fun p =>
            avgSatOut prev present < (gtSatOut prev p.id : ℚ)) = [] := by
          apply List.filter_eq_nil.mpr
          intro p hp
          simpa using not_lt.mpr (hall p hp)
        have hc : fairnessCandidates prev present ms = [] := by
          unfold fairnessCandidates
          rw [hfil]
          rfl
        rw [hc]
        rfl
  · intro needsIn ms2 i cand h
    have hmem := minBy?_mem _ _ _ h
    have hmin := minBy?_min _ _ _ h
    have hg := (List.mem_filter.mp hmem).2
    simp only [decide_eq_true_eq] at hg
    refine ⟨?_, hg.1, hg.2, hmin⟩
    unfold sweepStep
    rw [h]

/-- Instantiation of `C5_fairness_sweep`: one previous round, one present
player who is already playing, so nobody sits and the matches come back
unchanged. -/
theorem C5_fairness_sweep_witness :
    (∀ p ∈ fsSittingOut [pw1] [mC5],
      (gtSatOut [[mC5]] p.id : ℚ) ≤ avgSatOut [[mC5]] [pw1]) ∧
    fairnessSweep [[mC5]] [pw1] [] false [mC5] = [mC5] := by
  have hall : ∀ p ∈ fsSittingOut [pw1] [mC5],
      (gtSatOut [[mC5]] p.id : ℚ) ≤ avgSatOut [[mC5]] [pw1] := by
    intro p hp
    simp [fsSittingOut, dmIds, matchPlayers, mC5, pw1, pw2, pw3, pm1] at hp
  exact ⟨hall, (C5_fairness_sweep [[mC5]] [pw1] [] false [mC5] hall).1⟩

theorem kotC1_sk2 : getPlayerSkillLevel 2 = SkillKey.BEGINNER := by
  norm_num [getPlayerSkillLevel, skillKeys, skillRange, List.find?]

theorem kotC1_sk5 : getPlayerSkillLevel 5 = SkillKey.EXPERT := by
  norm_num [getPlayerSkillLevel, skillKeys, skillRange, List.find?]

theorem kotC1_buckets : assignToBuckets kotC1Players = bKC1 := by
  funext k
  cases k <;>
    simp [assignToBuckets, bucketPut, bKC1, kotC1Players,
      kb1, kb2, kb3, kb4, kb5, ke1, ke2, ke3, kotC1_sk2, kotC1_sk5]

theorem kotC1_groups : separatePlayersBySkill kotC1Players 3 = [kgB, kgE] := by
  unfold separatePlayersBySkill
  rw [kotC1_buckets]
  rfl

theorem kotC1_pri1 : kotPriority kS0 0 jitKC1 kb1 = 2001/2 := by
  have h : kStat kS0 1 = freshKStats := rfl
  norm_num [kotPriority, h, kb1, jitKC1, kAvgRoundsPlayed, freshKStats]

theorem kotC1_pri2 : kotPriority kS0 0 jitKC1 kb2 = 5002/5 := by
  have h : kStat kS0 2 = freshKStats := rfl
  norm_num [kotPriority, h, kb2, jitKC1, kAvgRoundsPlayed, freshKStats]

theorem kotC1_pri3 : kotPriority kS0 0 jitKC1 kb3 = 10003/10 := by
  have h : kStat kS0 3 = freshKStats := rfl
  norm_num [kotPriority, h, kb3, jitKC1, kAvgRoundsPlayed, freshKStats]

theorem kotC1_pri4 : kotPriority kS0 0 jitKC1 kb4 = 5001/5 := by
  have h : kStat kS0 4 = freshKStats := rfl
  norm_num [kotPriority, h, kb4, jitKC1, kAvgRoundsPlayed, freshKStats]

theorem kotC1_pri5 : kotPriority kS0 0 jitKC1 kb5 = 10001/10 := by
  have h : kStat kS0 5 = freshKStats := rfl
  norm_num [kotPriority, h, kb5, jitKC1, kAvgRoundsPlayed, freshKStats]

theorem kotC1_sel :
    selectPlayersForKOTRound [kb1, kb2, kb3, kb4, kb5] kS0 4 0 jitKC1 =
      [kb1, kb2, kb3, kb4] := by
  have hsort : sortDescBy (kotPriority kS0 0 jitKC1) [kb1, kb2, kb3, kb4, kb5] =
      [kb1, kb2, kb3, kb4, kb5] := by
    norm_num [sortDescBy, List.insertionSort, List.orderedInsert,
      kotC1_pri1, kotC1_pri2, kotC1_pri3, kotC1_pri4, kotC1_pri5]
  unfold selectPlayersForKOTRound
  rw [if_neg (by decide), hsort]
  rfl

theorem kotC1_splitB :
    findBestTeamSplitKOT kb1 kb2 kb3 kb4 =
      { team1 := (kb1, kb2), team2 := (kb3, kb4) } := by
  norm_num [findBestTeamSplitKOT, minByD, splitGap, avg, kb1, kb2, kb3, kb4]

theorem kotC1_splitO :
    findBestTeamSplitKOT kb5 ke1 ke2 ke3 =
      { team1 := (kb5, ke1), team2 := (ke2, ke3) } := by
  norm_num [findBestTeamSplitKOT, minByD, splitGap, avg, kb5, ke1, ke2, ke3]

theorem kotC1_buildB :
    kotBuildCourts [kb1, kb2, kb3, kb4] kS0 1 1 0 1 = ([mB], kS1p) := by
  have hr : List.range 1 = [0] := rfl
  simp only [kotBuildCourts, hr, List.foldl]
  norm_num [kotC1_splitB, splitGap, avg, mB, getCourtPoints]
  norm_num [kb1, kb2, kb3, kb4, kS1p, kS0, modifyEntry, kotPlayUpd, kPlayedSt,
    freshKStats]

theorem kotC1_groupB :
    generateKOTMatchesForGroup [kb1, kb2, kb3, kb4, kb5] kS0 1 1 0 [] 1 jitKC1
      (fun l => l) = ([mB], kS1) := by
  unfold generateKOTMatchesForGroup
  have hac : kotActualCourts [kb1, kb2, kb3, kb4, kb5] 1 = 1 := rfl
  have hpta : kotPlayersToAssign [kb1, kb2, kb3, kb4, kb5] kS0 1 0 jitKC1 =
      [kb1, kb2, kb3, kb4] := by
    unfold kotPlayersToAssign
    rw [hac, if_pos (by decide)]
    exact kotC1_sel
  rw [hpta, hac]
  have hsat : kotSatOutUpd [kb1, kb2, kb3, kb4, kb5] [kb1, kb2, kb3, kb4] kS1p =
      kS1 := rfl
  norm_num [kotC1_buildB, hsat]

theorem kotC1_buildO :
    kotBuildCourts [kb5, ke1, ke2, ke3] kS1 1 2 0 1 = ([mO], kS2) := by
  have hr : List.range 1 = [0] := rfl
  simp only [kotBuildCourts, hr, List.foldl]
  norm_num [kotC1_splitO, splitGap, avg, mO, getCourtPoints]
  norm_num [kb5, ke1, ke2, ke3, kS2, kS1, modifyEntry, kotPlayUpd, kPlayedSt,
    freshKStats, kBugSt]

theorem kotC1_groupO :
    generateKOTMatchesForGroup [kb5, ke1, ke2, ke3] kS1 1 2 0 [] 1 jitKC1
      (fun l => l) = ([mO], kS2) := by
  unfold generateKOTMatchesForGroup
  have hac : kotActualCourts [kb5, ke1, ke2, ke3] 1 = 1 := rfl
  have hpta : kotPlayersToAssign [kb5, ke1, ke2, ke3] kS1 1 0 jitKC1 =
      [kb5, ke1, ke2, ke3] := by
    unfold kotPlayersToAssign
    rw [hac, if_neg (by decide)]
  rw [hpta, hac]
  have hsat : kotSatOutUpd [kb5, ke1, ke2, ke3] [kb5, ke1, ke2, ke3] kS2 =
      kS2 := rfl
  norm_num [kotC1_buildO, hsat]

theorem kotC1_step1 :
    kotGroupStep 3 0 [] jitKC1 (fun l => l)
      { ms := [], stats := kS0, gci := 1, left := [] } kgB =
      { ms := [mB], stats := kS1, gci := 2, left := [kb5] } := by
  unfold kotGroupStep
  norm_num [kgB]
  rw [kotC1_groupB]
  exact ⟨rfl, rfl, rfl, rfl⟩

theorem kotC1_step2 :
    kotGroupStep 3 0 [] jitKC1 (fun l => l)
      { ms := [mB], stats := kS1, gci := 2, left := [kb5] } kgE =
      { ms := [mB], stats := kS1, gci := 2, left := [kb5, ke1, ke2, ke3] } := by
  unfold kotGroupStep
  norm_num [kgE]

/-- **C1 is violated by the code**: in the C1 scenario (five beginners,
three experts, three courts, skill separation on, round 0) player `kb5`
is marked sat-out by the Beginner group call and then plays in the
Mixed-overflow call of the same invocation, so BOTH of its counters are
incremented: `roundsPlayed + roundsSatOut = 2` after one generated
round, not 1. -/
theorem C1_kot_double_count :
    (kStat (generateKingOfCourtRound kotC1Players 3 [] 0 [] true jitKC1
      (fun l => l)).2 5).roundsPlayed = 1 ∧
    (kStat (generateKingOfCourtRound kotC1Players 3 [] 0 [] true jitKC1
      (fun l => l)).2 5).roundsSatOut = 1 := by
  have hfin : generateKingOfCourtRound kotC1Players 3 [] 0 [] true jitKC1
      (fun l => l) = ([mB, mO], kS2) := by
    unfold generateKingOfCourtRound
    rw [if_pos (by constructor <;> decide)]
    have hinit : initializeKingOfCourtStats [] kotC1Players = kS0 := rfl
    rw [kotC1_groups, hinit]
    have hfold : [kgB, kgE].foldl
        (kotGroupStep 3 0 [] jitKC1 (fun l => l))
        { ms := [], stats := kS0, gci := 1, left := [] } =
        { ms := [mB], stats := kS1, gci := 2, left := [kb5, ke1, ke2, ke3] } := by
      rw [List.foldl_cons, kotC1_step1, List.foldl_cons, kotC1_step2]
      rfl
    rw [hfold]
    norm_num
    rw [kotC1_groupO]
    exact ⟨rfl, rfl⟩
  rw [hfin]
  exact ⟨rfl, rfl⟩

/-! ### Singles round generation (`singlesScheduler.js`) -/

/-- Distinct entries of an id-unique roster have distinct ids. -/
theorem nodup_map_key_of_subset {α β : Type} (f : α → β) (out l : List α)
    (hout : out.Nodup) (hsub : out ⊆ l) (hl : (l.map f).Nodup) :
    (out.map f).Nodup := by
  induction out with
  | nil => simp
  | cons a t ih =>
    simp only [List.nodup_cons] at hout
    simp only [List.map_cons, List.nodup_cons]
    refine ⟨?_, ih hout.2 (fun x hx => hsub (List.mem_cons_of_mem _ hx))⟩
    intro hmem
    rcases List.mem_map.mp hmem with ⟨b, hb, hfb⟩
    have hba : b = a := List.inj_on_of_nodup_map hl
      (hsub (List.mem_cons_of_mem _ hb)) (hsub (List.mem_cons_self _ _)) hfb
    exact hout.1 (hba ▸ hb)


theorem singlesPick_spec (n : ℕ) : ∀ (courts : ℕ) (remaining : List Player)
    (courtIdx : ℕ), remaining.length ≤ n → (remaining.map Player.id).Nodup →
    (smIds (singlesPick courts remaining courtIdx)).Nodup ∧
    ∀ i ∈ smIds (singlesPick courts remaining courtIdx),
      i ∈ remaining.map Player.id := by
  induction n with
  | zero =>
    intro courts remaining courtIdx hlen hnd
    have he : remaining = [] := List.length_eq_zero.mp (Nat.le_zero.mp hlen)
    subst he
    rw [singlesPick.eq_def]
    split
    · simp [smIds]
    · simp [smIds]
  | succ n ih =>
    intro courts remaining courtIdx hlen hnd
    rw [singlesPick.eq_def]
    by_cases hc : courtIdx < courts
    · rw [if_pos hc]
      rcases remaining with _ | ⟨p1, rest⟩
      · simp [smIds]
      rcases rest with _ | ⟨r, rs⟩
      · simp [smIds]
      rw [List.map_cons, List.nodup_cons] at hnd
      obtain ⟨hp1, hndr⟩ := hnd
      have hrest : (r :: rs).length ≤ n := by
        simp only [List.length_cons] at hlen ⊢
        omega
      dsimp only
      cases hfil : (r :: rs).filter (fun p => p.gender = p1.gender) with
      | nil =>
        dsimp only
        have hlen2 : ((r :: rs).filter fun p => ¬p.id = p1.id).length ≤ n :=
          le_trans (List.length_filter_le _ _) hrest
        have hnd2 : (((r :: rs).filter fun p => ¬p.id = p1.id).map
            Player.id).Nodup :=
          ((List.filter_sublist _).map Player.id).nodup hndr
        obtain ⟨ha, hb⟩ := ih courts ((r :: rs).filter fun p => ¬p.id = p1.id)
          courtIdx hlen2 hnd2
        refine ⟨ha, fun i hi => ?_⟩
        have := hb i hi
        rcases List.mem_map.mp this with ⟨q, hq, rfl⟩
        exact List.mem_map_of_mem _
          (List.mem_cons_of_mem _ (List.mem_filter.mp hq).1)
      | cons q qs =>
        dsimp only
        have hbest : minByD (fun p => |p.rating - p1.rating|) q qs ∈ q :: qs :=
          (minByD_spec _ q qs).1
        rw [← hfil] at hbest
        have hbrest : minByD (fun p => |p.rating - p1.rating|) q qs ∈ r :: rs :=
          (List.mem_filter.mp hbest).1
        have hlen2 : ((r :: rs).filter fun p =>
            ¬p.id = p1.id ∧ ¬p.id = (minByD (fun p =>
              |p.rating - p1.rating|) q qs).id).length ≤ n :=
          le_trans (List.length_filter_le _ _) hrest
        have hnd2 : (((r :: rs).filter fun p =>
            ¬p.id = p1.id ∧ ¬p.id = (minByD (fun p =>
              |p.rating - p1.rating|) q qs).id).map Player.id).Nodup :=
          ((List.filter_sublist _).map Player.id).nodup hndr
        obtain ⟨ha, hb⟩ := ih courts ((r :: rs).filter fun p =>
          ¬p.id = p1.id ∧ ¬p.id = (minByD (fun p =>
            |p.rating - p1.rating|) q qs).id) (courtIdx + 1) hlen2 hnd2
        have hsubrec : ∀ i ∈ smIds (singlesPick courts ((r :: rs).filter fun p =>
            ¬p.id = p1.id ∧ ¬p.id = (minByD (fun p =>
              |p.rating - p1.rating|) q qs).id) (courtIdx + 1)),
            i ∈ ((r :: rs).map Player.id) ∧
            ¬i = p1.id ∧
            ¬i = (minByD (fun p => |p.rating - p1.rating|) q qs).id := by
          intro i hi
          have := hb i hi
          rcases List.mem_map.mp this with ⟨w, hw, rfl⟩
          obtain ⟨hw1, hw2⟩ := List.mem_filter.mp hw
          simp only [decide_eq_true_eq] at hw2
          exact ⟨List.mem_map_of_mem _ hw1, hw2.1, hw2.2⟩
        constructor
        · simp only [smIds, List.flatMap_cons, List.cons_append, List.nil_append,
            List.nodup_cons]
          refine ⟨?_, ?_, ha⟩
          · intro hmem
            rcases List.mem_cons.mp hmem with h1 | h1
            · exact hp1 (h1 ▸ List.mem_map_of_mem _ hbrest)
            · exact (hsubrec _ h1).2.1 rfl
          · intro hmem
            exact (hsubrec _ hmem).2.2 rfl
        · intro i hi
          simp only [smIds, List.flatMap_cons, List.cons_append,
            List.nil_append] at hi
          rcases List.mem_cons.mp hi with rfl | hi2
          · exact List.mem_cons_self _ _
          rcases List.mem_cons.mp hi2 with rfl | hi3
          · exact List.mem_cons_of_mem _ (List.mem_map_of_mem _ hbrest)
          · exact List.mem_cons_of_mem _ (hsubrec _ hi3).1
    · rw [if_neg hc]
      simp [smIds]

/-- A top-N-by-descending-score selection preserves key uniqueness. -/
theorem take_sortDescBy_key_nodup {α β : Type} (f : α → ℚ) (key : α → β)
    (l : List α) (k : ℕ) (h : (l.map key).Nodup) :
    (((sortDescBy f l).take k).map key).Nodup := by
  have hperm := (sortDescBy_perm f l).map key
  exact ((List.take_sublist _ _).map key).nodup (hperm.nodup_iff.mpr h)

theorem generateSinglesRound_ids_nodup (presentPlayers : List Player)
    (courts : ℕ) (s : DStatsMap) (roundIdx : ℕ) (jit : ℕ → ℚ)
    (hnd : (presentPlayers.map Player.id).Nodup) :
    (smIds (generateSinglesRound presentPlayers courts s roundIdx jit)).Nodup := by
  have hsel : ((sSelectPlayers presentPlayers
      (initializePlayerStats s presentPlayers) (courts * 2) roundIdx
      jit).map Player.id).Nodup := by
    unfold sSelectPlayers
    split
    · exact hnd
    · exact take_sortDescBy_key_nodup _ _ _ _ hnd
  exact (singlesPick_spec (sSelectPlayers presentPlayers
    (initializePlayerStats s presentPlayers) (courts * 2) roundIdx jit).length
    courts _ 0 le_rfl hsel).1

/-- The four slots of the chosen doubles split are exactly the four input
players. -/
theorem findBestTeamSplit_perm (s : DStatsMap) (pm : Bool) (p1 p2 p3 p4 : Player) :
    [(findBestTeamSplit s pm p1 p2 p3 p4).team1.1,
     (findBestTeamSplit s pm p1 p2 p3 p4).team1.2,
     (findBestTeamSplit s pm p1 p2 p3 p4).team2.1,
     (findBestTeamSplit s pm p1 p2 p3 p4).team2.2].Perm [p1, p2, p3, p4] := by
  have h := (minByD_spec (splitScore s pm)
    { team1 := (p1, p2), team2 := (p3, p4) }
    [{ team1 := (p1, p3), team2 := (p2, p4) },
     { team1 := (p1, p4), team2 := (p2, p3) }]).1
  rw [show minByD (splitScore s pm)
      { team1 := (p1, p2), team2 := (p3, p4) }
      [{ team1 := (p1, p3), team2 := (p2, p4) },
       { team1 := (p1, p4), team2 := (p2, p3) }] =
      findBestTeamSplit s pm p1 p2 p3 p4 from rfl] at h
  rcases List.mem_cons.mp h with he | h2
  · rw [he]
  rcases List.mem_cons.mp h2 with he | h3
  · rw [he]
    exact .cons p1 (List.Perm.swap p2 p3 [p4])
  rcases List.mem_singleton.mp h3 with he
  rw [he]
  exact .cons p1 (List.perm_append_singleton p4 [p2, p3]).symm

/-- The four slots of the chosen KOT split are exactly the four input
players. -/
theorem findBestTeamSplitKOT_perm (p1 p2 p3 p4 : Player) :
    [(findBestTeamSplitKOT p1 p2 p3 p4).team1.1,
     (findBestTeamSplitKOT p1 p2 p3 p4).team1.2,
     (findBestTeamSplitKOT p1 p2 p3 p4).team2.1,
     (findBestTeamSplitKOT p1 p2 p3 p4).team2.2].Perm [p1, p2, p3, p4] := by
  have h := (minByD_spec splitGap
    { team1 := (p1, p2), team2 := (p3, p4) }
    [{ team1 := (p1, p3), team2 := (p2, p4) },
     { team1 := (p1, p4), team2 := (p2, p3) }]).1
  rw [show minByD splitGap
      { team1 := (p1, p2), team2 := (p3, p4) }
      [{ team1 := (p1, p3), team2 := (p2, p4) },
       { team1 := (p1, p4), team2 := (p2, p3) }] =
      findBestTeamSplitKOT p1 p2 p3 p4 from rfl] at h
  rcases List.mem_cons.mp h with he | h2
  · rw [he]
  rcases List.mem_cons.mp h2 with he | h3
  · rw [he]
    exact .cons p1 (List.Perm.swap p2 p3 [p4])
  rcases List.mem_singleton.mp h3 with he
  rw [he]
  exact .cons p1 (List.perm_append_singleton p4 [p2, p3]).symm

/-- Replacing every occurrence of one key with a fresh key keeps a key
list duplicate-free, and introduces only the fresh key. -/
theorem map_subst_nodup (l : List ℕ) (a b : ℕ) (h : l.Nodup) (hb : ¬b ∈ l) :
    (l.map fun x => if x = a then b else x).Nodup ∧
    ∀ y ∈ l.map (fun x => if x = a then b else x), y = b ∨ y ∈ l := by
  induction l with
  | nil => simp
  | cons x t ih =>
    rw [List.nodup_cons] at h
    have hbt : ¬b ∈ t := fun hmem => hb (List.mem_cons_of_mem _ hmem)
    obtain ⟨ihn, ihs⟩ := ih h.2 hbt
    constructor
    · rw [List.map_cons, List.nodup_cons]
      refine ⟨?_, ihn⟩
      intro hmem
      rcases List.mem_map.mp hmem with ⟨z, hz, hzeq⟩
      by_cases hxa : x = a
      · rw [if_pos hxa] at hzeq
        by_cases hza : z = a
        · exact h.1 (by rw [hxa, ← hza]; exact hz)
        · rw [if_neg hza] at hzeq
          exact hbt (by rw [← hzeq]; exact hz)
      · rw [if_neg hxa] at hzeq
        by_cases hza : z = a
        · rw [if_pos hza] at hzeq
          exact hb (by rw [hzeq]; exact List.mem_cons_self _ _)
        · rw [if_neg hza] at hzeq
          exact h.1 (hzeq ▸ hz)
    · intro y hy
      rw [List.map_cons] at hy
      rcases List.mem_cons.mp hy with rfl | hyt
      · by_cases hxa : x = a
        · rw [if_pos hxa]
          exact Or.inl rfl
        · rw [if_neg hxa]
          exact Or.inr (List.mem_cons_self _ _)
      · rcases ihs _ hyt with hyb | hyt2
        · exact Or.inl hyb
        · exact Or.inr (List.mem_cons_of_mem _ hyt2)

/-- A positional read with a default inside the bounds is a member. -/
theorem getD_mem_of_lt (l : List Player) (i : ℕ) (h : i < l.length) :
    l.getD i phantomPlayer ∈ l := by
  rw [List.getD_eq_getElem l phantomPlayer h]
  exact List.getElem_mem h

/-- In a duplicate-free list, the element at a position does not survive
the removal of that position. -/
theorem getD_not_mem_eraseIdx (l : List Player) (i : ℕ) (hi : i < l.length)
    (h : l.Nodup) : ¬l.getD i phantomPlayer ∈ l.eraseIdx i := by
  rw [List.getD_eq_getElem l phantomPlayer hi, List.eraseIdx_eq_take_drop_succ]
  have hsplit : l = l.take i ++ l[i] :: l.drop (i + 1) := by
    conv_lhs => rw [← List.take_append_drop i l]
    rw [List.drop_eq_getElem_cons hi]
  rw [hsplit] at h
  obtain ⟨h1, h2, h3⟩ := List.nodup_append.mp h
  intro hmem
  rcases List.mem_append.mp hmem with hmem1 | hmem2
  · exact h3 hmem1 (List.mem_cons_self _ _)
  · exact (List.nodup_cons.mp h2).1 hmem2

theorem sbgStep_spec (s : DStatsMap) (sjit : ℕ → ℕ → ℚ) (picks : ℕ → ℕ)
    (group candidates : List Player) (hc : candidates ≠ [])
    (hnd : candidates.Nodup) :
    (sbgStep s sjit picks group candidates).1 ∈ candidates ∧
    (sbgStep s sjit picks group candidates).2.Sublist candidates ∧
    ¬(sbgStep s sjit picks group candidates).1 ∈
      (sbgStep s sjit picks group candidates).2 := by
  have hlen : 0 < candidates.length := List.length_pos.mpr hc
  unfold sbgStep
  by_cases hg : group.isEmpty
  · rw [if_pos hg]
    have hidx : picks group.length % candidates.length < candidates.length :=
      Nat.mod_lt _ hlen
    exact ⟨getD_mem_of_lt _ _ hidx, List.eraseIdx_sublist _ _,
      getD_not_mem_eraseIdx _ _ hidx hnd⟩
  · rw [if_neg hg]
    have hperm := sortDescBy_perm
      (fun c => varietyScore s group (sjit group.length c.id) c) candidates
    have hslen : 0 < (sortDescBy
        (fun c => varietyScore s group (sjit group.length c.id) c)
        candidates).length := by
      rw [hperm.length_eq]
      exact hlen
    have hidx : picks group.length % min 3 (sortDescBy
        (fun c => varietyScore s group (sjit group.length c.id) c)
        candidates).length < (sortDescBy
        (fun c => varietyScore s group (sjit group.length c.id) c)
        candidates).length := by
      have h3 : 0 < min 3 (sortDescBy
          (fun c => varietyScore s group (sjit group.length c.id) c)
          candidates).length := by omega
      exact lt_of_lt_of_le (Nat.mod_lt _ h3) (by omega)
    have hmem : (sortDescBy
        (fun c => varietyScore s group (sjit group.length c.id) c)
        candidates).getD (picks group.length % min 3 (sortDescBy
        (fun c => varietyScore s group (sjit group.length c.id) c)
        candidates).length) phantomPlayer ∈ candidates :=
      hperm.mem_iff.mp (getD_mem_of_lt _ _ hidx)
    refine ⟨hmem, List.erase_sublist _ _, ?_⟩
    intro hmem2
    exact absurd ((hnd.mem_erase_iff).mp hmem2).1 (by simp)

theorem sbgBuild_spec (s : DStatsMap) (sjit : ℕ → ℕ → ℚ) (picks : ℕ → ℕ) :
    ∀ (fuel : ℕ) (group candidates : List Player),
    group.Nodup → candidates.Nodup → (∀ p ∈ group, ¬p ∈ candidates) →
    (sbgBuild s sjit picks fuel group candidates).Nodup ∧
    ∀ p ∈ sbgBuild s sjit picks fuel group candidates,
      p ∈ group ∨ p ∈ candidates := by
  intro fuel
  induction fuel with
  | zero =>
    intro group candidates hg _ _
    exact ⟨hg, fun p hp => Or.inl hp⟩
  | succ fuel ih =>
    intro group candidates hg hc hdisj
    rw [sbgBuild]
    by_cases he : candidates.isEmpty
    · rw [if_pos he]
      exact ⟨hg, fun p hp => Or.inl hp⟩
    · rw [if_neg he]
      have hne : candidates ≠ [] := by
        intro h0
        rw [h0] at he
        exact he rfl
      obtain ⟨hmem, hsub, hnm⟩ := sbgStep_spec s sjit picks group candidates hne hc
      have hg2 : (group ++ [(sbgStep s sjit picks group candidates).1]).Nodup := by
        rw [List.nodup_append]
        refine ⟨hg, List.nodup_singleton _, ?_⟩
        intro a ha hb
        exact hdisj a ha (by rw [List.mem_singleton.mp hb]; exact hmem)
      have hc2 : (sbgStep s sjit picks group candidates).2.Nodup := hsub.nodup hc
      have hdisj2 : ∀ p ∈ group ++ [(sbgStep s sjit picks group candidates).1],
          ¬p ∈ (sbgStep s sjit picks group candidates).2 := by
        intro p hp
        rcases List.mem_append.mp hp with hp1 | hp2
        · intro hmem2
          exact hdisj p hp1 (hsub.subset hmem2)
        · rw [List.mem_singleton.mp hp2]
          exact hnm
      obtain ⟨ha, hb⟩ := ih (group ++ [(sbgStep s sjit picks group candidates).1])
        (sbgStep s sjit picks group candidates).2 hg2 hc2 hdisj2
      refine ⟨ha, fun p hp => ?_⟩
      rcases hb p hp with hp1 | hp2
      · rcases List.mem_append.mp hp1 with hq | hq
        · exact Or.inl hq
        · rw [List.mem_singleton.mp hq]
          exact Or.inr hmem
      · exact Or.inr (hsub.subset hp2)

theorem selectBestGroupOfFour_spec (avail : List Player) (s : DStatsMap)
    (sjit : ℕ → ℕ → ℕ → ℚ) (picks : ℕ → ℕ → ℕ) (hnd : avail.Nodup) :
    (selectBestGroupOfFour avail s sjit picks).Nodup ∧
    ∀ p ∈ selectBestGroupOfFour avail s sjit picks, p ∈ avail := by
  unfold selectBestGroupOfFour
  split
  · exact ⟨hnd, fun p hp => hp⟩
  · dsimp only
    split
    · rename_i g hm
      have hmem := minBy?_mem _ _ _ hm
      have hmem2 := (List.mem_filter.mp hmem).1
      rcases List.mem_map.mp hmem2 with ⟨a, _, rfl⟩
      obtain ⟨ha, hb⟩ := sbgBuild_spec s (sjit a) (picks a) 4 [] avail
        List.nodup_nil hnd (by simp)
      refine ⟨ha, fun p hp => ?_⟩
      rcases hb p hp with h0 | h1
      · exact absurd h0 (List.not_mem_nil p)
      · exact h1
    · exact ⟨(List.take_sublist _ _).nodup hnd,
        fun p hp => (List.take_sublist _ _).subset hp⟩

theorem cbmLoop_spec (s : DStatsMap) (pm : Bool) (sjit : ℕ → ℕ → ℕ → ℕ → ℚ)
    (picks : ℕ → ℕ → ℕ → ℕ) (startCI : ℕ) :
    ∀ (n actualCourts courtIdx : ℕ) (remaining : List Player),
    actualCourts - courtIdx ≤ n → (remaining.map Player.id).Nodup →
    (dmIds (cbmLoop s pm sjit picks startCI actualCourts remaining
      courtIdx)).Nodup ∧
    ∀ i ∈ dmIds (cbmLoop s pm sjit picks startCI actualCourts remaining
      courtIdx), i ∈ remaining.map Player.id := by
  intro n
  induction n with
  | zero =>
    intro actualCourts courtIdx remaining hfuel hnd
    rw [cbmLoop.eq_def]
    rw [dif_neg (by omega)]
    simp [dmIds]
  | succ n ih =>
    intro actualCourts courtIdx remaining hfuel hnd
    rw [cbmLoop.eq_def]
    by_cases hlt : courtIdx < actualCourts
    · rw [dif_pos hlt]
      by_cases hfew : remaining.length < 4
      · rw [if_pos hfew]
        simp [dmIds]
      · rw [if_neg hfew]
        obtain ⟨hgnd, hgsub⟩ := selectBestGroupOfFour_spec remaining s
          (sjit courtIdx) (picks courtIdx) (hnd.of_map Player.id)
        dsimp only
        split
        · rename_i g1 g2 g3 g4 htake
          have hgmem : ∀ p ∈ [g1, g2, g3, g4], p ∈ remaining := by
            intro p hp
            exact hgsub p ((List.take_subset _ _) (htake ▸ hp))
          have hg4nd : ([g1, g2, g3, g4].map Player.id).Nodup := by
            refine nodup_map_key_of_subset Player.id _ remaining
              (htake ▸ (List.take_sublist _ _).nodup hgnd) ?_ hnd
            intro p hp
            exact hgmem p hp
          have hpermM := (findBestTeamSplit_perm s pm g1 g2 g3 g4).map Player.id
          have hfuel2 : actualCourts - (courtIdx + 1) ≤ n := by omega
          have hnd2 : ((remaining.filter fun p =>
              ¬p.id ∈ (selectBestGroupOfFour remaining s (sjit courtIdx)
                (picks courtIdx)).map Player.id).map Player.id).Nodup :=
            ((List.filter_sublist _).map Player.id).nodup hnd
          obtain ⟨ha, hb⟩ := ih actualCourts (courtIdx + 1)
            (remaining.filter fun p =>
              ¬p.id ∈ (selectBestGroupOfFour remaining s (sjit courtIdx)
                (picks courtIdx)).map Player.id) hfuel2 hnd2
          have hrecnot : ∀ i ∈ dmIds (cbmLoop s pm sjit picks startCI
              actualCourts (remaining.filter fun p =>
                ¬p.id ∈ (selectBestGroupOfFour remaining s (sjit courtIdx)
                  (picks courtIdx)).map Player.id) (courtIdx + 1)),
              i ∈ remaining.map Player.id ∧
              ¬i ∈ (selectBestGroupOfFour remaining s (sjit courtIdx)
                (picks courtIdx)).map Player.id := by
            intro i hi
            have := hb i hi
            rcases List.mem_map.mp this with ⟨w, hw, rfl⟩
            obtain ⟨hw1, hw2⟩ := List.mem_filter.mp hw
            simp only [decide_eq_true_eq] at hw2
            exact ⟨List.mem_map_of_mem _ hw1, hw2⟩
          have hslotsub : ∀ i ∈ ([(findBestTeamSplit s pm g1 g2 g3 g4).team1.1,
              (findBestTeamSplit s pm g1 g2 g3 g4).team1.2,
              (findBestTeamSplit s pm g1 g2 g3 g4).team2.1,
              (findBestTeamSplit s pm g1 g2 g3 g4).team2.2].map Player.id),
              i ∈ ([g1, g2, g3, g4].map Player.id) := fun i hi =>
            hpermM.mem_iff.mp hi
          constructor
          · simp only [dmIds, List.flatMap_cons, matchPlayers]
            rw [List.nodup_append]
            refine ⟨hpermM.nodup_iff.mpr hg4nd, ha, ?_⟩
            intro x hx hy
            have hxg := hslotsub x hx
            have hxgroup : x ∈ (selectBestGroupOfFour remaining s (sjit courtIdx)
                (picks courtIdx)).map Player.id := by
              rcases List.mem_map.mp hxg with ⟨w, hw, rfl⟩
              exact List.mem_map_of_mem _ ((List.take_subset _ _) (htake ▸ hw))
            exact (hrecnot x hy).2 hxgroup
          · intro i hi
            simp only [dmIds, List.flatMap_cons, matchPlayers] at hi
            rcases List.mem_append.mp hi with h1 | h2
            · have hxg := hslotsub i h1
              rcases List.mem_map.mp hxg with ⟨w, hw, rfl⟩
              exact List.mem_map_of_mem _ (hgmem w hw)
            · exact (hrecnot i h2).1
        · simp [dmIds]
    · rw [dif_neg hlt]
      simp [dmIds]

/-! ### `separatePlayersBySkill` preserves the player multiset -/

theorem flatMapCongr {α β : Type} {l : List α} {f g : α → List β}
    (h : ∀ a ∈ l, f a = g a) : l.flatMap f = l.flatMap g := by
  induction l with
  | nil => rfl
  | cons x t ih =>
    rw [List.flatMap_cons, List.flatMap_cons, h x (List.mem_cons_self _ _),
      ih fun a ha => h a (List.mem_cons_of_mem _ ha)]

/-- Lists are permutations exactly when they carry the same multiset;
the bridge used for all bucket-shuffling arguments below. -/
theorem perm_of_mset {α : Type} {l1 l2 : List α}
    (h : (l1 : Multiset α) = (l2 : Multiset α)) : l1.Perm l2 :=
  Multiset.coe_eq_coe.mp h

theorem mset_of_perm {α : Type} {l1 l2 : List α} (h : l1.Perm l2) :
    (l1 : Multiset α) = (l2 : Multiset α) :=
  Multiset.coe_eq_coe.mpr h

theorem flatMap_bucketPut_perm (ks : List SkillKey) (hnd : ks.Nodup)
    (k : SkillKey) (hmem : k ∈ ks) (b : Buckets) (v : List Player) :
    (ks.flatMap (bucketPut b k v) ++ b k).Perm (v ++ ks.flatMap b) := by
  induction ks with
  | nil => cases hmem
  | cons k2 ks ih =>
    rw [List.nodup_cons] at hnd
    by_cases hk : k2 = k
    · subst hk
      have hrest : ks.flatMap (bucketPut b k2 v) = ks.flatMap b := by
        refine flatMapCongr fun a ha => ?_
        unfold bucketPut
        rw [if_neg fun h => hnd.1 (by rw [← h]; exact ha)]
      have hself : bucketPut b k2 v k2 = v := by
        unfold bucketPut
        rw [if_pos rfl]
      rw [List.flatMap_cons, hrest, hself]
      refine perm_of_mset ?_
      simp only [List.flatMap_cons, ← Multiset.coe_add]
      abel
    · have hmem2 : k ∈ ks := by
        rcases List.mem_cons.mp hmem with h | h
        · exact absurd h.symm hk
        · exact h
      have hk2 : bucketPut b k v k2 = b k2 := by
        unfold bucketPut
        rw [if_neg hk]
      rw [List.flatMap_cons, List.flatMap_cons, hk2]
      have hm := mset_of_perm (ih hnd.2 hmem2)
      refine perm_of_mset ?_
      simp only [← Multiset.coe_add] at hm ⊢
      rw [add_assoc, hm]
      abel

/-- The tier key of a rating is one of the seven keys. -/
theorem getPlayerSkillLevel_mem (r : ℚ) : getPlayerSkillLevel r ∈ skillKeys := by
  unfold getPlayerSkillLevel
  cases hf : skillKeys.find? fun k =>
      decide ((skillRange k).1 ≤ r) && decide (r ≤ (skillRange k).2) with
  | none => simp [skillKeys]
  | some k =>
    simp only [Option.getD_some]
    exact List.mem_of_find?_eq_some hf

/-- `skillKeys` has no repeated key. -/
theorem skillKeys_nodup : skillKeys.Nodup := by decide

theorem flatMap_assignToBuckets_perm (ps : List Player) :
    (skillKeys.flatMap (assignToBuckets ps)).Perm ps := by
  suffices h : ∀ (qs : List Player) (b : Buckets),
      (skillKeys.flatMap (qs.foldl (fun b2 p =>
        bucketPut b2 (getPlayerSkillLevel p.rating)
          (b2 (getPlayerSkillLevel p.rating) ++ [p])) b)).Perm
        (qs ++ skillKeys.flatMap b) by
    have h2 := h ps (fun _ => [])
    have h3 : skillKeys.flatMap (fun _ => ([] : List Player)) = [] := rfl
    rw [h3, List.append_nil] at h2
    exact h2
  intro qs
  induction qs with
  | nil => intro b; simp [assignToBuckets]
  | cons p qs ih =>
    intro b
    rw [List.foldl_cons]
    refine (ih _).trans ?_
    have hstep := mset_of_perm (flatMap_bucketPut_perm skillKeys skillKeys_nodup
      (getPlayerSkillLevel p.rating) (getPlayerSkillLevel_mem p.rating) b
      (b (getPlayerSkillLevel p.rating) ++ [p]))
    refine perm_of_mset ?_
    simp only [← Multiset.coe_add, ← Multiset.cons_coe,
      ← Multiset.singleton_add, Multiset.coe_nil, add_zero] at hstep ⊢
    have hstep2 : (skillKeys.flatMap (bucketPut b (getPlayerSkillLevel p.rating)
        (b (getPlayerSkillLevel p.rating) ++ [p])) : Multiset Player) =
        ({p} : Multiset Player) + skillKeys.flatMap b := by
      have := hstep
      rw [show ((b (getPlayerSkillLevel p.rating) : Multiset Player) +
          {p} + (skillKeys.flatMap b : Multiset Player)) =
          (({p} : Multiset Player) + skillKeys.flatMap b) +
            b (getPlayerSkillLevel p.rating) by abel] at this
      exact add_right_cancel this
    rw [hstep2]
    abel

theorem bumpFrom_flat_perm (minSize : ℕ) (b : Buckets) (i : ℕ)
    (targetIdxs : List ℕ) (hne : ¬i ∈ targetIdxs) :
    (skillKeys.flatMap (bumpFrom minSize b i targetIdxs)).Perm
      (skillKeys.flatMap b) := by
  unfold bumpFrom
  split
  · exact .refl _
  · rename_i k hk
    dsimp only
    split
    case isFalse => exact .refl _
    case isTrue =>
      split
      case h_2 => exact .refl _
      case h_1 =>
        rename_i t ht
        obtain ⟨j, hj, hjt⟩ := List.exists_of_findSome?_eq_some ht
        have hgj : skillKeys.get? j = some t ∧ ¬(b t).isEmpty := by
          rcases hgj2 : skillKeys.get? j with _ | k2
          · rw [hgj2] at hjt
            exact absurd hjt (by simp)
          · rw [hgj2] at hjt
            dsimp only at hjt
            by_cases hbe : (b k2).isEmpty
            · rw [if_pos hbe] at hjt
              exact absurd hjt (by simp)
            · rw [if_neg hbe] at hjt
              obtain rfl : k2 = t := by simpa using hjt
              exact ⟨rfl, hbe⟩
        have htk : t ≠ k := by
          intro hteq
          subst hteq
          have hi : i < skillKeys.length := by
            have := List.get?_eq_some.mp hk
            exact this.1
          have hij : j = i := by
            apply @List.getElem?_inj _ _ _ skillKeys
            · have := List.get?_eq_some.mp hgj.1
              exact this.1
            · exact skillKeys_nodup
            · rw [← List.get?_eq_getElem?, ← List.get?_eq_getElem?, hk, hgj.1]
          exact hne (hij ▸ hj)
        have hkmem : k ∈ skillKeys := List.get?_mem hk
        have htmem : t ∈ skillKeys := List.get?_mem hgj.1
        have hb2k : bucketPut b t (b t ++ b k) k = b k := by
          unfold bucketPut
          rw [if_neg fun h => htk h.symm]
        have m1 := mset_of_perm (flatMap_bucketPut_perm skillKeys skillKeys_nodup
          k hkmem (bucketPut b t (b t ++ b k)) [])
        have m2 := mset_of_perm (flatMap_bucketPut_perm skillKeys skillKeys_nodup
          t htmem b (b t ++ b k))
        rw [hb2k] at m1
        refine perm_of_mset ?_
        simp only [← Multiset.coe_add, Multiset.coe_nil, List.nil_append] at m1 m2 ⊢
        have m3 : (skillKeys.flatMap (bucketPut
            (bucketPut b t (b t ++ b k)) k []) : Multiset Player) +
            (b k : Multiset Player) + (b t : Multiset Player) =
            (skillKeys.flatMap b : Multiset Player) +
            (b k : Multiset Player) + (b t : Multiset Player) := by
          rw [m1]
          rw [show (skillKeys.flatMap (bucketPut b t (b t ++ b k)) :
            Multiset Player) + (b t : Multiset Player) =
            (skillKeys.flatMap (bucketPut b t (b t ++ b k)) : Multiset Player) +
              b t from rfl] at m2
          calc (skillKeys.flatMap (bucketPut b t (b t ++ b k)) : Multiset Player)
                + (b t : Multiset Player)
              = (b t : Multiset Player) + b k + skillKeys.flatMap b := m2
            _ = (skillKeys.flatMap b : Multiset Player) + b k + b t := by abel
        exact add_right_cancel (add_right_cancel m3)

theorem bumpFold_perm (minSize : ℕ) (f : ℕ → List ℕ) (hf : ∀ i, ¬i ∈ f i) :
    ∀ (idxs : List ℕ) (b : Buckets),
    (skillKeys.flatMap (idxs.foldl
      (fun b2 i => bumpFrom minSize b2 i (f i)) b)).Perm
      (skillKeys.flatMap b) := by
  intro idxs
  induction idxs with
  | nil => intro b; exact .refl _
  | cons i idxs ih =>
    intro b
    rw [List.foldl_cons]
    exact (ih _).trans (bumpFrom_flat_perm minSize b i (f i) (hf i))

theorem upPass_perm (minSize : ℕ) (b : Buckets) :
    (skillKeys.flatMap (upPass minSize b)).Perm (skillKeys.flatMap b) := by
  unfold upPass
  exact bumpFold_perm minSize (fun i => List.range' (i + 1) (7 - (i + 1)))
    (fun i hi => by
      have := List.mem_range'_1.mp hi
      omega)
    (List.range 7) b

theorem downPass_perm (minSize : ℕ) (b : Buckets) :
    (skillKeys.flatMap (downPass minSize b)).Perm (skillKeys.flatMap b) := by
  unfold downPass
  exact bumpFold_perm minSize (fun i => (List.range i).reverse)
    (fun i hi => by
      have := List.mem_range.mp (List.mem_reverse.mp hi)
      omega)
    (List.range 7).reverse b

theorem collectGroups_flat_perm (minSize : ℕ) (b : Buckets) :
    ((collectGroups minSize b).1.flatMap SkillGroup.players ++
      (collectGroups minSize b).2).Perm (skillKeys.flatMap b) := by
  suffices h : ∀ (ks : List SkillKey) (acc : List SkillGroup × List Player),
      (((ks.foldl (fun acc k =>
        let g := b k
        if minSize ≤ g.length then
          (acc.1 ++ [{ level := some k, players := g,
                       minRating := minRatingOf g, maxRating := maxRatingOf g }],
           acc.2)
        else if 0 < g.length then (acc.1, acc.2 ++ g)
        else acc) acc).1.flatMap SkillGroup.players ++
        (ks.foldl (fun acc k =>
        let g := b k
        if minSize ≤ g.length then
          (acc.1 ++ [{ level := some k, players := g,
                       minRating := minRatingOf g, maxRating := maxRatingOf g }],
           acc.2)
        else if 0 < g.length then (acc.1, acc.2 ++ g)
        else acc) acc).2 : List Player) : Multiset Player) =
      ((acc.1.flatMap SkillGroup.players ++ acc.2 : List Player) : Multiset Player)
        + ((ks.flatMap b : List Player) : Multiset Player) by
    refine perm_of_mset ?_
    have h2 := h skillKeys ([], [])
    unfold collectGroups
    rw [h2]
    simp
  intro ks
  induction ks with
  | nil =>
    intro acc
    simp
  | cons k ks ih =>
    intro acc
    rw [List.foldl_cons]
    dsimp only
    by_cases h1 : minSize ≤ (b k).length
    · rw [if_pos h1, ih]
      simp only [List.flatMap_append, List.flatMap_cons, List.flatMap_nil,
        ← Multiset.coe_add, Multiset.coe_nil, add_zero]
      abel
    · rw [if_neg h1]
      by_cases h2 : 0 < (b k).length
      · rw [if_pos h2, ih]
        simp only [List.flatMap_cons, ← Multiset.coe_add]
        abel
      · rw [if_neg h2, ih]
        have hbk : b k = [] := List.length_eq_zero.mp (by omega)
        simp only [List.flatMap_cons, hbk, ← Multiset.coe_add,
          Multiset.coe_nil, List.nil_append]

theorem absorbOrphan_flat_perm (gs : List SkillGroup) (o : Player) (hne : gs ≠ []) :
    ((absorbOrphan gs o).flatMap SkillGroup.players).Perm
      (o :: gs.flatMap SkillGroup.players) := by
  unfold absorbOrphan
  cases hz : minZip (fun g => |o.rating - midRating g|) gs with
  | none => exact absurd (minZip_eq_none_iff.mp hz) hne
  | some pgs =>
    obtain ⟨pre, g, suf⟩ := pgs
    obtain ⟨heq, -⟩ := minZip_spec _ _ _ _ _ hz
    rw [heq]
    refine perm_of_mset ?_
    simp only [List.flatMap_append, List.flatMap_cons, withOrphan,
      ← Multiset.coe_add, ← Multiset.cons_coe, ← Multiset.singleton_add]
    abel

theorem absorbOrphan_ne_nil (gs : List SkillGroup) (o : Player) (hne : gs ≠ []) :
    absorbOrphan gs o ≠ [] := by
  unfold absorbOrphan
  cases hz : minZip (fun g => |o.rating - midRating g|) gs with
  | none => exact hne
  | some pgs =>
    obtain ⟨pre, g, suf⟩ := pgs
    intro h0
    have := congrArg List.length h0
    simp at this

theorem absorbFold_flat_perm (os : List Player) :
    ∀ (gs : List SkillGroup), gs ≠ [] →
    ((os.foldl absorbOrphan gs).flatMap SkillGroup.players).Perm
      (os ++ gs.flatMap SkillGroup.players) := by
  induction os with
  | nil => intro gs _; exact .refl _
  | cons o os ih =>
    intro gs hne
    rw [List.foldl_cons]
    refine ((ih _ (absorbOrphan_ne_nil gs o hne)).trans ?_)
    refine perm_of_mset ?_
    have hm := mset_of_perm (absorbOrphan_flat_perm gs o hne)
    simp only [← Multiset.coe_add, ← Multiset.cons_coe,
      ← Multiset.singleton_add] at hm ⊢
    rw [hm]
    abel

/-- `separatePlayersBySkill` returns groups whose player lists together
are a permutation of the input roster. -/
theorem separatePlayersBySkill_flat_perm (ps : List Player) (m : ℕ) :
    ((separatePlayersBySkill ps m).flatMap SkillGroup.players).Perm ps := by
  unfold separatePlayersBySkill finishGroups
  have hperm : ((collectGroups m (downPass m (upPass m
      (assignToBuckets ps)))).1.flatMap SkillGroup.players ++
      (collectGroups m (downPass m (upPass m (assignToBuckets ps)))).2).Perm ps :=
    (collectGroups_flat_perm _ _).trans ((downPass_perm _ _).trans
      ((upPass_perm _ _).trans (flatMap_assignToBuckets_perm ps)))
  by_cases h2 : (collectGroups m (downPass m (upPass m
      (assignToBuckets ps)))).2.isEmpty
  · rw [if_pos h2]
    have h2e : (collectGroups m (downPass m (upPass m
        (assignToBuckets ps)))).2 = [] := by
      rwa [List.isEmpty_iff] at h2
    rw [h2e, List.append_nil] at hperm
    exact hperm
  · rw [if_neg h2]
    by_cases h1 : (collectGroups m (downPass m (upPass m
        (assignToBuckets ps)))).1.isEmpty
    · rw [if_pos h1]
      simp [mixedGroup]
    · rw [if_neg h1]
      have h1ne : (collectGroups m (downPass m (upPass m
          (assignToBuckets ps)))).1 ≠ [] := by
        intro h0
        rw [h0] at h1
        exact h1 rfl
      refine (absorbFold_flat_perm _ _ h1ne).trans ?_
      refine (List.perm_append_comm).trans hperm

theorem selectPlayersForRound_ids (allPlayers : List Player) (s : DStatsMap)
    (maxPlayers roundIdx : ℕ) (pm : Bool) (restInterval : ℕ) (jit : ℕ → ℚ)
    (hnd : (allPlayers.map Player.id).Nodup) :
    ((selectPlayersForRound allPlayers s maxPlayers roundIdx pm restInterval
      jit).map Player.id).Nodup ∧
    ∀ p ∈ selectPlayersForRound allPlayers s maxPlayers roundIdx pm
      restInterval jit, p ∈ allPlayers := by
  have hWfacts : ∀ p ∈ dSelWomen allPlayers s maxPlayers roundIdx restInterval
      jit, p.gender = Gender.female ∧ p ∈ allPlayers := by
    intro p hp
    unfold dSelWomen at hp
    have h1 := List.mem_of_mem_take hp
    have h2 := (sortDescBy_perm (dFemalePriority s roundIdx restInterval jit)
      (dWomen allPlayers)).mem_iff.mp h1
    have h3 := List.mem_filter.mp h2
    exact ⟨by simpa using h3.2, h3.1⟩
  have hMfacts : ∀ p ∈ dSelMen allPlayers s maxPlayers roundIdx restInterval
      jit, ¬p.gender = Gender.female ∧ p ∈ allPlayers := by
    intro p hp
    unfold dSelMen at hp
    have h1 := List.mem_of_mem_take hp
    have h2 := (sortDescBy_perm (dStdPriority s roundIdx jit)
      (dMen allPlayers)).mem_iff.mp h1
    have h3 := List.mem_filter.mp h2
    exact ⟨by simpa using h3.2, h3.1⟩
  have hWnd : ((dSelWomen allPlayers s maxPlayers roundIdx restInterval
      jit).map Player.id).Nodup := by
    unfold dSelWomen
    exact take_sortDescBy_key_nodup _ _ _ _
      (((List.filter_sublist _).map Player.id).nodup hnd)
  have hMnd : ((dSelMen allPlayers s maxPlayers roundIdx restInterval
      jit).map Player.id).Nodup := by
    unfold dSelMen
    exact take_sortDescBy_key_nodup _ _ _ _
      (((List.filter_sublist _).map Player.id).nodup hnd)
  have hGnd : ((dGenderResult allPlayers s maxPlayers roundIdx restInterval
      jit).map Player.id).Nodup := by
    unfold dGenderResult
    rw [List.map_append, List.nodup_append]
    refine ⟨hWnd, hMnd, ?_⟩
    intro x hx hy
    rcases List.mem_map.mp hx with ⟨p, hp, rfl⟩
    rcases List.mem_map.mp hy with ⟨q, hq, hpq⟩
    have hfp := hWfacts p hp
    have hfq := hMfacts q hq
    have : q = p := List.inj_on_of_nodup_map hnd hfq.2 hfp.2 hpq
    exact hfq.1 (this ▸ hfp.1)
  have hGsub : ∀ p ∈ dGenderResult allPlayers s maxPlayers roundIdx
      restInterval jit, p ∈ allPlayers := by
    intro p hp
    unfold dGenderResult at hp
    rcases List.mem_append.mp hp with h | h
    · exact (hWfacts p h).2
    · exact (hMfacts p h).2
  have hEnd : ((dGenderResult allPlayers s maxPlayers roundIdx restInterval jit
      ++ dExtras allPlayers s maxPlayers roundIdx restInterval jit).map
      Player.id).Nodup := by
    rw [List.map_append, List.nodup_append]
    refine ⟨hGnd, ?_, ?_⟩
    · unfold dExtras
      exact ((List.take_sublist _ _).map Player.id).nodup
        (((List.filter_sublist _).map Player.id).nodup hnd)
    · intro x hx hy
      rcases List.mem_map.mp hy with ⟨q, hq, rfl⟩
      unfold dExtras at hq
      have hq2 := List.mem_of_mem_take hq
      have hq3 := (List.mem_filter.mp hq2).2
      simp only [decide_eq_true_eq] at hq3
      exact hq3 hx
  unfold selectPlayersForRound
  split
  · exact ⟨hnd, fun p hp => hp⟩
  split
  · constructor
    · exact ((List.take_sublist _ _).map Player.id).nodup hEnd
    · intro p hp
      have hp2 := List.mem_of_mem_take hp
      rcases List.mem_append.mp hp2 with h | h
      · exact hGsub p h
      · unfold dExtras at h
        exact (List.mem_filter.mp (List.mem_of_mem_take h)).1
  · constructor
    · exact take_sortDescBy_key_nodup _ _ _ _ hnd
    · intro p hp
      exact (sortDescBy_perm _ _).mem_iff.mp (List.mem_of_mem_take hp)

theorem generateMatchesForGroup_ids (groupPlayers : List Player) (s : DStatsMap)
    (maxCourts startCI roundIndex : ℕ) (pm : Bool) (restInterval : ℕ)
    (jit : ℕ → ℚ) (sjit : ℕ → ℕ → ℕ → ℕ → ℚ) (picks : ℕ → ℕ → ℕ → ℕ)
    (hnd : (groupPlayers.map Player.id).Nodup) :
    (dmIds (generateMatchesForGroup groupPlayers s maxCourts startCI roundIndex
      pm restInterval jit sjit picks)).Nodup ∧
    ∀ i ∈ dmIds (generateMatchesForGroup groupPlayers s maxCourts startCI
      roundIndex pm restInterval jit sjit picks),
      i ∈ groupPlayers.map Player.id := by
  unfold generateMatchesForGroup createBalancedMatches
  obtain ⟨hseln, hselsub⟩ := selectPlayersForRound_ids groupPlayers s
    (maxCourts * 4) roundIndex pm restInterval jit hnd
  obtain ⟨ha, hb⟩ := cbmLoop_spec s pm sjit picks startCI
    (min maxCourts ((selectPlayersForRound groupPlayers s (maxCourts * 4)
      roundIndex pm restInterval jit).length / 4))
    (min maxCourts ((selectPlayersForRound groupPlayers s (maxCourts * 4)
      roundIndex pm restInterval jit).length / 4)) 0
    (selectPlayersForRound groupPlayers s (maxCourts * 4) roundIndex pm
      restInterval jit) (by omega) hseln
  refine ⟨ha, fun i hi => ?_⟩
  have := hb i hi
  rcases List.mem_map.mp this with ⟨p, hp, rfl⟩
  exact List.mem_map_of_mem _ (hselsub p hp)

theorem rrFold_inv (s0 : DStatsMap) (courtsPerGroup roundIndex : ℕ) (pm : Bool)
    (restInterval : ℕ) (jit : ℕ → ℚ) (sjit : ℕ → ℕ → ℕ → ℕ → ℕ → ℚ)
    (picks : ℕ → ℕ → ℕ → ℕ → ℕ) :
    ∀ (gs : List (ℕ × SkillGroup)) (acc : RRAcc),
    (dmIds acc.ms).Nodup →
    (gs.flatMap fun ig => ig.2.players.map Player.id).Nodup →
    (∀ i ∈ dmIds acc.ms,
      ¬i ∈ gs.flatMap fun ig => ig.2.players.map Player.id) →
    (dmIds ((gs.foldl (rrGroupStep s0 courtsPerGroup roundIndex pm restInterval
      jit sjit picks) acc)).ms).Nodup ∧
    ∀ i ∈ dmIds ((gs.foldl (rrGroupStep s0 courtsPerGroup roundIndex pm
      restInterval jit sjit picks) acc)).ms,
      i ∈ dmIds acc.ms ∨
        i ∈ gs.flatMap fun ig => ig.2.players.map Player.id := by
  intro gs
  induction gs with
  | nil =>
    intro acc hacc _ _
    exact ⟨hacc, fun i hi => Or.inl hi⟩
  | cons ig gs ih =>
    intro acc hacc hgs hdisj
    rw [List.flatMap_cons, List.nodup_append] at hgs
    obtain ⟨hg1, hg2, hg3⟩ := hgs
    rw [List.foldl_cons]
    by_cases hbig : 4 ≤ ig.2.players.length
    · have hstep : rrGroupStep s0 courtsPerGroup roundIndex pm restInterval jit
          sjit picks acc ig =
          { ms := acc.ms ++ generateMatchesForGroup ig.2.players s0
              (courtsPerGroup + if 0 < acc.extraCourts then 1 else 0)
              acc.courtIndex roundIndex pm restInterval jit (sjit ig.1)
              (picks ig.1)
            courtIndex := acc.courtIndex + (generateMatchesForGroup ig.2.players
              s0 (courtsPerGroup + if 0 < acc.extraCourts then 1 else 0)
              acc.courtIndex roundIndex pm restInterval jit (sjit ig.1)
              (picks ig.1)).length
            extraCourts := acc.extraCourts -
              if 0 < acc.extraCourts then 1 else 0 } := by
        unfold rrGroupStep
        rw [if_pos hbig]
      rw [hstep]
      obtain ⟨hgmn, hgmsub⟩ := generateMatchesForGroup_ids ig.2.players s0
        (courtsPerGroup + if 0 < acc.extraCourts then 1 else 0) acc.courtIndex
        roundIndex pm restInterval jit (sjit ig.1) (picks ig.1) hg1
      have hacc2 : (dmIds (acc.ms ++ generateMatchesForGroup ig.2.players s0
          (courtsPerGroup + if 0 < acc.extraCourts then 1 else 0)
          acc.courtIndex roundIndex pm restInterval jit (sjit ig.1)
          (picks ig.1))).Nodup := by
        unfold dmIds
        rw [List.flatMap_append, List.nodup_append]
        refine ⟨hacc, hgmn, ?_⟩
        intro x hx hy
        exact hdisj x hx (List.mem_flatMap.mpr
          ⟨ig, List.mem_cons_self _ _, hgmsub x hy⟩)
      have hdisj2 : ∀ i ∈ dmIds (acc.ms ++ generateMatchesForGroup ig.2.players
          s0 (courtsPerGroup + if 0 < acc.extraCourts then 1 else 0)
          acc.courtIndex roundIndex pm restInterval jit (sjit ig.1)
          (picks ig.1)),
          ¬i ∈ gs.flatMap fun ig2 => ig2.2.players.map Player.id := by
        intro i hi
        unfold dmIds at hi
        rw [List.flatMap_append] at hi
        rcases List.mem_append.mp hi with h | h
        · intro hmem
          exact hdisj i h (List.mem_flatMap.mpr (by
            rcases List.mem_flatMap.mp hmem with ⟨g2, hg2m, hig⟩
            exact ⟨g2, List.mem_cons_of_mem _ hg2m, hig⟩))
        · intro hmem
          exact hg3 (hgmsub i h) hmem
      obtain ⟨ha, hb⟩ := ih
        ⟨acc.ms ++ generateMatchesForGroup ig.2.players s0
            (courtsPerGroup + if 0 < acc.extraCourts then 1 else 0)
            acc.courtIndex roundIndex pm restInterval jit (sjit ig.1)
            (picks ig.1),
          acc.courtIndex + (generateMatchesForGroup ig.2.players s0
            (courtsPerGroup + if 0 < acc.extraCourts then 1 else 0)
            acc.courtIndex roundIndex pm restInterval jit (sjit ig.1)
            (picks ig.1)).length,
          acc.extraCourts - if 0 < acc.extraCourts then 1 else 0⟩
        hacc2 hg2 hdisj2
      refine ⟨ha, fun i hi => ?_⟩
      rcases hb i hi with h | h
      · dsimp only [dmIds] at h
        rw [List.flatMap_append] at h
        rcases List.mem_append.mp h with h2 | h2
        · exact Or.inl h2
        · exact Or.inr (List.mem_append.mpr (Or.inl (hgmsub i h2)))
      · exact Or.inr (List.mem_append.mpr (Or.inr h))
    · have hstep : rrGroupStep s0 courtsPerGroup roundIndex pm restInterval jit
          sjit picks acc ig = acc := by
        unfold rrGroupStep
        rw [if_neg hbig]
      rw [hstep]
      obtain ⟨ha, hb⟩ := ih acc hacc hg2 (fun i hi hmem =>
        hdisj i hi (List.mem_append.mpr (Or.inr hmem)))
      refine ⟨ha, fun i hi => ?_⟩
      rcases hb i hi with h | h
      · exact Or.inl h
      · exact Or.inr (List.mem_append.mpr (Or.inr h))

theorem swapInMatch_ids (stats : DStatsMap) (pm : Bool) (needsIn cand : Player)
    (m : DMatch) :
    ((matchPlayers (swapInMatch stats pm needsIn cand m)).map Player.id).Perm
      (((matchPlayers m).map Player.id).map fun x =>
        if x = cand.id then needsIn.id else x) := by
  unfold swapInMatch
  have hperm := (findBestTeamSplit_perm stats pm
    (if m.team1.1.id = cand.id then needsIn else m.team1.1)
    (if m.team1.2.id = cand.id then needsIn else m.team1.2)
    (if m.team2.1.id = cand.id then needsIn else m.team2.1)
    (if m.team2.2.id = cand.id then needsIn else m.team2.2)).map Player.id
  refine List.Perm.trans ?_ (hperm.trans ?_)
  · exact .refl _
  · simp only [List.map_cons, List.map_nil, matchPlayers, apply_ite Player.id]
    exact .refl _

theorem performSwap_ids (stats : DStatsMap) (pm : Bool) (needsIn cand : Player) :
    ∀ (ms : List DMatch) (i : ℕ),
    (dmIds ms).Nodup → ¬needsIn.id ∈ dmIds ms →
    (dmIds (performSwap stats pm needsIn i cand ms)).Nodup ∧
    ∀ x ∈ dmIds (performSwap stats pm needsIn i cand ms),
      x = needsIn.id ∨ x ∈ dmIds ms := by
  intro ms
  induction ms with
  | nil =>
    intro i hnd _
    rw [performSwap]
    exact ⟨hnd, fun x hx => Or.inr hx⟩
  | cons m rest ih =>
    intro i hnd hfresh
    have hsplit : dmIds (m :: rest) =
        (matchPlayers m).map Player.id ++ dmIds rest := by
      unfold dmIds
      rw [List.flatMap_cons]
    rw [hsplit, List.nodup_append] at hnd
    obtain ⟨hm1, hm2, hm3⟩ := hnd
    rw [hsplit] at hfresh
    have hfresh1 : ¬needsIn.id ∈ (matchPlayers m).map Player.id := fun h =>
      hfresh (List.mem_append.mpr (Or.inl h))
    have hfresh2 : ¬needsIn.id ∈ dmIds rest := fun h =>
      hfresh (List.mem_append.mpr (Or.inr h))
    cases i with
    | zero =>
      rw [performSwap]
      have hsplit2 : dmIds (swapInMatch stats pm needsIn cand m :: rest) =
          (matchPlayers (swapInMatch stats pm needsIn cand m)).map Player.id ++
            dmIds rest := by
        unfold dmIds
        rw [List.flatMap_cons]
      rw [hsplit2]
      obtain ⟨hsn, hss⟩ := map_subst_nodup ((matchPlayers m).map Player.id)
        cand.id needsIn.id hm1 hfresh1
      have hswap := swapInMatch_ids stats pm needsIn cand m
      constructor
      · rw [List.nodup_append]
        refine ⟨hswap.nodup_iff.mpr hsn, hm2, ?_⟩
        intro x hx hy
        rcases hss x (hswap.mem_iff.mp hx) with rfl | hx2
        · exact hfresh2 hy
        · exact hm3 hx2 hy
      · intro x hx
        rcases List.mem_append.mp hx with h | h
        · rcases hss x (hswap.mem_iff.mp h) with rfl | h2
          · exact Or.inl rfl
          · exact Or.inr (List.mem_append.mpr (Or.inl h2))
        · exact Or.inr (List.mem_append.mpr (Or.inr h))
    | succ j =>
      rw [performSwap]
      have hsplit2 : dmIds (m :: performSwap stats pm needsIn j cand rest) =
          (matchPlayers m).map Player.id ++
            dmIds (performSwap stats pm needsIn j cand rest) := by
        unfold dmIds
        rw [List.flatMap_cons]
      rw [hsplit2]
      obtain ⟨ha, hb⟩ := ih j hm2 hfresh2
      constructor
      · rw [List.nodup_append]
        refine ⟨hm1, ha, ?_⟩
        intro x hx hy
        rcases hb x hy with rfl | h2
        · exact hfresh1 hx
        · exact hm3 hx h2
      · intro x hx
        rcases List.mem_append.mp hx with h | h
        · exact Or.inr (List.mem_append.mpr (Or.inl h))
        · rcases hb x h with rfl | h2
          · exact Or.inl rfl
          · exact Or.inr (List.mem_append.mpr (Or.inr h2))

theorem sweepStep_ids (prev : List (List DMatch)) (stats : DStatsMap)
    (pm : Bool) (ms : List DMatch) (needsIn : Player)
    (hnd : (dmIds ms).Nodup) (hfresh : ¬needsIn.id ∈ dmIds ms) :
    (dmIds (sweepStep prev stats pm ms needsIn)).Nodup ∧
    ∀ x ∈ dmIds (sweepStep prev stats pm ms needsIn),
      x = needsIn.id ∨ x ∈ dmIds ms := by
  unfold sweepStep
  cases hm : minBy? (swapScore prev needsIn) (swapCands prev needsIn ms) with
  | none => exact ⟨hnd, fun x hx => Or.inr hx⟩
  | some ic => exact performSwap_ids stats pm needsIn ic.2 ms ic.1 hnd hfresh

theorem sweepFold_ids (prev : List (List DMatch)) (stats : DStatsMap)
    (pm : Bool) :
    ∀ (cands : List Player) (ms : List DMatch),
    (dmIds ms).Nodup → (cands.map Player.id).Nodup →
    (∀ c ∈ cands, ¬c.id ∈ dmIds ms) →
    (dmIds (cands.foldl (sweepStep prev stats pm) ms)).Nodup := by
  intro cands
  induction cands with
  | nil => intro ms hnd _ _; exact hnd
  | cons c cands ih =>
    intro ms hnd hcnd hfresh
    rw [List.map_cons, List.nodup_cons] at hcnd
    rw [List.foldl_cons]
    obtain ⟨ha, hb⟩ := sweepStep_ids prev stats pm ms c hnd
      (hfresh c (List.mem_cons_self _ _))
    refine ih _ ha hcnd.2 ?_
    intro c2 hc2 hmem
    rcases hb _ hmem with he | h2
    · exact hcnd.1 (he ▸ List.mem_map_of_mem Player.id hc2)
    · exact hfresh c2 (List.mem_cons_of_mem _ hc2) h2

theorem fairnessSweep_ids (prev : List (List DMatch)) (present : List Player)
    (stats : DStatsMap) (pm : Bool) (ms : List DMatch)
    (hnd : (dmIds ms).Nodup) (hpresent : (present.map Player.id).Nodup) :
    (dmIds (fairnessSweep prev present stats pm ms)).Nodup := by
  unfold fairnessSweep
  split
  · exact hnd
  split
  · exact hnd
  refine sweepFold_ids prev stats pm _ ms hnd ?_ ?_
  · unfold fairnessCandidates
    have hperm := (sortDescBy_perm (fun p => (gtSatOut prev p.id : ℚ))
      ((fsSittingOut present ms).filter fun p =>
        avgSatOut prev present < (gtSatOut prev p.id : ℚ))).map Player.id
    refine hperm.nodup_iff.mpr ?_
    exact ((List.filter_sublist _).map Player.id).nodup
      (((List.filter_sublist _).map Player.id).nodup hpresent)
  · intro c hc
    unfold fairnessCandidates at hc
    have h1 := (sortDescBy_perm _ _).mem_iff.mp hc
    have h2 := (List.mem_filter.mp h1).1
    have h3 := (List.mem_filter.mp h2).2
    simpa using h3

theorem createBalancedMatches_ids (playersThisRound : List Player)
    (s : DStatsMap) (maxCourts startCI : ℕ) (pm : Bool)
    (sjit : ℕ → ℕ → ℕ → ℕ → ℚ) (picks : ℕ → ℕ → ℕ → ℕ)
    (hnd : (playersThisRound.map Player.id).Nodup) :
    (dmIds (createBalancedMatches playersThisRound s maxCourts startCI pm sjit
      picks)).Nodup ∧
    ∀ i ∈ dmIds (createBalancedMatches playersThisRound s maxCourts startCI pm
      sjit picks), i ∈ playersThisRound.map Player.id := by
  unfold createBalancedMatches
  exact cbmLoop_spec s pm sjit picks startCI
    (min maxCourts (playersThisRound.length / 4))
    (min maxCourts (playersThisRound.length / 4)) 0 playersThisRound
    (by omega) hnd

theorem enum_flatMap_map_id (gs : List SkillGroup) :
    (gs.enum.flatMap fun ig => ig.2.players.map Player.id) =
      ((gs.flatMap SkillGroup.players).map Player.id) := by
  rw [show (gs.enum.flatMap fun ig => ig.2.players.map Player.id) =
      ((gs.enum.map Prod.snd).flatMap fun g => g.players.map Player.id) from
      (List.flatMap_map Prod.snd (fun g => g.players.map Player.id)
        gs.enum).symm,
    List.enum_map_snd, List.map_flatMap]

theorem rrSkillMatches_ids (presentPlayers : List Player) (courts : ℕ)
    (s0 : DStatsMap) (currentRoundIndex : ℕ) (pm : Bool) (restInterval : ℕ)
    (jit : ℕ → ℚ) (sjit : ℕ → ℕ → ℕ → ℕ → ℕ → ℚ)
    (picks : ℕ → ℕ → ℕ → ℕ → ℕ)
    (hnd : (presentPlayers.map Player.id).Nodup) :
    (dmIds (rrSkillMatches presentPlayers courts s0 currentRoundIndex pm
      restInterval jit sjit picks)).Nodup := by
  have hflat : ((separatePlayersBySkill presentPlayers 4).enum.flatMap
      fun ig => ig.2.players.map Player.id).Nodup := by
    rw [enum_flatMap_map_id]
    exact (((separatePlayersBySkill_flat_perm presentPlayers 4).map
      Player.id).nodup_iff).mpr hnd
  have hacc : (dmIds (rrAccOf presentPlayers courts s0 currentRoundIndex pm
      restInterval jit sjit picks).ms).Nodup := by
    unfold rrAccOf
    exact (rrFold_inv s0
      (courts / max 1 (separatePlayersBySkill presentPlayers 4).length)
      currentRoundIndex pm restInterval jit sjit picks
      (separatePlayersBySkill presentPlayers 4).enum
      { ms := [], courtIndex := 1
        extraCourts := courts % max 1 (separatePlayersBySkill
          presentPlayers 4).length }
      (by simp [dmIds]) hflat (by simp [dmIds])).1
  unfold rrSkillMatches
  dsimp only
  split
  · split
    · obtain ⟨hcn, hcs⟩ := createBalancedMatches_ids
        (presentPlayers.filter fun p => ¬p.id ∈ dmIds (rrAccOf presentPlayers
          courts s0 currentRoundIndex pm restInterval jit sjit picks).ms)
        s0
        (courts - (rrAccOf presentPlayers courts s0 currentRoundIndex pm
          restInterval jit sjit picks).ms.length)
        (rrAccOf presentPlayers courts s0 currentRoundIndex pm restInterval jit
          sjit picks).courtIndex
        pm (sjit (separatePlayersBySkill presentPlayers 4).length)
        (picks (separatePlayersBySkill presentPlayers 4).length)
        (((List.filter_sublist _).map Player.id).nodup hnd)
      unfold dmIds
      rw [List.flatMap_append, List.nodup_append]
      refine ⟨hacc, hcn, ?_⟩
      intro x hx hy
      have := hcs x hy
      rcases List.mem_map.mp this with ⟨p, hp, rfl⟩
      have hp2 := (List.mem_filter.mp hp).2
      simp only [decide_eq_true_eq] at hp2
      exact hp2 hx
    · exact hacc
  · exact hacc

/-- **Doubles round uniqueness**: the matches of one
`generateRoundRobinRound` call (including overflow and the fairness sweep)
never repeat a player id. -/
theorem generateRoundRobinRound_ids (presentPlayers : List Player)
    (courts : ℕ) (s : DStatsMap) (currentRoundIndex : ℕ)
    (separateBySkill : Bool) (pm : Bool) (restInterval : ℕ)
    (previousRounds : List (List DMatch)) (jit : ℕ → ℚ)
    (sjit : ℕ → ℕ → ℕ → ℕ → ℕ → ℚ) (picks : ℕ → ℕ → ℕ → ℕ → ℕ)
    (hnd : (presentPlayers.map Player.id).Nodup) :
    (dmIds (generateRoundRobinRound presentPlayers courts s currentRoundIndex
      separateBySkill pm restInterval previousRounds jit sjit picks)).Nodup := by
  unfold generateRoundRobinRound
  refine fairnessSweep_ids _ _ _ _ _ ?_ hnd
  split
  · exact rrSkillMatches_ids presentPlayers courts _ currentRoundIndex pm
      restInterval jit sjit picks hnd
  · exact (generateMatchesForGroup_ids presentPlayers
      (initializePlayerStats s presentPlayers) courts 1 currentRoundIndex pm
      restInterval jit (sjit 0) (picks 0) hnd).1

theorem key_not_mem_erase {α β : Type} [DecidableEq α] (key : α → β)
    (l : List α) (a : α) (hnd : (l.map key).Nodup) (ha : a ∈ l) :
    ¬key a ∈ (l.erase a).map key := by
  intro hmem
  have hl : l.Nodup := hnd.of_map
  rcases List.mem_map.mp hmem with ⟨b, hb, hkey⟩
  have hbl : b ∈ l := (l.erase_sublist a).subset hb
  have hba : b = a := List.inj_on_of_nodup_map hnd hbl ha hkey
  rw [hba] at hb
  exact ((List.Nodup.mem_erase_iff hl).mp hb).1 rfl

theorem allPairs_ne {α : Type} (l : List α) (hnd : l.Nodup) (ab : α × α)
    (h : ab ∈ allPairs l) : ab.1 ≠ ab.2 := by
  induction l with
  | nil => simp [allPairs] at h
  | cons x xs ih =>
    rw [List.nodup_cons] at hnd
    simp only [allPairs, List.mem_append, List.mem_map] at h
    rcases h with ⟨y, hy, hxy⟩ | h2
    · obtain rfl : (x, y) = ab := hxy
      intro he
      simp only at he
      exact hnd.1 (by rw [he]; exact hy)
    · exact ih hnd.2 h2

theorem pairTeams_ids (s : TStatsMap) (courts : ℕ) :
    ∀ (n ci : ℕ) (remaining : List Team), courts - ci ≤ n →
    (remaining.map Team.id).Nodup →
    (tmIds (pairTeams s courts ci remaining)).Nodup ∧
    ∀ i ∈ tmIds (pairTeams s courts ci remaining),
      i ∈ remaining.map Team.id := by
  intro n
  induction n with
  | zero =>
    intro ci remaining h hnd
    rw [pairTeams, dif_neg (by omega)]
    simp [tmIds]
  | succ n ih =>
    intro ci remaining h hnd
    rw [pairTeams]
    by_cases hc : 2 ≤ remaining.length ∧ ci < courts
    · rw [dif_pos hc]
      cases hmin : minBy? (pairCost s) (allPairs remaining) with
      | none => simp [tmIds]
      | some tt =>
        have httmem := minBy?_mem _ _ _ hmin
        obtain ⟨h1, h2⟩ := allPairs_mem remaining tt httmem
        have hne : tt.1 ≠ tt.2 := allPairs_ne remaining hnd.of_map tt httmem
        have hidne : tt.1.id ≠ tt.2.id := fun he =>
          hne (List.inj_on_of_nodup_map hnd h1 h2 he)
        have h2e : tt.2 ∈ remaining.erase tt.1 :=
          (List.Nodup.mem_erase_iff hnd.of_map).mpr ⟨hne.symm, h2⟩
        have hnd1 : ((remaining.erase tt.1).map Team.id).Nodup :=
          ((remaining.erase_sublist tt.1).map Team.id).nodup hnd
        have hnd2 : (((remaining.erase tt.1).erase tt.2).map Team.id).Nodup :=
          (((remaining.erase tt.1).erase_sublist tt.2).map Team.id).nodup hnd1
        have hnot1 : ¬tt.1.id ∈ ((remaining.erase tt.1).erase tt.2).map
            Team.id := by
          intro hmem
          exact key_not_mem_erase Team.id remaining tt.1 hnd h1
            ((((remaining.erase tt.1).erase_sublist tt.2).map Team.id).subset
              hmem)
        have hnot2 : ¬tt.2.id ∈ ((remaining.erase tt.1).erase tt.2).map
            Team.id := key_not_mem_erase Team.id (remaining.erase tt.1) tt.2
          hnd1 h2e
        obtain ⟨ha, hb⟩ := ih (ci + 1) ((remaining.erase tt.1).erase tt.2)
          (by omega) hnd2
        constructor
        · simp only [tmIds, List.flatMap_cons, List.cons_append,
            List.nil_append, List.nodup_cons]
          refine ⟨?_, ?_, ha⟩
          · intro hmem
            rcases List.mem_cons.mp hmem with he | hmem2
            · exact hidne he
            · exact hnot1 (hb _ hmem2)
          · intro hmem
            exact hnot2 (hb _ hmem)
        · intro i hi
          simp only [tmIds, List.flatMap_cons, List.cons_append,
            List.nil_append] at hi
          rcases List.mem_cons.mp hi with rfl | hi2
          · exact List.mem_map_of_mem _ h1
          rcases List.mem_cons.mp hi2 with rfl | hi3
          · exact List.mem_map_of_mem _ h2
          · have := hb i hi3
            rcases List.mem_map.mp this with ⟨t, ht, rfl⟩
            exact List.mem_map_of_mem _
              ((remaining.erase tt.1).erase_sublist tt.2 |>.subset ht |>
                (remaining.erase_sublist tt.1).subset)
    · rw [dif_neg hc]
      simp [tmIds]

theorem createMatchesForGender_ids (s : TStatsMap) (courts : ℕ)
    (genderTeams : List Team) (courtIdx roundIdx : ℕ) (jit : ℕ → ℚ)
    (hnd : (genderTeams.map Team.id).Nodup) :
    (tmIds (createMatchesForGender s courts genderTeams courtIdx roundIdx
      jit)).Nodup ∧
    ∀ i ∈ tmIds (createMatchesForGender s courts genderTeams courtIdx roundIdx
      jit), i ∈ genderTeams.map Team.id := by
  unfold createMatchesForGender
  split
  · simp [tmIds]
  have hselnd : ((selectTeamsForRound genderTeams s
      (min genderTeams.length ((courts - courtIdx) * 2)) roundIdx jit).map
      Team.id).Nodup := by
    unfold selectTeamsForRound
    split
    · exact hnd
    · exact take_sortDescBy_key_nodup _ _ _ _ hnd
  have hselsub : ∀ t ∈ selectTeamsForRound genderTeams s
      (min genderTeams.length ((courts - courtIdx) * 2)) roundIdx jit,
      t ∈ genderTeams := by
    unfold selectTeamsForRound
    split
    · exact fun t ht => ht
    · exact fun t ht =>
        (sortDescBy_perm _ _).mem_iff.mp (List.mem_of_mem_take ht)
  obtain ⟨ha, hb⟩ := pairTeams_ids s courts courts courtIdx _ (by omega) hselnd
  refine ⟨ha, fun i hi => ?_⟩
  have := hb i hi
  rcases List.mem_map.mp this with ⟨t, ht, rfl⟩
  exact List.mem_map_of_mem _ (hselsub t ht)

/-- **Teamed-doubles round uniqueness**: the matches of one
`generateTeamedDoublesRound` call never repeat a team id. -/
theorem generateTeamedDoublesRound_ids (teams : List Team) (courts : ℕ)
    (s : TStatsMap) (currentRoundIndex : ℕ) (jit : ℕ → ℚ)
    (hnd : (teams.map Team.id).Nodup) :
    (tmIds (generateTeamedDoublesRound teams courts s currentRoundIndex
      jit).1).Nodup := by
  unfold generateTeamedDoublesRound
  dsimp only
  have hmm := createMatchesForGender_ids (initTeamStats s teams) courts
    (teams.filter fun t => t.gender = TeamGender.male_male) 0
    currentRoundIndex jit (((List.filter_sublist _).map Team.id).nodup hnd)
  have hff := createMatchesForGender_ids (initTeamStats s teams) courts
    (teams.filter fun t => t.gender = TeamGender.female_female)
    (createMatchesForGender (initTeamStats s teams) courts
      (teams.filter fun t => t.gender = TeamGender.male_male) 0
      currentRoundIndex jit).length
    currentRoundIndex jit (((List.filter_sublist _).map Team.id).nodup hnd)
  have hmx := createMatchesForGender_ids (initTeamStats s teams) courts
    (teams.filter fun t => t.gender = TeamGender.mixed)
    ((createMatchesForGender (initTeamStats s teams) courts
      (teams.filter fun t => t.gender = TeamGender.male_male) 0
      currentRoundIndex jit).length +
     (createMatchesForGender (initTeamStats s teams) courts
      (teams.filter fun t => t.gender = TeamGender.female_female)
      (createMatchesForGender (initTeamStats s teams) courts
        (teams.filter fun t => t.gender = TeamGender.male_male) 0
        currentRoundIndex jit).length
      currentRoundIndex jit).length)
    currentRoundIndex jit (((List.filter_sublist _).map Team.id).nodup hnd)
  have hgender : ∀ (g1 g2 : TeamGender), g1 ≠ g2 →
      ∀ i, i ∈ ((teams.filter fun t => t.gender = g1).map Team.id) →
        ¬i ∈ ((teams.filter fun t => t.gender = g2).map Team.id) := by
    intro g1 g2 hne i hi1 hi2
    rcases List.mem_map.mp hi1 with ⟨t1, ht1, rfl⟩
    rcases List.mem_map.mp hi2 with ⟨t2, ht2, heq⟩
    obtain ⟨ht1m, ht1g⟩ := List.mem_filter.mp ht1
    obtain ⟨ht2m, ht2g⟩ := List.mem_filter.mp ht2
    simp only [decide_eq_true_eq] at ht1g ht2g
    have : t2 = t1 := List.inj_on_of_nodup_map hnd ht2m ht1m heq
    exact hne (by rw [← ht1g, ← this]; exact ht2g)
  rw [show tmIds _ = _ from rfl]
  unfold tmIds
  rw [List.flatMap_append, List.flatMap_append, List.nodup_append]
  constructor
  · rw [List.nodup_append]
    exact ⟨hmm.1, hff.1, fun x hx hy => hgender _ _ (by simp) x
      (hmm.2 x hx) (hff.2 x hy)⟩
  refine ⟨hmx.1, ?_⟩
  intro x hx hy
  rcases List.mem_append.mp hx with h | h
  · exact hgender _ _ (by simp) x (hmm.2 x h) (hmx.2 x hy)
  · exact hgender _ _ (by simp) x (hff.2 x h) (hmx.2 x hy)

/-! ### King-of-Court round uniqueness -/

theorem slices_disjoint_lt {α β : Type} (key : α → β) (pool : List α) (w : ℕ)
    (hnd : (pool.map key).Nodup) (i j : ℕ) (hij : i < j) :
    ∀ x ∈ ((pool.drop (i * w)).take w).map key,
      ¬x ∈ ((pool.drop (j * w)).take w).map key := by
  intro x hx hy
  have hdd : pool.drop (i * w + w) = (pool.drop (i * w)).drop w := by
    rw [List.drop_drop, Nat.add_comm]
  have hdec : (pool.drop (i * w)).take w ++ pool.drop (i * w + w) =
      pool.drop (i * w) := by
    rw [hdd]
    exact List.take_append_drop w (pool.drop (i * w))
  have hndi : ((pool.drop (i * w)).map key).Nodup :=
    ((List.drop_sublist _ _).map key).nodup hnd
  rw [← hdec, List.map_append, List.nodup_append] at hndi
  have hsubj : ((pool.drop (j * w)).take w).map key ⊆
      (pool.drop (i * w + w)).map key := by
    intro y hy2
    rcases List.mem_map.mp hy2 with ⟨p, hp, rfl⟩
    refine List.mem_map_of_mem _ ?_
    have hp2 := List.mem_of_mem_take hp
    have hje : pool.drop (j * w) =
        (pool.drop (i * w + w)).drop (j * w - (i * w + w)) := by
      rw [List.drop_drop]
      congr 1
      have h3 : (i + 1) * w ≤ j * w := Nat.mul_le_mul_right w hij
      have h4 : (i + 1) * w = i * w + w := by ring
      omega
    rw [hje] at hp2
    exact (List.drop_subset _ _) hp2
  exact hndi.2.2 hx (hsubj hy)

theorem slices_disjoint {α β : Type} (key : α → β) (pool : List α) (w : ℕ)
    (hnd : (pool.map key).Nodup) (i j : ℕ) (hij : i ≠ j) :
    ∀ x ∈ ((pool.drop (i * w)).take w).map key,
      ¬x ∈ ((pool.drop (j * w)).take w).map key := by
  rcases Nat.lt_or_ge i j with h | h
  · exact slices_disjoint_lt key pool w hnd i j h
  · have hj : j < i := by omega
    intro x hx hy
    exact slices_disjoint_lt key pool w hnd j i hj x hy hx

theorem kotBuildCourts_eq (pool : List Player) (s : KStatsMap)
    (actualCourts startingCourtIndex roundIndex courtsInHierarchy : ℕ) :
    kotBuildCourts pool s actualCourts startingCourtIndex roundIndex courtsInHierarchy =
      (List.range actualCourts).foldl
        (kotCourtStep pool startingCourtIndex roundIndex courtsInHierarchy) ([], s) := rfl

theorem kotCourtStep_kmIds (pool : List Player) (sci ri cih : ℕ)
    (acc : List KMatch × KStatsMap) (i : ℕ) :
    ∃ newIds : List ℕ,
      kmIds (kotCourtStep pool sci ri cih acc i).1 = kmIds acc.1 ++ newIds ∧
      (newIds = [] ∨ newIds.Perm (((pool.drop (i * 4)).take 4).map Player.id)) := by
  rcases hsl : (pool.drop (i * 4)).take 4 with _ | ⟨p1, _ | ⟨p2, _ | ⟨p3, _ | ⟨p4, rest⟩⟩⟩⟩
  · refine ⟨[], ?_, Or.inl rfl⟩
    simp only [kotCourtStep, hsl]
    simp
  · refine ⟨[], ?_, Or.inl rfl⟩
    simp only [kotCourtStep, hsl]
    simp
  · refine ⟨[], ?_, Or.inl rfl⟩
    simp only [kotCourtStep, hsl]
    simp
  · refine ⟨[], ?_, Or.inl rfl⟩
    simp only [kotCourtStep, hsl]
    simp
  · have hlen := congrArg List.length hsl
    simp only [List.length_take, List.length_cons] at hlen
    have hrest : rest = [] := List.length_eq_zero.mp (by omega)
    subst hrest
    refine ⟨[(findBestTeamSplitKOT p1 p2 p3 p4).team1.1.id,
             (findBestTeamSplitKOT p1 p2 p3 p4).team1.2.id,
             (findBestTeamSplitKOT p1 p2 p3 p4).team2.1.id,
             (findBestTeamSplitKOT p1 p2 p3 p4).team2.2.id], ?_, Or.inr ?_⟩
    · simp only [kotCourtStep, hsl]
      simp [kmIds]
    · have hperm := (findBestTeamSplitKOT_perm p1 p2 p3 p4).map Player.id
      simpa using hperm

theorem kotBuildFold_inv (pool : List Player) (sci ri cih : ℕ)
    (hpool : (pool.map Player.id).Nodup) :
    ∀ (idxs : List ℕ), idxs.Nodup →
    ∀ acc : List KMatch × KStatsMap,
    (kmIds acc.1).Nodup →
    (∀ i ∈ idxs, ∀ x ∈ kmIds acc.1, ¬x ∈ ((pool.drop (i * 4)).take 4).map Player.id) →
    (kmIds (idxs.foldl (kotCourtStep pool sci ri cih) acc).1).Nodup ∧
    ∀ x ∈ kmIds (idxs.foldl (kotCourtStep pool sci ri cih) acc).1,
      x ∈ kmIds acc.1 ∨ ∃ i ∈ idxs, x ∈ ((pool.drop (i * 4)).take 4).map Player.id := by
  intro idxs
  induction idxs with
  | nil =>
    intro _ acc h1 _
    exact ⟨h1, fun x hx => Or.inl hx⟩
  | cons i rest ih =>
    intro hnd acc h1 h2
    rw [List.nodup_cons] at hnd
    obtain ⟨hirest, hndrest⟩ := hnd
    obtain ⟨newIds, heq, hperm⟩ := kotCourtStep_kmIds pool sci ri cih acc i
    simp only [List.foldl_cons]
    have hsliceNodup : (((pool.drop (i * 4)).take 4).map Player.id).Nodup :=
      (((List.take_sublist _ _).trans (List.drop_sublist _ _)).map Player.id).nodup hpool
    have hnew_sub : ∀ x ∈ newIds, x ∈ ((pool.drop (i * 4)).take 4).map Player.id := by
      rcases hperm with rfl | hp
      · intro x hx
        cases hx
      · intro x hx
        exact hp.mem_iff.mp hx
    have h1' : (kmIds (kotCourtStep pool sci ri cih acc i).1).Nodup := by
      rw [heq]
      rcases hperm with rfl | hp
      · simpa using h1
      · refine List.Nodup.append h1 (hp.nodup_iff.mpr hsliceNodup) ?_
        intro x hx hx2
        exact h2 i (List.mem_cons_self _ _) x hx (hp.mem_iff.mp hx2)
    have h2' : ∀ j ∈ rest, ∀ x ∈ kmIds (kotCourtStep pool sci ri cih acc i).1,
        ¬x ∈ ((pool.drop (j * 4)).take 4).map Player.id := by
      intro j hj x hx hxj
      rw [heq] at hx
      rcases List.mem_append.mp hx with hxold | hxnew
      · exact h2 j (List.mem_cons_of_mem _ hj) x hxold hxj
      · have hij : i ≠ j := fun h => hirest (h ▸ hj)
        exact slices_disjoint Player.id pool 4 hpool i j hij x (hnew_sub x hxnew) hxj
    obtain ⟨hn, hm⟩ := ih hndrest _ h1' h2'
    refine ⟨hn, ?_⟩
    intro x hx
    rcases hm x hx with hxacc | ⟨j, hj, hxj⟩
    · rw [heq] at hxacc
      rcases List.mem_append.mp hxacc with hxa | hxn
      · exact Or.inl hxa
      · exact Or.inr ⟨i, List.mem_cons_self _ _, hnew_sub x hxn⟩
    · exact Or.inr ⟨j, List.mem_cons_of_mem _ hj, hxj⟩

theorem kotBuildCourts_ids (pool : List Player) (s : KStatsMap)
    (actualCourts sci ri cih : ℕ) (hpool : (pool.map Player.id).Nodup) :
    (kmIds (kotBuildCourts pool s actualCourts sci ri cih).1).Nodup ∧
    ∀ x ∈ kmIds (kotBuildCourts pool s actualCourts sci ri cih).1,
      x ∈ pool.map Player.id := by
  rw [kotBuildCourts_eq]
  obtain ⟨hn, hm⟩ := kotBuildFold_inv pool sci ri cih hpool
    (List.range actualCourts) (List.nodup_range _) ([], s) (by simp [kmIds])
    (by
      intro i _ x hx
      simp [kmIds] at hx)
  refine ⟨hn, ?_⟩
  intro x hx
  rcases hm x hx with h0 | ⟨i, _, hxi⟩
  · simp [kmIds] at h0
  · exact (List.map_subset Player.id
      ((List.take_subset _ _).trans (List.drop_subset _ _))) hxi

theorem kotPlayersToAssign_ids (gp : List Player) (s : KStatsMap)
    (numCourts roundIndex : ℕ) (jit : ℕ → ℚ)
    (hnd : (gp.map Player.id).Nodup) :
    ((kotPlayersToAssign gp s numCourts roundIndex jit).map Player.id).Nodup ∧
    kotPlayersToAssign gp s numCourts roundIndex jit ⊆ gp := by
  unfold kotPlayersToAssign selectPlayersForKOTRound
  dsimp only
  split
  · split
    · exact ⟨hnd, fun x hx => hx⟩
    · refine ⟨take_sortDescBy_key_nodup _ _ _ _ hnd, ?_⟩
      intro x hx
      exact (sortDescBy_perm _ gp).mem_iff.mp (List.mem_of_mem_take hx)
  · exact ⟨hnd, fun x hx => hx⟩

theorem addIfNotAssigned_spec (S assigned : List Player) :
    ∀ (ps cp : List Player), cp.Nodup → (∀ x ∈ cp, ¬x ∈ assigned) → cp ⊆ S →
    (∀ x ∈ ps, x ∈ S) →
    (addIfNotAssigned assigned cp ps).Nodup ∧
    (∀ x ∈ addIfNotAssigned assigned cp ps, ¬x ∈ assigned) ∧
    addIfNotAssigned assigned cp ps ⊆ S := by
  intro ps
  induction ps with
  | nil =>
    intro cp h1 h2 h3 _
    exact ⟨h1, h2, h3⟩
  | cons p t ih =>
    intro cp h1 h2 h3 hps
    unfold addIfNotAssigned
    rw [List.foldl_cons]
    by_cases hpc : p ∈ assigned ∨ p ∈ cp
    · rw [if_pos hpc]
      exact ih cp h1 h2 h3 (fun x hx => hps x (List.mem_cons_of_mem _ hx))
    · rw [if_neg hpc]
      push_neg at hpc
      refine ih (cp ++ [p]) ?_ ?_ ?_ (fun x hx => hps x (List.mem_cons_of_mem _ hx))
      · refine List.Nodup.append h1 (List.nodup_singleton p) ?_
        intro x hx hx2
        rw [List.mem_singleton] at hx2
        subst hx2
        exact hpc.2 hx
      · intro x hx
        rcases List.mem_append.mp hx with h | h
        · exact h2 x h
        · rw [List.mem_singleton] at h
          subst h
          exact hpc.1
      · intro x hx
        rcases List.mem_append.mp hx with h | h
        · exact h3 h
        · rw [List.mem_singleton] at h
          subst h
          exact hps x (List.mem_cons_self _ _)

theorem courtLoop_eq (results : List PResult) (numCourts startingCourtIndex : ℕ) :
    courtLoop results numCourts startingCourtIndex =
      (List.range numCourts).foldl
        (kotCourtAssembleStep results numCourts startingCourtIndex) [] := rfl

theorem kotFiltered_sub (results : List PResult) (q : PResult → Bool) :
    ∀ x ∈ (results.filter q).map PResult.player, x ∈ results.map PResult.player := by
  intro x hx
  rcases List.mem_map.mp hx with ⟨pr, hpr, rfl⟩
  exact List.mem_map_of_mem _ (List.mem_of_mem_filter hpr)

theorem kotCp_ite (S assigned : List Player) (c : Prop) [Decidable c]
    (cp cp' : List Player)
    (h : cp.Nodup ∧ (∀ x ∈ cp, ¬x ∈ assigned) ∧ cp ⊆ S)
    (h' : c → (cp'.Nodup ∧ (∀ x ∈ cp', ¬x ∈ assigned) ∧ cp' ⊆ S)) :
    (if c then cp' else cp).Nodup ∧
    (∀ x ∈ (if c then cp' else cp), ¬x ∈ assigned) ∧
    (if c then cp' else cp) ⊆ S := by
  split
  case isTrue hc => exact h' hc
  case isFalse hc => exact h

theorem kotCp_fill (results : List PResult) (assigned cp : List Player)
    (hSnd : (results.map PResult.player).Nodup)
    (h : cp.Nodup ∧ (∀ x ∈ cp, ¬x ∈ assigned) ∧ cp ⊆ results.map PResult.player)
    (n : ℕ) :
    (cp ++ ((results.filter fun pr =>
        ¬pr.player ∈ assigned ∧ ¬pr.player ∈ cp).map PResult.player).take n).Nodup ∧
    (∀ x ∈ cp ++ ((results.filter fun pr =>
        ¬pr.player ∈ assigned ∧ ¬pr.player ∈ cp).map PResult.player).take n,
      ¬x ∈ assigned) ∧
    (cp ++ ((results.filter fun pr =>
        ¬pr.player ∈ assigned ∧ ¬pr.player ∈ cp).map PResult.player).take n) ⊆
      results.map PResult.player := by
  obtain ⟨hn, ha, hs⟩ := h
  have htake_nd : (((results.filter fun pr =>
      ¬pr.player ∈ assigned ∧ ¬pr.player ∈ cp).map PResult.player).take n).Nodup :=
    ((List.take_sublist _ _).trans
      ((List.filter_sublist _).map PResult.player)).nodup hSnd
  have hmem : ∀ x ∈ ((results.filter fun pr =>
      ¬pr.player ∈ assigned ∧ ¬pr.player ∈ cp).map PResult.player).take n,
      ¬x ∈ assigned ∧ ¬x ∈ cp ∧ x ∈ results.map PResult.player := by
    intro x hx
    have hx2 := List.mem_of_mem_take hx
    rcases List.mem_map.mp hx2 with ⟨pr, hpr, rfl⟩
    rcases List.mem_filter.mp hpr with ⟨hprres, hq⟩
    rw [decide_eq_true_eq] at hq
    exact ⟨hq.1, hq.2, List.mem_map_of_mem _ hprres⟩
  refine ⟨List.Nodup.append hn htake_nd
    (fun x hxcp hxtake => (hmem x hxtake).2.1 hxcp), ?_, ?_⟩
  · intro x hx
    rcases List.mem_append.mp hx with h | h
    · exact ha x h
    · exact (hmem x h).1
  · intro x hx
    rcases List.mem_append.mp hx with h | h
    · exact hs h
    · exact (hmem x h).2.2

theorem kotAssigned_extend (results : List PResult) (assigned cp : List Player)
    (h1 : assigned.Nodup) (h2 : assigned ⊆ results.map PResult.player)
    (h : cp.Nodup ∧ (∀ x ∈ cp, ¬x ∈ assigned) ∧ cp ⊆ results.map PResult.player)
    (n : ℕ) :
    (assigned ++ cp.take n).Nodup ∧
    (assigned ++ cp.take n) ⊆ results.map PResult.player := by
  obtain ⟨hn, ha, hs⟩ := h
  refine ⟨List.Nodup.append h1 ((List.take_sublist _ _).nodup hn)
    (fun x hxa hxt => ha x (List.mem_of_mem_take hxt) hxa), ?_⟩
  intro x hx
  rcases List.mem_append.mp hx with h | h
  · exact h2 h
  · exact hs (List.mem_of_mem_take h)

theorem addIfNotAssigned_triple (S assigned ps cp : List Player)
    (h : cp.Nodup ∧ (∀ x ∈ cp, ¬x ∈ assigned) ∧ cp ⊆ S)
    (hps : ∀ x ∈ ps, x ∈ S) :
    (addIfNotAssigned assigned cp ps).Nodup ∧
    (∀ x ∈ addIfNotAssigned assigned cp ps, ¬x ∈ assigned) ∧
    addIfNotAssigned assigned cp ps ⊆ S :=
  addIfNotAssigned_spec S assigned ps cp h.1 h.2.1 h.2.2 hps

theorem mem_ite_or {α : Type} {x : α} {c : Prop} [Decidable c] {a b : List α}
    (h : x ∈ if c then a else b) : x ∈ a ∨ x ∈ b := by
  split at h
  · exact Or.inl h
  · exact Or.inr h

theorem kotCourtAssembleStep_spec (results : List PResult) (numCourts sci : ℕ)
    (hS : (results.map PResult.player).Nodup)
    (assigned : List Player) (courtIdx : ℕ)
    (h1 : assigned.Nodup) (h2 : assigned ⊆ results.map PResult.player) :
    (kotCourtAssembleStep results numCourts sci assigned courtIdx).Nodup ∧
    kotCourtAssembleStep results numCourts sci assigned courtIdx ⊆
      results.map PResult.player := by
  unfold kotCourtAssembleStep
  dsimp only
  refine kotAssigned_extend results assigned _ h1 h2 ?_ 4
  refine kotCp_ite _ _ _ _ _ ?_ (fun _ => kotCp_fill results assigned _ hS ?_ _)
  · refine addIfNotAssigned_triple _ _ _ _ ?_ (fun x hx => kotFiltered_sub _ _ x hx)
    refine kotCp_ite _ _ _ _ _ ?_ (fun _ => addIfNotAssigned_triple _ _ _ _ ?_ ?_)
    · refine kotCp_ite _ _ _ _ _ ?_ (fun _ => addIfNotAssigned_triple _ _ _ _ ?_ ?_)
      · exact addIfNotAssigned_triple _ _ _ _
          ⟨List.nodup_nil, fun x hx => absurd hx (List.not_mem_nil x), List.nil_subset _⟩
          (fun x hx => kotFiltered_sub _ _ x hx)
      · exact addIfNotAssigned_triple _ _ _ _
          ⟨List.nodup_nil, fun x hx => absurd hx (List.not_mem_nil x), List.nil_subset _⟩
          (fun x hx => kotFiltered_sub _ _ x hx)
      · intro x hx
        rcases mem_ite_or hx with h | h
        · exact kotFiltered_sub _ _ x (List.mem_of_mem_take h)
        · cases h
    · refine kotCp_ite _ _ _ _ _ ?_ (fun _ => addIfNotAssigned_triple _ _ _ _ ?_ ?_)
      · exact addIfNotAssigned_triple _ _ _ _
          ⟨List.nodup_nil, fun x hx => absurd hx (List.not_mem_nil x), List.nil_subset _⟩
          (fun x hx => kotFiltered_sub _ _ x hx)
      · exact addIfNotAssigned_triple _ _ _ _
          ⟨List.nodup_nil, fun x hx => absurd hx (List.not_mem_nil x), List.nil_subset _⟩
          (fun x hx => kotFiltered_sub _ _ x hx)
      · intro x hx
        rcases mem_ite_or hx with h | h
        · exact kotFiltered_sub _ _ x (List.mem_of_mem_take h)
        · cases h
    · intro x hx
      rcases mem_ite_or hx with h | h
      · exact kotFiltered_sub _ _ x (List.mem_of_mem_take h)
      · cases h
  · refine addIfNotAssigned_triple _ _ _ _ ?_ (fun x hx => kotFiltered_sub _ _ x hx)
    refine kotCp_ite _ _ _ _ _ ?_ (fun _ => addIfNotAssigned_triple _ _ _ _ ?_ ?_)
    · refine kotCp_ite _ _ _ _ _ ?_ (fun _ => addIfNotAssigned_triple _ _ _ _ ?_ ?_)
      · exact addIfNotAssigned_triple _ _ _ _
          ⟨List.nodup_nil, fun x hx => absurd hx (List.not_mem_nil x), List.nil_subset _⟩
          (fun x hx => kotFiltered_sub _ _ x hx)
      · exact addIfNotAssigned_triple _ _ _ _
          ⟨List.nodup_nil, fun x hx => absurd hx (List.not_mem_nil x), List.nil_subset _⟩
          (fun x hx => kotFiltered_sub _ _ x hx)
      · intro x hx
        rcases mem_ite_or hx with h | h
        · exact kotFiltered_sub _ _ x (List.mem_of_mem_take h)
        · cases h
    · refine kotCp_ite _ _ _ _ _ ?_ (fun _ => addIfNotAssigned_triple _ _ _ _ ?_ ?_)
      · exact addIfNotAssigned_triple _ _ _ _
          ⟨List.nodup_nil, fun x hx => absurd hx (List.not_mem_nil x), List.nil_subset _⟩
          (fun x hx => kotFiltered_sub _ _ x hx)
      · exact addIfNotAssigned_triple _ _ _ _
          ⟨List.nodup_nil, fun x hx => absurd hx (List.not_mem_nil x), List.nil_subset _⟩
          (fun x hx => kotFiltered_sub _ _ x hx)
      · intro x hx
        rcases mem_ite_or hx with h | h
        · exact kotFiltered_sub _ _ x (List.mem_of_mem_take h)
        · cases h
    · intro x hx
      rcases mem_ite_or hx with h | h
      · exact kotFiltered_sub _ _ x (List.mem_of_mem_take h)
      · cases h

theorem courtLoop_inv (results : List PResult) (numCourts sci : ℕ)
    (hS : (results.map PResult.player).Nodup) :
    ∀ (idxs : List ℕ) (assigned : List Player),
    assigned.Nodup → assigned ⊆ results.map PResult.player →
    (idxs.foldl (kotCourtAssembleStep results numCourts sci) assigned).Nodup ∧
    (idxs.foldl (kotCourtAssembleStep results numCourts sci) assigned) ⊆
      results.map PResult.player := by
  intro idxs
  induction idxs with
  | nil =>
    intro assigned h1 h2
    exact ⟨h1, h2⟩
  | cons i rest ih =>
    intro assigned h1 h2
    rw [List.foldl_cons]
    obtain ⟨h1', h2'⟩ := kotCourtAssembleStep_spec results numCourts sci hS assigned i h1 h2
    exact ih _ h1' h2'

theorem courtLoop_spec (results : List PResult) (numCourts sci : ℕ)
    (hS : (results.map PResult.player).Nodup) :
    (courtLoop results numCourts sci).Nodup ∧
    courtLoop results numCourts sci ⊆ results.map PResult.player := by
  rw [courtLoop_eq]
  exact courtLoop_inv results numCourts sci hS (List.range numCourts) []
    List.nodup_nil (List.nil_subset _)

theorem assignPlayersToCourts_ids (gp : List Player) (s : KStatsMap)
    (prev : List (List KMatch)) (numCourts sci : ℕ)
    (hnd : (gp.map Player.id).Nodup) :
    ((assignPlayersToCourts gp s prev numCourts sci).map Player.id).Nodup ∧
    assignPlayersToCourts gp s prev numCourts sci ⊆ gp := by
  have hgpnd : gp.Nodup := hnd.of_map
  unfold assignPlayersToCourts
  cases hlast : prev.getLast? with
  | none => exact ⟨hnd, fun x hx => hx⟩
  | some lastRound =>
    dsimp only
    have key : ∀ R : List PResult, (R.map PResult.player).Perm gp →
        ((courtLoop R numCourts sci ++
          gp.filter fun p => ¬p ∈ courtLoop R numCourts sci).map Player.id).Nodup ∧
        (courtLoop R numCourts sci ++
          gp.filter fun p => ¬p ∈ courtLoop R numCourts sci) ⊆ gp := by
      intro R hR
      have hSnd : (R.map PResult.player).Nodup := hR.nodup_iff.mpr hgpnd
      obtain ⟨hcl1, hcl2⟩ := courtLoop_spec R numCourts sci hSnd
      have hclsub : courtLoop R numCourts sci ⊆ gp := by
        intro x hx
        exact hR.mem_iff.mp (hcl2 hx)
      have hsub : (courtLoop R numCourts sci ++
          gp.filter fun p => ¬p ∈ courtLoop R numCourts sci) ⊆ gp := by
        intro x hx
        rcases List.mem_append.mp hx with h | h
        · exact hclsub h
        · exact List.mem_of_mem_filter h
      have hres : (courtLoop R numCourts sci ++
          gp.filter fun p => ¬p ∈ courtLoop R numCourts sci).Nodup := by
        refine List.Nodup.append hcl1 (hgpnd.filter _) ?_
        intro x hx hx2
        have h3 := List.of_mem_filter hx2
        rw [decide_eq_true_eq] at h3
        exact h3 hx
      exact ⟨nodup_map_key_of_subset Player.id _ gp hres hsub hnd, hsub⟩
    have htop : ∀ f : Player → PResult, (∀ p, (f p).player = p) →
        ((List.insertionSort (fun a b => prBefore a b = true)
          (gp.map f)).map PResult.player).Perm gp := by
      intro f hf
      refine ((List.perm_insertionSort _ _).map PResult.player).trans ?_
      rw [List.map_map]
      have hfe : (PResult.player ∘ f) = fun p => p := funext hf
      rw [hfe]
      simp
    exact key _ (htop _ (fun p => rfl))

theorem generateKOTMatchesForGroup_ids (gp : List Player) (s : KStatsMap)
    (numCourts sci ri : ℕ) (prev : List (List KMatch)) (cih : ℕ)
    (jit : ℕ → ℚ) (shuffle : List Player → List Player)
    (hshuf : ∀ l : List Player, (shuffle l).Perm l)
    (hnd : (gp.map Player.id).Nodup) :
    (kmIds (generateKOTMatchesForGroup gp s numCourts sci ri prev cih jit shuffle).1).Nodup ∧
    ∀ x ∈ kmIds (generateKOTMatchesForGroup gp s numCourts sci ri prev cih jit shuffle).1,
      x ∈ gp.map Player.id := by
  obtain ⟨hpta_nd, hpta_sub⟩ := kotPlayersToAssign_ids gp s numCourts ri jit hnd
  have hpool : ∀ pool : List Player, (pool.map Player.id).Nodup →
      pool ⊆ kotPlayersToAssign gp s numCourts ri jit →
      (kmIds (kotBuildCourts pool s (kotActualCourts gp numCourts) sci ri cih).1).Nodup ∧
      ∀ x ∈ kmIds (kotBuildCourts pool s (kotActualCourts gp numCourts) sci ri cih).1,
        x ∈ gp.map Player.id := by
    intro pool hpnd hpsub
    obtain ⟨hb1, hb2⟩ := kotBuildCourts_ids pool s (kotActualCourts gp numCourts) sci ri cih hpnd
    refine ⟨hb1, ?_⟩
    intro x hx
    rcases List.mem_map.mp (hb2 x hx) with ⟨p, hp, rfl⟩
    exact List.mem_map_of_mem _ (hpta_sub (hpsub hp))
  unfold generateKOTMatchesForGroup
  dsimp only
  split
  · exact hpool (shuffle (kotPlayersToAssign gp s numCourts ri jit))
      (((hshuf _).map Player.id).nodup_iff.mpr hpta_nd) (hshuf _).subset
  · obtain ⟨ha1, ha2⟩ := assignPlayersToCourts_ids
      (kotPlayersToAssign gp s numCourts ri jit) s prev (kotActualCourts gp numCourts)
      sci hpta_nd
    exact hpool _ ha1 ha2

theorem kmIds_append (a b : List KMatch) : kmIds (a ++ b) = kmIds a ++ kmIds b := by
  simp [kmIds]

theorem flat_nodup_parts (gs : List SkillGroup)
    (h : ((gs.flatMap SkillGroup.players).map Player.id).Nodup) :
    (∀ g ∈ gs, (g.players.map Player.id).Nodup) ∧
    List.Pairwise (fun g g' => ∀ x ∈ g.players.map Player.id,
      ¬x ∈ g'.players.map Player.id) gs := by
  induction gs with
  | nil => exact ⟨fun g hg => absurd hg (List.not_mem_nil g), List.Pairwise.nil⟩
  | cons g rest ih =>
    rw [List.flatMap_cons, List.map_append, List.nodup_append] at h
    obtain ⟨hg, hrest, hdisj⟩ := h
    obtain ⟨ih1, ih2⟩ := ih hrest
    refine ⟨?_, ?_⟩
    · intro g' hg'
      rcases List.mem_cons.mp hg' with rfl | hr
      · exact hg
      · exact ih1 g' hr
    · refine List.Pairwise.cons ?_ ih2
      intro g' hg' x hx hx'
      refine hdisj hx ?_
      rcases List.mem_map.mp hx' with ⟨p, hp, rfl⟩
      exact List.mem_map_of_mem _ (List.mem_flatMap.mpr ⟨g', hg', hp⟩)

theorem kotGroupFold_inv (courts roundIndex : ℕ) (prev : List (List KMatch))
    (jit : ℕ → ℚ) (shuffle : List Player → List Player)
    (hshuf : ∀ l : List Player, (shuffle l).Perm l) :
    ∀ (gs : List SkillGroup), ∀ acc : KRoundAcc,
    (kmIds acc.ms).Nodup →
    ((acc.left.map Player.id).Nodup) →
    (∀ x ∈ kmIds acc.ms, ¬x ∈ acc.left.map Player.id) →
    (∀ g ∈ gs, (g.players.map Player.id).Nodup) →
    (∀ g ∈ gs, ∀ x ∈ g.players.map Player.id,
      ¬x ∈ kmIds acc.ms ∧ ¬x ∈ acc.left.map Player.id) →
    List.Pairwise (fun g g' => ∀ x ∈ g.players.map Player.id,
      ¬x ∈ g'.players.map Player.id) gs →
    (kmIds (gs.foldl (kotGroupStep courts roundIndex prev jit shuffle) acc).ms).Nodup ∧
    (((gs.foldl (kotGroupStep courts roundIndex prev jit shuffle) acc).left.map
      Player.id).Nodup) ∧
    (∀ x ∈ kmIds (gs.foldl (kotGroupStep courts roundIndex prev jit shuffle) acc).ms,
      ¬x ∈ (gs.foldl (kotGroupStep courts roundIndex prev jit shuffle) acc).left.map
        Player.id) := by
  intro gs
  induction gs with
  | nil =>
    intro acc h1 h2 h3 _ _ _
    exact ⟨h1, h2, h3⟩
  | cons g rest ih =>
    intro acc h1 h2 h3 h4 h5 h6
    rw [List.foldl_cons]
    obtain ⟨h6head, h6rest⟩ := List.pairwise_cons.mp h6
    by_cases hc : 0 < min (g.players.length / 4) (courts + 1 - acc.gci)
    · have hstep : kotGroupStep courts roundIndex prev jit shuffle acc g =
          { ms := acc.ms ++ (generateKOTMatchesForGroup g.players acc.stats
              (min (g.players.length / 4) (courts + 1 - acc.gci)) acc.gci roundIndex prev
              (min (g.players.length / 4) (courts + 1 - acc.gci)) jit shuffle).1,
            stats := (generateKOTMatchesForGroup g.players acc.stats
              (min (g.players.length / 4) (courts + 1 - acc.gci)) acc.gci roundIndex prev
              (min (g.players.length / 4) (courts + 1 - acc.gci)) jit shuffle).2,
            gci := acc.gci + (generateKOTMatchesForGroup g.players acc.stats
              (min (g.players.length / 4) (courts + 1 - acc.gci)) acc.gci roundIndex prev
              (min (g.players.length / 4) (courts + 1 - acc.gci)) jit shuffle).1.length,
            left := acc.left ++ g.players.filter fun p =>
              ¬p.id ∈ kmIds (generateKOTMatchesForGroup g.players acc.stats
                (min (g.players.length / 4) (courts + 1 - acc.gci)) acc.gci roundIndex prev
                (min (g.players.length / 4) (courts + 1 - acc.gci)) jit shuffle).1 } := by
        simp only [kotGroupStep]
        rw [if_pos hc]
      rw [hstep]
      obtain ⟨hr1, hr2⟩ := generateKOTMatchesForGroup_ids g.players acc.stats
        (min (g.players.length / 4) (courts + 1 - acc.gci)) acc.gci roundIndex prev
        (min (g.players.length / 4) (courts + 1 - acc.gci)) jit shuffle hshuf
        (h4 g (List.mem_cons_self _ _))
      have hfsub : ∀ x ∈ (g.players.filter fun p =>
          ¬p.id ∈ kmIds (generateKOTMatchesForGroup g.players acc.stats
            (min (g.players.length / 4) (courts + 1 - acc.gci)) acc.gci roundIndex prev
            (min (g.players.length / 4) (courts + 1 - acc.gci)) jit shuffle).1).map Player.id,
          x ∈ g.players.map Player.id := by
        intro x hx
        rcases List.mem_map.mp hx with ⟨p, hp, rfl⟩
        exact List.mem_map_of_mem _ (List.mem_of_mem_filter hp)
      refine ih _ ?_ ?_ ?_ (fun g' hg' => h4 g' (List.mem_cons_of_mem _ hg')) ?_ h6rest
      · dsimp only
        rw [kmIds_append]
        refine List.Nodup.append h1 hr1 ?_
        intro x hx hx2
        exact (h5 g (List.mem_cons_self _ _) x (hr2 x hx2)).1 hx
      · dsimp only
        rw [List.map_append]
        refine List.Nodup.append h2 (((List.filter_sublist _).map Player.id).nodup
          (h4 g (List.mem_cons_self _ _))) ?_
        intro x hx hx2
        exact (h5 g (List.mem_cons_self _ _) x (hfsub x hx2)).2 hx
      · dsimp only
        rw [kmIds_append, List.map_append]
        intro x hx hx2
        rcases List.mem_append.mp hx with hxa | hxr
        · rcases List.mem_append.mp hx2 with hxl | hxf
          · exact h3 x hxa hxl
          · exact (h5 g (List.mem_cons_self _ _) x (hfsub x hxf)).1 hxa
        · rcases List.mem_append.mp hx2 with hxl | hxf
          · exact (h5 g (List.mem_cons_self _ _) x (hr2 x hxr)).2 hxl
          · rcases List.mem_map.mp hxf with ⟨p, hp, rfl⟩
            rcases List.mem_filter.mp hp with ⟨hpg, hq⟩
            rw [decide_eq_true_eq] at hq
            exact hq hxr
      · intro g' hg' x hx
        dsimp only
        rw [kmIds_append, List.map_append]
        have hnotg : ¬x ∈ g.players.map Player.id := by
          intro hxg
          exact h6head g' hg' x hxg hx
        constructor
        · intro hx2
          rcases List.mem_append.mp hx2 with hxa | hxr
          · exact (h5 g' (List.mem_cons_of_mem _ hg') x hx).1 hxa
          · exact hnotg (hr2 x hxr)
        · intro hx2
          rcases List.mem_append.mp hx2 with hxl | hxf
          · exact (h5 g' (List.mem_cons_of_mem _ hg') x hx).2 hxl
          · exact hnotg (hfsub x hxf)
    · have hstep : kotGroupStep courts roundIndex prev jit shuffle acc g =
          { ms := acc.ms, stats := acc.stats, gci := acc.gci,
            left := acc.left ++ g.players } := by
        simp only [kotGroupStep]
        rw [if_neg hc]
      rw [hstep]
      refine ih _ ?_ ?_ ?_ (fun g' hg' => h4 g' (List.mem_cons_of_mem _ hg')) ?_ h6rest
      · exact h1
      · dsimp only
        rw [List.map_append]
        refine List.Nodup.append h2 (h4 g (List.mem_cons_self _ _)) ?_
        intro x hx hx2
        exact (h5 g (List.mem_cons_self _ _) x hx2).2 hx
      · dsimp only
        rw [List.map_append]
        intro x hx hx2
        rcases List.mem_append.mp hx2 with hxl | hxg
        · exact h3 x hx hxl
        · exact (h5 g (List.mem_cons_self _ _) x hxg).1 hx
      · intro g' hg' x hx
        dsimp only
        rw [List.map_append]
        have hnotg : ¬x ∈ g.players.map Player.id := by
          intro hxg
          exact h6head g' hg' x hxg hx
        constructor
        · exact (h5 g' (List.mem_cons_of_mem _ hg') x hx).1
        · intro hx2
          rcases List.mem_append.mp hx2 with hxl | hxg
          · exact (h5 g' (List.mem_cons_of_mem _ hg') x hx).2 hxl
          · exact hnotg hxg

theorem kotOverflow_ids (courts cri : ℕ) (prev : List (List KMatch)) (jit : ℕ → ℚ)
    (shuffle : List Player → List Player) (hshuf : ∀ l : List Player, (shuffle l).Perm l)
    (A : KRoundAcc)
    (hms : (kmIds A.ms).Nodup) (hleft : (A.left.map Player.id).Nodup)
    (hdisj : ∀ x ∈ kmIds A.ms, ¬x ∈ A.left.map Player.id) :
    (kmIds (if 0 < courts - (A.gci - 1) ∧ 4 ≤ A.left.length then
        if 0 < min (A.left.length / 4) (courts - (A.gci - 1)) then
          (A.ms ++ (generateKOTMatchesForGroup A.left A.stats
            (min (A.left.length / 4) (courts - (A.gci - 1))) A.gci cri prev
            (min (A.left.length / 4) (courts - (A.gci - 1))) jit shuffle).1,
           (generateKOTMatchesForGroup A.left A.stats
            (min (A.left.length / 4) (courts - (A.gci - 1))) A.gci cri prev
            (min (A.left.length / 4) (courts - (A.gci - 1))) jit shuffle).2)
        else (A.ms, A.stats)
      else (A.ms, A.stats)).1).Nodup := by
  split
  · split
    · dsimp only
      rw [kmIds_append]
      obtain ⟨hr1, hr2⟩ := generateKOTMatchesForGroup_ids A.left A.stats
        (min (A.left.length / 4) (courts - (A.gci - 1))) A.gci cri prev
        (min (A.left.length / 4) (courts - (A.gci - 1))) jit shuffle hshuf hleft
      exact List.Nodup.append hms hr1 (fun x hx hx2 => hdisj x hx (hr2 x hx2))
    · exact hms
  · exact hms

theorem generateKingOfCourtRound_ids (presentPlayers : List Player) (courts : ℕ)
    (kotStats : KStatsMap) (cri : ℕ) (prev : List (List KMatch)) (sep : Bool)
    (jit : ℕ → ℚ) (shuffle : List Player → List Player)
    (hshuf : ∀ l : List Player, (shuffle l).Perm l)
    (hnd : (presentPlayers.map Player.id).Nodup) :
    (kmIds (generateKingOfCourtRound presentPlayers courts kotStats cri prev sep
      jit shuffle).1).Nodup := by
  unfold generateKingOfCourtRound
  dsimp only
  split
  · have hflat : (((separatePlayersBySkill presentPlayers courts).flatMap
        SkillGroup.players).map Player.id).Nodup :=
      ((separatePlayersBySkill_flat_perm presentPlayers courts).map
        Player.id).nodup_iff.mpr hnd
    obtain ⟨hparts, hpair⟩ := flat_nodup_parts _ hflat
    obtain ⟨hms, hleft, hdisj⟩ := kotGroupFold_inv courts cri prev jit shuffle hshuf
      (separatePlayersBySkill presentPlayers courts)
      ⟨[], initializeKingOfCourtStats kotStats presentPlayers, 1, []⟩
      (by simp [kmIds]) (by simp)
      (by
        intro x hx
        simp [kmIds] at hx)
      hparts
      (by
        intro g hg x hx
        constructor
        · intro hc
          simp [kmIds] at hc
        · intro hc
          simp at hc)
      hpair
    exact kotOverflow_ids courts cri prev jit shuffle hshuf _ hms hleft hdisj
  · exact (generateKOTMatchesForGroup_ids presentPlayers _ courts 1 cri prev courts
      jit shuffle hshuf hnd).1

theorem team_any_id (l : List Team) (k : ℕ) :
    (l.any fun t2 => t2.id = k) = true ↔ k ∈ l.map Team.id := by
  rw [List.any_eq_true]
  constructor
  · rintro ⟨t, ht, hq⟩
    rw [decide_eq_true_eq] at hq
    exact List.mem_map.mpr ⟨t, ht, hq⟩
  · intro hmem
    rcases List.mem_map.mp hmem with ⟨t, ht, rfl⟩
    exact ⟨t, ht, by simp⟩

theorem addTeamsIfNotAssigned_spec (S sorted : List Team) :
    ∀ (ts cp : List Team), (cp.map Team.id).Nodup →
    (∀ x ∈ cp.map Team.id, ¬x ∈ sorted.map Team.id) → cp ⊆ S →
    (∀ x ∈ ts, x ∈ S) →
    ((addTeamsIfNotAssigned sorted cp ts).map Team.id).Nodup ∧
    (∀ x ∈ (addTeamsIfNotAssigned sorted cp ts).map Team.id,
      ¬x ∈ sorted.map Team.id) ∧
    addTeamsIfNotAssigned sorted cp ts ⊆ S := by
  intro ts
  induction ts with
  | nil =>
    intro cp h1 h2 h3 _
    exact ⟨h1, h2, h3⟩
  | cons t rest ih =>
    intro cp h1 h2 h3 hts
    unfold addTeamsIfNotAssigned
    rw [List.foldl_cons]
    by_cases hpc : (sorted.any fun t2 => t2.id = t.id) = true ∨
        (cp.any fun t2 => t2.id = t.id) = true
    · rw [if_pos hpc]
      exact ih cp h1 h2 h3 (fun x hx => hts x (List.mem_cons_of_mem _ hx))
    · rw [if_neg hpc]
      push_neg at hpc
      have hns : ¬t.id ∈ sorted.map Team.id := fun hmem =>
        hpc.1 ((team_any_id sorted t.id).mpr hmem)
      have hnc : ¬t.id ∈ cp.map Team.id := fun hmem =>
        hpc.2 ((team_any_id cp t.id).mpr hmem)
      refine ih (cp ++ [t]) ?_ ?_ ?_ (fun x hx => hts x (List.mem_cons_of_mem _ hx))
      · rw [List.map_append, List.map_singleton]
        refine List.Nodup.append h1 (List.nodup_singleton _) ?_
        intro x hx hx2
        rw [List.mem_singleton] at hx2
        subst hx2
        exact hnc hx
      · intro x hx
        rw [List.map_append, List.map_singleton] at hx
        rcases List.mem_append.mp hx with h | h
        · exact h2 x h
        · rw [List.mem_singleton] at h
          subst h
          exact hns
      · intro x hx
        rcases List.mem_append.mp hx with h | h
        · exact h3 h
        · rw [List.mem_singleton] at h
          subst h
          exact hts x (List.mem_cons_self _ _)

theorem addTeamsIfNotAssigned_triple (S sorted ts cp : List Team)
    (h : (cp.map Team.id).Nodup ∧
      (∀ x ∈ cp.map Team.id, ¬x ∈ sorted.map Team.id) ∧ cp ⊆ S)
    (hts : ∀ x ∈ ts, x ∈ S) :
    ((addTeamsIfNotAssigned sorted cp ts).map Team.id).Nodup ∧
    (∀ x ∈ (addTeamsIfNotAssigned sorted cp ts).map Team.id,
      ¬x ∈ sorted.map Team.id) ∧
    addTeamsIfNotAssigned sorted cp ts ⊆ S :=
  addTeamsIfNotAssigned_spec S sorted ts cp h.1 h.2.1 h.2.2 hts

theorem ktCp_ite (S sorted : List Team) (c : Prop) [Decidable c]
    (cp cp' : List Team)
    (h : (cp.map Team.id).Nodup ∧
      (∀ x ∈ cp.map Team.id, ¬x ∈ sorted.map Team.id) ∧ cp ⊆ S)
    (h' : c → ((cp'.map Team.id).Nodup ∧
      (∀ x ∈ cp'.map Team.id, ¬x ∈ sorted.map Team.id) ∧ cp' ⊆ S)) :
    ((if c then cp' else cp).map Team.id).Nodup ∧
    (∀ x ∈ (if c then cp' else cp).map Team.id, ¬x ∈ sorted.map Team.id) ∧
    (if c then cp' else cp) ⊆ S := by
  split
  case isTrue hc => exact h' hc
  case isFalse hc => exact h

theorem ktFiltered_sub (results : List TResult) (q : TResult → Bool) :
    ∀ x ∈ (results.filter q).map TResult.team, x ∈ results.map TResult.team := by
  intro x hx
  rcases List.mem_map.mp hx with ⟨tr, htr, rfl⟩
  exact List.mem_map_of_mem _ (List.mem_of_mem_filter htr)

theorem ktCp_fill (results : List TResult) (sorted cp : List Team)
    (hSnd : (((results.map TResult.team).map Team.id)).Nodup)
    (h : (cp.map Team.id).Nodup ∧
      (∀ x ∈ cp.map Team.id, ¬x ∈ sorted.map Team.id) ∧
      cp ⊆ results.map TResult.team)
    (n : ℕ) :
    (((cp ++ ((results.filter fun tr =>
        ¬(sorted.any fun t2 => t2.id = tr.team.id) = true ∧
        ¬(cp.any fun t2 => t2.id = tr.team.id) = true).map TResult.team).take n).map
      Team.id).Nodup) ∧
    (∀ x ∈ (cp ++ ((results.filter fun tr =>
        ¬(sorted.any fun t2 => t2.id = tr.team.id) = true ∧
        ¬(cp.any fun t2 => t2.id = tr.team.id) = true).map TResult.team).take n).map
      Team.id, ¬x ∈ sorted.map Team.id) ∧
    (cp ++ ((results.filter fun tr =>
        ¬(sorted.any fun t2 => t2.id = tr.team.id) = true ∧
        ¬(cp.any fun t2 => t2.id = tr.team.id) = true).map TResult.team).take n) ⊆
      results.map TResult.team := by
  obtain ⟨hn, ha, hs⟩ := h
  have htake_nd : ((((results.filter fun tr =>
      ¬(sorted.any fun t2 => t2.id = tr.team.id) = true ∧
      ¬(cp.any fun t2 => t2.id = tr.team.id) = true).map TResult.team).take n).map
      Team.id).Nodup :=
    (((List.take_sublist _ _).map Team.id).trans
      (((List.filter_sublist _).map TResult.team).map Team.id)).nodup hSnd
  have hmem : ∀ x ∈ (((results.filter fun tr =>
      ¬(sorted.any fun t2 => t2.id = tr.team.id) = true ∧
      ¬(cp.any fun t2 => t2.id = tr.team.id) = true).map TResult.team).take n),
      ¬x.id ∈ sorted.map Team.id ∧ ¬x.id ∈ cp.map Team.id ∧
        x ∈ results.map TResult.team := by
    intro x hx
    have hx2 := List.mem_of_mem_take hx
    rcases List.mem_map.mp hx2 with ⟨tr, htr, rfl⟩
    rcases List.mem_filter.mp htr with ⟨htrres, hq⟩
    rw [decide_eq_true_eq] at hq
    refine ⟨fun hmem => hq.1 ((team_any_id sorted tr.team.id).mpr hmem),
      fun hmem => hq.2 ((team_any_id cp tr.team.id).mpr hmem),
      List.mem_map_of_mem _ htrres⟩
  refine ⟨?_, ?_, ?_⟩
  · rw [List.map_append]
    refine List.Nodup.append hn htake_nd ?_
    intro x hxcp hxtake
    rcases List.mem_map.mp hxtake with ⟨t, ht, rfl⟩
    exact (hmem t ht).2.1 hxcp
  · intro x hx
    rw [List.map_append] at hx
    rcases List.mem_append.mp hx with h | h
    · exact ha x h
    · rcases List.mem_map.mp h with ⟨t, ht, rfl⟩
      exact (hmem t ht).1
  · intro x hx
    rcases List.mem_append.mp hx with h | h
    · exact hs h
    · exact (hmem x h).2.2

theorem ktAssigned_extend (results : List TResult) (sorted cp : List Team)
    (h1 : (sorted.map Team.id).Nodup) (h2 : sorted ⊆ results.map TResult.team)
    (h : (cp.map Team.id).Nodup ∧
      (∀ x ∈ cp.map Team.id, ¬x ∈ sorted.map Team.id) ∧
      cp ⊆ results.map TResult.team)
    (n : ℕ) :
    ((sorted ++ cp.take n).map Team.id).Nodup ∧
    (sorted ++ cp.take n) ⊆ results.map TResult.team := by
  obtain ⟨hn, ha, hs⟩ := h
  refine ⟨?_, ?_⟩
  · rw [List.map_append]
    refine List.Nodup.append h1 (((List.take_sublist _ _).map Team.id).nodup hn) ?_
    intro x hxa hxt
    refine ha x ?_ hxa
    rcases List.mem_map.mp hxt with ⟨t, ht, rfl⟩
    exact List.mem_map_of_mem _ (List.mem_of_mem_take ht)
  · intro x hx
    rcases List.mem_append.mp hx with h | h
    · exact h2 h
    · exact hs (List.mem_of_mem_take h)

theorem kotTeamAssembleStep_spec (results : List TResult) (numCourts sci : ℕ)
    (hS : ((results.map TResult.team).map Team.id).Nodup)
    (sorted : List Team) (courtIdx : ℕ)
    (h1 : (sorted.map Team.id).Nodup) (h2 : sorted ⊆ results.map TResult.team) :
    ((kotTeamAssembleStep results numCourts sci sorted courtIdx).map Team.id).Nodup ∧
    kotTeamAssembleStep results numCourts sci sorted courtIdx ⊆
      results.map TResult.team := by
  unfold kotTeamAssembleStep
  dsimp only
  refine ktAssigned_extend results sorted _ h1 h2 ?_ 2
  refine ktCp_ite _ _ _ _ _ ?_ (fun _ => ktCp_fill results sorted _ hS ?_ _)
  · refine addTeamsIfNotAssigned_triple _ _ _ _ ?_ (fun x hx => ktFiltered_sub _ _ x hx)
    refine ktCp_ite _ _ _ _ _ ?_ (fun _ => addTeamsIfNotAssigned_triple _ _ _ _ ?_ ?_)
    · refine ktCp_ite _ _ _ _ _ ?_ (fun _ => addTeamsIfNotAssigned_triple _ _ _ _ ?_ ?_)
      · exact addTeamsIfNotAssigned_triple _ _ _ _
          ⟨List.nodup_nil, fun x hx => absurd hx (List.not_mem_nil x), List.nil_subset _⟩
          (fun x hx => ktFiltered_sub _ _ x hx)
      · exact addTeamsIfNotAssigned_triple _ _ _ _
          ⟨List.nodup_nil, fun x hx => absurd hx (List.not_mem_nil x), List.nil_subset _⟩
          (fun x hx => ktFiltered_sub _ _ x hx)
      · intro x hx
        rcases mem_ite_or hx with h | h
        · exact ktFiltered_sub _ _ x (List.mem_of_mem_take h)
        · cases h
    · refine ktCp_ite _ _ _ _ _ ?_ (fun _ => addTeamsIfNotAssigned_triple _ _ _ _ ?_ ?_)
      · exact addTeamsIfNotAssigned_triple _ _ _ _
          ⟨List.nodup_nil, fun x hx => absurd hx (List.not_mem_nil x), List.nil_subset _⟩
          (fun x hx => ktFiltered_sub _ _ x hx)
      · exact addTeamsIfNotAssigned_triple _ _ _ _
          ⟨List.nodup_nil, fun x hx => absurd hx (List.not_mem_nil x), List.nil_subset _⟩
          (fun x hx => ktFiltered_sub _ _ x hx)
      · intro x hx
        rcases mem_ite_or hx with h | h
        · exact ktFiltered_sub _ _ x (List.mem_of_mem_take h)
        · cases h
    · intro x hx
      rcases mem_ite_or hx with h | h
      · exact ktFiltered_sub _ _ x (List.mem_of_mem_take h)
      · cases h
  · refine addTeamsIfNotAssigned_triple _ _ _ _ ?_ (fun x hx => ktFiltered_sub _ _ x hx)
    refine ktCp_ite _ _ _ _ _ ?_ (fun _ => addTeamsIfNotAssigned_triple _ _ _ _ ?_ ?_)
    · refine ktCp_ite _ _ _ _ _ ?_ (fun _ => addTeamsIfNotAssigned_triple _ _ _ _ ?_ ?_)
      · exact addTeamsIfNotAssigned_triple _ _ _ _
          ⟨List.nodup_nil, fun x hx => absurd hx (List.not_mem_nil x), List.nil_subset _⟩
          (fun x hx => ktFiltered_sub _ _ x hx)
      · exact addTeamsIfNotAssigned_triple _ _ _ _
          ⟨List.nodup_nil, fun x hx => absurd hx (List.not_mem_nil x), List.nil_subset _⟩
          (fun x hx => ktFiltered_sub _ _ x hx)
      · intro x hx
        rcases mem_ite_or hx with h | h
        · exact ktFiltered_sub _ _ x (List.mem_of_mem_take h)
        · cases h
    · refine ktCp_ite _ _ _ _ _ ?_ (fun _ => addTeamsIfNotAssigned_triple _ _ _ _ ?_ ?_)
      · exact addTeamsIfNotAssigned_triple _ _ _ _
          ⟨List.nodup_nil, fun x hx => absurd hx (List.not_mem_nil x), List.nil_subset _⟩
          (fun x hx => ktFiltered_sub _ _ x hx)
      · exact addTeamsIfNotAssigned_triple _ _ _ _
          ⟨List.nodup_nil, fun x hx => absurd hx (List.not_mem_nil x), List.nil_subset _⟩
          (fun x hx => ktFiltered_sub _ _ x hx)
      · intro x hx
        rcases mem_ite_or hx with h | h
        · exact ktFiltered_sub _ _ x (List.mem_of_mem_take h)
        · cases h
    · intro x hx
      rcases mem_ite_or hx with h | h
      · exact ktFiltered_sub _ _ x (List.mem_of_mem_take h)
      · cases h

theorem courtLoopT_inv (results : List TResult) (numCourts sci : ℕ)
    (hS : ((results.map TResult.team).map Team.id).Nodup) :
    ∀ (idxs : List ℕ) (sorted : List Team),
    (sorted.map Team.id).Nodup → sorted ⊆ results.map TResult.team →
    ((idxs.foldl (kotTeamAssembleStep results numCourts sci) sorted).map
      Team.id).Nodup ∧
    (idxs.foldl (kotTeamAssembleStep results numCourts sci) sorted) ⊆
      results.map TResult.team := by
  intro idxs
  induction idxs with
  | nil =>
    intro sorted h1 h2
    exact ⟨h1, h2⟩
  | cons i rest ih =>
    intro sorted h1 h2
    rw [List.foldl_cons]
    obtain ⟨h1', h2'⟩ := kotTeamAssembleStep_spec results numCourts sci hS sorted i h1 h2
    exact ih _ h1' h2'

theorem courtLoopT_spec (results : List TResult) (numCourts sci : ℕ)
    (hS : ((results.map TResult.team).map Team.id).Nodup) :
    ((courtLoopT results numCourts sci).map Team.id).Nodup ∧
    courtLoopT results numCourts sci ⊆ results.map TResult.team := by
  unfold courtLoopT
  exact courtLoopT_inv results numCourts sci hS (List.range numCourts) []
    List.nodup_nil (List.nil_subset _)

theorem assignTeamsToCourts_ids (gt : List Team) (s : KStatsMap)
    (prev : List (List KTMatch)) (numCourts sci : ℕ)
    (hnd : (gt.map Team.id).Nodup) :
    ((assignTeamsToCourts gt s prev numCourts sci).map Team.id).Nodup ∧
    assignTeamsToCourts gt s prev numCourts sci ⊆ gt := by
  unfold assignTeamsToCourts
  cases hlast : prev.getLast? with
  | none => exact ⟨hnd, fun x hx => hx⟩
  | some lastRound =>
    dsimp only
    have key : ∀ R : List TResult, (R.map TResult.team).Perm gt →
        ((courtLoopT R numCourts sci ++
          gt.filter fun t =>
            ¬((courtLoopT R numCourts sci).any fun st => st.id = t.id) = true).map
          Team.id).Nodup ∧
        (courtLoopT R numCourts sci ++
          gt.filter fun t =>
            ¬((courtLoopT R numCourts sci).any fun st => st.id = t.id) = true) ⊆ gt := by
      intro R hR
      have hSnd : ((R.map TResult.team).map Team.id).Nodup :=
        ((hR.map Team.id).nodup_iff).mpr hnd
      obtain ⟨hcl1, hcl2⟩ := courtLoopT_spec R numCourts sci hSnd
      have hclsub : courtLoopT R numCourts sci ⊆ gt := by
        intro x hx
        exact hR.mem_iff.mp (hcl2 hx)
      have hfmem : ∀ t ∈ gt.filter fun t =>
          ¬((courtLoopT R numCourts sci).any fun st => st.id = t.id) = true,
          t ∈ gt ∧ ¬t.id ∈ (courtLoopT R numCourts sci).map Team.id := by
        intro t ht
        rcases List.mem_filter.mp ht with ⟨htg, hq⟩
        rw [decide_eq_true_eq] at hq
        exact ⟨htg, fun hmem => hq ((team_any_id _ t.id).mpr hmem)⟩
      refine ⟨?_, ?_⟩
      · rw [List.map_append]
        refine List.Nodup.append hcl1
          (((List.filter_sublist _).map Team.id).nodup hnd) ?_
        intro x hx hx2
        rcases List.mem_map.mp hx2 with ⟨t, ht, rfl⟩
        exact (hfmem t ht).2 hx
      · intro x hx
        rcases List.mem_append.mp hx with h | h
        · exact hclsub h
        · exact (hfmem x h).1
    have htop : ∀ f : Team → TResult, (∀ t, (f t).team = t) →
        ((List.insertionSort (fun a b => trBefore a b = true)
          (gt.map f)).map TResult.team).Perm gt := by
      intro f hf
      refine ((List.perm_insertionSort _ _).map TResult.team).trans ?_
      rw [List.map_map]
      have hfe : (TResult.team ∘ f) = fun t => t := funext hf
      rw [hfe]
      simp
    exact key _ (htop _ (fun t => rfl))

theorem kotTeamsToAssign_ids (gt : List Team) (s : KStatsMap)
    (numCourts roundIndex : ℕ) (hnd : (gt.map Team.id).Nodup) :
    ((kotTeamsToAssign gt s numCourts roundIndex).map Team.id).Nodup ∧
    kotTeamsToAssign gt s numCourts roundIndex ⊆ gt := by
  unfold kotTeamsToAssign selectTeamsForKOTRound
  dsimp only
  split
  · split
    · exact ⟨hnd, fun x hx => hx⟩
    · refine ⟨take_sortDescBy_key_nodup _ _ _ _ hnd, ?_⟩
      intro x hx
      exact (sortDescBy_perm _ gt).mem_iff.mp (List.mem_of_mem_take hx)
  · exact ⟨hnd, fun x hx => hx⟩

theorem ktCourtStep_ktmIds (pool : List Team) (sci ri cih : ℕ)
    (acc : List KTMatch × KStatsMap) (i : ℕ) :
    ∃ newIds : List ℕ,
      ktmIds (ktCourtStep pool sci ri cih acc i).1 = ktmIds acc.1 ++ newIds ∧
      (newIds = [] ∨ newIds = ((pool.drop (i * 2)).take 2).map Team.id) := by
  rcases hsl : (pool.drop (i * 2)).take 2 with _ | ⟨t1, _ | ⟨t2, rest⟩⟩
  · refine ⟨[], ?_, Or.inl rfl⟩
    simp only [ktCourtStep, hsl]
    simp
  · refine ⟨[], ?_, Or.inl rfl⟩
    simp only [ktCourtStep, hsl]
    simp
  · have hlen := congrArg List.length hsl
    simp only [List.length_take, List.length_cons] at hlen
    have hrest : rest = [] := List.length_eq_zero.mp (by omega)
    subst hrest
    refine ⟨[t1.id, t2.id], ?_, Or.inr ?_⟩
    · simp only [ktCourtStep, hsl]
      simp [ktmIds]
    · simp

theorem ktBuildFold_inv (pool : List Team) (sci ri cih : ℕ)
    (hpool : (pool.map Team.id).Nodup) :
    ∀ (idxs : List ℕ), idxs.Nodup →
    ∀ acc : List KTMatch × KStatsMap,
    (ktmIds acc.1).Nodup →
    (∀ i ∈ idxs, ∀ x ∈ ktmIds acc.1, ¬x ∈ ((pool.drop (i * 2)).take 2).map Team.id) →
    (ktmIds (idxs.foldl (ktCourtStep pool sci ri cih) acc).1).Nodup ∧
    ∀ x ∈ ktmIds (idxs.foldl (ktCourtStep pool sci ri cih) acc).1,
      x ∈ ktmIds acc.1 ∨ ∃ i ∈ idxs, x ∈ ((pool.drop (i * 2)).take 2).map Team.id := by
  intro idxs
  induction idxs with
  | nil =>
    intro _ acc h1 _
    exact ⟨h1, fun x hx => Or.inl hx⟩
  | cons i rest ih =>
    intro hnd acc h1 h2
    rw [List.nodup_cons] at hnd
    obtain ⟨hirest, hndrest⟩ := hnd
    obtain ⟨newIds, heq, hcase⟩ := ktCourtStep_ktmIds pool sci ri cih acc i
    simp only [List.foldl_cons]
    have hsliceNodup : (((pool.drop (i * 2)).take 2).map Team.id).Nodup :=
      (((List.take_sublist _ _).trans (List.drop_sublist _ _)).map Team.id).nodup hpool
    have hnew_sub : ∀ x ∈ newIds, x ∈ ((pool.drop (i * 2)).take 2).map Team.id := by
      rcases hcase with rfl | rfl
      · intro x hx
        cases hx
      · intro x hx
        exact hx
    have h1' : (ktmIds (ktCourtStep pool sci ri cih acc i).1).Nodup := by
      rw [heq]
      rcases hcase with rfl | rfl
      · simpa using h1
      · refine List.Nodup.append h1 hsliceNodup ?_
        intro x hx hx2
        exact h2 i (List.mem_cons_self _ _) x hx hx2
    have h2' : ∀ j ∈ rest, ∀ x ∈ ktmIds (ktCourtStep pool sci ri cih acc i).1,
        ¬x ∈ ((pool.drop (j * 2)).take 2).map Team.id := by
      intro j hj x hx hxj
      rw [heq] at hx
      rcases List.mem_append.mp hx with hxold | hxnew
      · exact h2 j (List.mem_cons_of_mem _ hj) x hxold hxj
      · have hij : i ≠ j := fun h => hirest (h ▸ hj)
        exact slices_disjoint Team.id pool 2 hpool i j hij x (hnew_sub x hxnew) hxj
    obtain ⟨hn, hm⟩ := ih hndrest _ h1' h2'
    refine ⟨hn, ?_⟩
    intro x hx
    rcases hm x hx with hxacc | ⟨j, hj, hxj⟩
    · rw [heq] at hxacc
      rcases List.mem_append.mp hxacc with hxa | hxn
      · exact Or.inl hxa
      · exact Or.inr ⟨i, List.mem_cons_self _ _, hnew_sub x hxn⟩
    · exact Or.inr ⟨j, List.mem_cons_of_mem _ hj, hxj⟩

theorem ktBuildCourts_ids (pool : List Team) (s : KStatsMap)
    (actualCourts sci ri cih : ℕ) (hpool : (pool.map Team.id).Nodup) :
    (ktmIds (ktBuildCourts pool s actualCourts sci ri cih).1).Nodup ∧
    ∀ x ∈ ktmIds (ktBuildCourts pool s actualCourts sci ri cih).1,
      x ∈ pool.map Team.id := by
  unfold ktBuildCourts
  obtain ⟨hn, hm⟩ := ktBuildFold_inv pool sci ri cih hpool
    (List.range actualCourts) (List.nodup_range _) ([], s) (by simp [ktmIds])
    (by
      intro i _ x hx
      simp [ktmIds] at hx)
  refine ⟨hn, ?_⟩
  intro x hx
  rcases hm x hx with h0 | ⟨i, _, hxi⟩
  · simp [ktmIds] at h0
  · exact (List.map_subset Team.id
      ((List.take_subset _ _).trans (List.drop_subset _ _))) hxi

theorem generateKOTMatchesForTeamGroup_ids (gt : List Team) (s : KStatsMap)
    (numCourts sci ri : ℕ) (prev : List (List KTMatch)) (cih : ℕ)
    (tshuffle : List Team → List Team)
    (hshuf : ∀ l : List Team, (tshuffle l).Perm l)
    (hnd : (gt.map Team.id).Nodup) :
    (ktmIds (generateKOTMatchesForTeamGroup gt s numCourts sci ri prev cih
      tshuffle).1).Nodup ∧
    ∀ x ∈ ktmIds (generateKOTMatchesForTeamGroup gt s numCourts sci ri prev cih
      tshuffle).1, x ∈ gt.map Team.id := by
  obtain ⟨htta_nd, htta_sub⟩ := kotTeamsToAssign_ids gt s numCourts ri hnd
  have hpool : ∀ pool : List Team, (pool.map Team.id).Nodup →
      pool ⊆ kotTeamsToAssign gt s numCourts ri →
      (ktmIds (ktBuildCourts pool s (kotTeamActualCourts gt numCourts) sci ri
        cih).1).Nodup ∧
      ∀ x ∈ ktmIds (ktBuildCourts pool s (kotTeamActualCourts gt numCourts) sci ri
        cih).1, x ∈ gt.map Team.id := by
    intro pool hpnd hpsub
    obtain ⟨hb1, hb2⟩ := ktBuildCourts_ids pool s (kotTeamActualCourts gt numCourts)
      sci ri cih hpnd
    refine ⟨hb1, ?_⟩
    intro x hx
    rcases List.mem_map.mp (hb2 x hx) with ⟨t, ht, rfl⟩
    exact List.mem_map_of_mem _ (htta_sub (hpsub ht))
  unfold generateKOTMatchesForTeamGroup
  dsimp only
  split
  · exact hpool (tshuffle (kotTeamsToAssign gt s numCourts ri))
      (((hshuf _).map Team.id).nodup_iff.mpr htta_nd) (hshuf _).subset
  · obtain ⟨ha1, ha2⟩ := assignTeamsToCourts_ids
      (kotTeamsToAssign gt s numCourts ri) s prev (kotTeamActualCourts gt numCourts)
      sci htta_nd
    exact hpool _ ha1 ha2

theorem ktmIds_append (a b : List KTMatch) :
    ktmIds (a ++ b) = ktmIds a ++ ktmIds b := by
  simp [ktmIds]

theorem ktGroupFold_inv (courts roundIndex : ℕ) (prev : List (List KTMatch))
    (tshuffle : List Team → List Team)
    (hshuf : ∀ l : List Team, (tshuffle l).Perm l) :
    ∀ (gss : List (List Team)), ∀ acc : KTRoundAcc,
    (ktmIds acc.ms).Nodup →
    (∀ ts ∈ gss, (ts.map Team.id).Nodup) →
    (∀ ts ∈ gss, ∀ x ∈ ts.map Team.id, ¬x ∈ ktmIds acc.ms) →
    List.Pairwise (fun ts ts2 => ∀ x ∈ ts.map Team.id,
      ¬x ∈ ts2.map Team.id) gss →
    (ktmIds (gss.foldl (ktGroupStep courts roundIndex prev tshuffle) acc).ms).Nodup := by
  intro gss
  induction gss with
  | nil =>
    intro acc h1 _ _ _
    exact h1
  | cons ts rest ih =>
    intro acc h1 h4 h5 h6
    rw [List.foldl_cons]
    obtain ⟨h6head, h6rest⟩ := List.pairwise_cons.mp h6
    have hcarry : ∀ newMs : List KTMatch,
        (ktmIds newMs).Nodup →
        (∀ x ∈ ktmIds newMs, x ∈ ktmIds acc.ms ∨ x ∈ ts.map Team.id) →
        ∀ stats2 gci2,
        (ktmIds ((rest.foldl (ktGroupStep courts roundIndex prev tshuffle)
          { ms := newMs, stats := stats2, gci := gci2 }).ms)).Nodup := by
      intro newMs hn hsub stats2 gci2
      refine ih _ hn (fun ts2 hts2 => h4 ts2 (List.mem_cons_of_mem _ hts2)) ?_ h6rest
      intro ts2 hts2 x hx hx2
      rcases hsub x hx2 with hold | hts
      · exact h5 ts2 (List.mem_cons_of_mem _ hts2) x hx hold
      · exact h6head ts2 hts2 x hts hx
    by_cases hlen : 2 ≤ ts.length
    · by_cases hac : 0 < min (ts.length / 2) (courts + 1 - acc.gci)
      · have hstep : ktGroupStep courts roundIndex prev tshuffle acc ts =
            { ms := acc.ms ++ (generateKOTMatchesForTeamGroup ts acc.stats
                (min (ts.length / 2) (courts + 1 - acc.gci)) acc.gci roundIndex prev
                (min (ts.length / 2) (courts + 1 - acc.gci)) tshuffle).1,
              stats := (generateKOTMatchesForTeamGroup ts acc.stats
                (min (ts.length / 2) (courts + 1 - acc.gci)) acc.gci roundIndex prev
                (min (ts.length / 2) (courts + 1 - acc.gci)) tshuffle).2,
              gci := acc.gci + (generateKOTMatchesForTeamGroup ts acc.stats
                (min (ts.length / 2) (courts + 1 - acc.gci)) acc.gci roundIndex prev
                (min (ts.length / 2) (courts + 1 - acc.gci)) tshuffle).1.length } := by
          simp only [ktGroupStep]
          rw [if_pos hlen, if_pos hac]
        rw [hstep]
        obtain ⟨hr1, hr2⟩ := generateKOTMatchesForTeamGroup_ids ts acc.stats
          (min (ts.length / 2) (courts + 1 - acc.gci)) acc.gci roundIndex prev
          (min (ts.length / 2) (courts + 1 - acc.gci)) tshuffle hshuf
          (h4 ts (List.mem_cons_self _ _))
        refine hcarry _ ?_ ?_ _ _
        · rw [ktmIds_append]
          refine List.Nodup.append h1 hr1 ?_
          intro x hx hx2
          exact h5 ts (List.mem_cons_self _ _) x (hr2 x hx2) hx
        · intro x hx
          rw [ktmIds_append] at hx
          rcases List.mem_append.mp hx with h | h
          · exact Or.inl h
          · exact Or.inr (hr2 x h)
      · have hstep : ktGroupStep courts roundIndex prev tshuffle acc ts = acc := by
          simp only [ktGroupStep]
          rw [if_pos hlen, if_neg hac]
        rw [hstep]
        exact ih _ h1 (fun ts2 hts2 => h4 ts2 (List.mem_cons_of_mem _ hts2))
          (fun ts2 hts2 => h5 ts2 (List.mem_cons_of_mem _ hts2)) h6rest
    · have hstep : ktGroupStep courts roundIndex prev tshuffle acc ts = acc := by
        simp only [ktGroupStep]
        rw [if_neg hlen]
      rw [hstep]
      exact ih _ h1 (fun ts2 hts2 => h4 ts2 (List.mem_cons_of_mem _ hts2))
        (fun ts2 hts2 => h5 ts2 (List.mem_cons_of_mem _ hts2)) h6rest

theorem generateKingOfCourtTeamedRound_ids (presentTeams : List Team) (courts : ℕ)
    (kotTeamStats : KStatsMap) (cri : ℕ) (prev : List (List KTMatch)) (sep : Bool)
    (tshuffle : List Team → List Team)
    (hshuf : ∀ l : List Team, (tshuffle l).Perm l)
    (hnd : (presentTeams.map Team.id).Nodup) :
    (ktmIds (generateKingOfCourtTeamedRound presentTeams courts kotTeamStats cri
      prev sep tshuffle).1).Nodup := by
  unfold generateKingOfCourtTeamedRound
  dsimp only
  split
  · have hgender : ∀ (g1 g2 : TeamGender), g1 ≠ g2 →
        ∀ i, i ∈ ((presentTeams.filter fun t => t.gender = g1).map Team.id) →
          ¬i ∈ ((presentTeams.filter fun t => t.gender = g2).map Team.id) := by
      intro g1 g2 hne i hi1 hi2
      rcases List.mem_map.mp hi1 with ⟨t1, ht1, rfl⟩
      rcases List.mem_map.mp hi2 with ⟨t2, ht2, heq⟩
      obtain ⟨ht1m, ht1g⟩ := List.mem_filter.mp ht1
      obtain ⟨ht2m, ht2g⟩ := List.mem_filter.mp ht2
      simp only [decide_eq_true_eq] at ht1g ht2g
      have : t2 = t1 := List.inj_on_of_nodup_map hnd ht2m ht1m heq
      exact hne (by rw [← ht1g, ← this]; exact ht2g)
    refine ktGroupFold_inv courts cri prev tshuffle hshuf
      [presentTeams.filter fun t => t.gender = TeamGender.male_male,
       presentTeams.filter fun t => t.gender = TeamGender.female_female,
       presentTeams.filter fun t => t.gender = TeamGender.mixed]
      ⟨[], initializeKingOfCourtTeamStats kotTeamStats presentTeams, 1⟩
      (by simp [ktmIds]) ?_ ?_ ?_
    · intro ts hts
      rcases List.mem_cons.mp hts with rfl | hts2
      · exact ((List.filter_sublist _).map Team.id).nodup hnd
      rcases List.mem_cons.mp hts2 with rfl | hts3
      · exact ((List.filter_sublist _).map Team.id).nodup hnd
      rcases List.mem_cons.mp hts3 with rfl | hts4
      · exact ((List.filter_sublist _).map Team.id).nodup hnd
      · cases hts4
    · intro ts _ x _ hx
      simp [ktmIds] at hx
    · refine List.Pairwise.cons ?_ (List.Pairwise.cons ?_
        (List.Pairwise.cons ?_ List.Pairwise.nil))
      · intro ts2 hts2 x hx
        rcases List.mem_cons.mp hts2 with rfl | hts3
        · exact hgender _ _ (by simp) x hx
        rcases List.mem_cons.mp hts3 with rfl | hts4
        · exact hgender _ _ (by simp) x hx
        · cases hts4
      · intro ts2 hts2 x hx
        rcases List.mem_cons.mp hts2 with rfl | hts3
        · exact hgender _ _ (by simp) x hx
        · cases hts3
      · intro ts2 hts2
        cases hts2
  · exact (generateKOTMatchesForTeamGroup_ids presentTeams _ courts 1 cri prev
      courts tshuffle hshuf hnd).1

/-- **C2**: in the match list returned by any single round-generation call —
singles, round-robin doubles with the fairness sweep, teamed doubles, or
either King-of-Court variant — every player id (respectively team id)
appears in at most one match: the id multiset of the generated round is
duplicate-free, whenever the input roster ids are duplicate-free and the
first-round random shuffles are modelled as permutations. -/
theorem C2_round_id_unique
    (presentPlayers : List Player) (teams : List Team) (courts : ℕ)
    (ds : DStatsMap) (ts : TStatsMap) (ks kts : KStatsMap)
    (roundIdx : ℕ) (separateBySkill pm : Bool) (restInterval : ℕ)
    (prevD : List (List DMatch)) (prevK : List (List KMatch))
    (prevKT : List (List KTMatch))
    (jit : ℕ → ℚ) (sjit : ℕ → ℕ → ℕ → ℕ → ℕ → ℚ) (picks : ℕ → ℕ → ℕ → ℕ → ℕ)
    (shuffle : List Player → List Player) (tshuffle : List Team → List Team)
    (hshuf : ∀ l : List Player, (shuffle l).Perm l)
    (htshuf : ∀ l : List Team, (tshuffle l).Perm l)
    (hp : (presentPlayers.map Player.id).Nodup)
    (ht : (teams.map Team.id).Nodup) :
    (smIds (generateSinglesRound presentPlayers courts ds roundIdx jit)).Nodup ∧
    (dmIds (generateRoundRobinRound presentPlayers courts ds roundIdx
      separateBySkill pm restInterval prevD jit sjit picks)).Nodup ∧
    (tmIds (generateTeamedDoublesRound teams courts ts roundIdx jit).1).Nodup ∧
    (kmIds (generateKingOfCourtRound presentPlayers courts ks roundIdx prevK
      separateBySkill jit shuffle).1).Nodup ∧
    (ktmIds (generateKingOfCourtTeamedRound teams courts kts roundIdx prevKT
      separateBySkill tshuffle).1).Nodup :=
  ⟨generateSinglesRound_ids_nodup presentPlayers courts ds roundIdx jit hp,
   generateRoundRobinRound_ids presentPlayers courts ds roundIdx separateBySkill pm
     restInterval prevD jit sjit picks hp,
   generateTeamedDoublesRound_ids teams courts ts roundIdx jit ht,
   generateKingOfCourtRound_ids presentPlayers courts ks roundIdx prevK
     separateBySkill jit shuffle hshuf hp,
   generateKingOfCourtTeamedRound_ids teams courts kts roundIdx prevKT
     separateBySkill tshuffle htshuf ht⟩

/-- Instantiation of `C2_round_id_unique` at a two-player, one-team roster
on one court with identity first-round shuffles. -/
theorem C2_round_id_unique_witness :
    (∀ l : List Player, ((fun l : List Player => l) l).Perm l) ∧
    (∀ l : List Team, ((fun l : List Team => l) l).Perm l) ∧
    (([⟨1, 2, Gender.male⟩, ⟨2, 2, Gender.female⟩] : List Player).map
      Player.id).Nodup ∧
    (([⟨1, ⟨1, 3, Gender.male⟩, ⟨2, 3, Gender.male⟩, 3, TeamGender.male_male⟩] :
      List Team).map Team.id).Nodup ∧
    ((smIds (generateSinglesRound [⟨1, 2, Gender.male⟩, ⟨2, 2, Gender.female⟩] 1 []
        0 (fun _ => 0))).Nodup ∧
     (dmIds (generateRoundRobinRound [⟨1, 2, Gender.male⟩, ⟨2, 2, Gender.female⟩] 1
        [] 0 false false 99 [] (fun _ => 0) (fun _ _ _ _ _ => 0)
        (fun _ _ _ _ => 0))).Nodup ∧
     (tmIds (generateTeamedDoublesRound
        [⟨1, ⟨1, 3, Gender.male⟩, ⟨2, 3, Gender.male⟩, 3, TeamGender.male_male⟩] 1 []
        0 (fun _ => 0)).1).Nodup ∧
     (kmIds (generateKingOfCourtRound [⟨1, 2, Gender.male⟩, ⟨2, 2, Gender.female⟩] 1
        [] 0 [] false (fun _ => 0) (fun l => l)).1).Nodup ∧
     (ktmIds (generateKingOfCourtTeamedRound
        [⟨1, ⟨1, 3, Gender.male⟩, ⟨2, 3, Gender.male⟩, 3, TeamGender.male_male⟩] 1 []
        0 [] false (fun l => l)).1).Nodup) :=
  ⟨fun l => List.Perm.refl l, fun l => List.Perm.refl l, by decide, by decide,
   C2_round_id_unique [⟨1, 2, Gender.male⟩, ⟨2, 2, Gender.female⟩]
     [⟨1, ⟨1, 3, Gender.male⟩, ⟨2, 3, Gender.male⟩, 3, TeamGender.male_male⟩]
     1 [] [] [] [] 0 false false 99 [] [] []
     (fun _ => 0) (fun _ _ _ _ _ => 0) (fun _ _ _ _ => 0) (fun l => l) (fun l => l)
     (fun l => List.Perm.refl l) (fun l => List.Perm.refl l) (by decide) (by decide)⟩

